import Mathlib

/-!
# environ-go: proof records, tickets and weight reconciliation

A shallow embedding of the chaincode in `src/` (`weight_comparison.go`,
`proof_record_manager.go`, `ticket_manager.go`, `utils.go`, and the point
lookup of `query_utils.go`).

Modelling conventions.

* A value of Go type `interface{}` produced by `encoding/json` is a `JVal`.
  `encoding/json` decodes every JSON number into a `float64`, so the `case int`
  arms of the type switches in `weight_comparison.go` are never taken and a
  number is always `JVal.num`.
* A `float64` is an `F64`: a finite value, an infinity or NaN.  Every sum,
  product and quotient is rounded to the nearest binary64 value, ties to even,
  and overflows to an infinity.  The two zeros are not distinguished.  A
  `float64` that `encoding/json` decoded is finite, and is held as the rational
  number it denotes.
* `int` has 64 bits.  The conversion `int(x)` of a `float64` outside its range
  is implementation-dependent in Go and is a parameter (`Arch`).
* A Go `map[string]interface{}` is an association list read with `getField`
  (first binding wins) and written with `setField`.
* The ledger stub is an external collaborator.  It is modelled by `Stub`: the
  world state, the calls issued so far, and oracles that say which calls fail.
  A point read does not fail in `Stub`; where the code handles its error, the
  error is an argument of the function.
* A run-time panic (a failed type assertion) is the result `none`.
* What Go leaves unspecified (the iteration order of `range` over a map, how
  `sort.Slice` orders entries that compare equal) is a parameter, `Runtime`.
* What an invocation reads from outside the ledger (caller identity, clock, the
  hash of the marshalled record) is a parameter, `Env`.
* `json.Unmarshal` into the typed structs of the success responses is
  `decodeProofRecord` and `decodeTicket`: the members of the marshalled map in
  sorted key order, each stored into the field whose tag its key matches
  exactly or, failing that, case-insensitively.
-/

namespace Environ

/-! ## JSON values -/

/-- A JSON value as `json.Unmarshal` stores it in an `interface{}`. -/
inductive JVal where
  | null
  | bool (b : Bool)
  | num (q : ℚ)
  | str (s : String)
  | arr (items : List JVal)
  | obj (fields : List (String × JVal))

namespace JVal

mutual
/-- Decision procedure for equality of JSON values. -/
def decEq : (a b : JVal) → Decidable (a = b)
  | null, null => isTrue rfl
  | bool a, bool b =>
    if h : a = b then isTrue (by rw [h]) else isFalse (by intro e; cases e; exact h rfl)
  | num a, num b =>
    if h : a = b then isTrue (by rw [h]) else isFalse (by intro e; cases e; exact h rfl)
  | str a, str b =>
    if h : a = b then isTrue (by rw [h]) else isFalse (by intro e; cases e; exact h rfl)
  | arr a, arr b =>
    match decEqList a b with
    | isTrue h => isTrue (by rw [h])
    | isFalse h => isFalse (by intro e; cases e; exact h rfl)
  | obj a, obj b =>
    match decEqFields a b with
    | isTrue h => isTrue (by rw [h])
    | isFalse h => isFalse (by intro e; cases e; exact h rfl)
  | null, bool _ => isFalse (by intro e; cases e)
  | null, num _ => isFalse (by intro e; cases e)
  | null, str _ => isFalse (by intro e; cases e)
  | null, arr _ => isFalse (by intro e; cases e)
  | null, obj _ => isFalse (by intro e; cases e)
  | bool _, null => isFalse (by intro e; cases e)
  | bool _, num _ => isFalse (by intro e; cases e)
  | bool _, str _ => isFalse (by intro e; cases e)
  | bool _, arr _ => isFalse (by intro e; cases e)
  | bool _, obj _ => isFalse (by intro e; cases e)
  | num _, null => isFalse (by intro e; cases e)
  | num _, bool _ => isFalse (by intro e; cases e)
  | num _, str _ => isFalse (by intro e; cases e)
  | num _, arr _ => isFalse (by intro e; cases e)
  | num _, obj _ => isFalse (by intro e; cases e)
  | str _, null => isFalse (by intro e; cases e)
  | str _, bool _ => isFalse (by intro e; cases e)
  | str _, num _ => isFalse (by intro e; cases e)
  | str _, arr _ => isFalse (by intro e; cases e)
  | str _, obj _ => isFalse (by intro e; cases e)
  | arr _, null => isFalse (by intro e; cases e)
  | arr _, bool _ => isFalse (by intro e; cases e)
  | arr _, num _ => isFalse (by intro e; cases e)
  | arr _, str _ => isFalse (by intro e; cases e)
  | arr _, obj _ => isFalse (by intro e; cases e)
  | obj _, null => isFalse (by intro e; cases e)
  | obj _, bool _ => isFalse (by intro e; cases e)
  | obj _, num _ => isFalse (by intro e; cases e)
  | obj _, str _ => isFalse (by intro e; cases e)
  | obj _, arr _ => isFalse (by intro e; cases e)
/-- Decision procedure for equality of JSON arrays. -/
def decEqList : (a b : List JVal) → Decidable (a = b)
  | [], [] => isTrue rfl
  | [], _ :: _ => isFalse (by intro e; cases e)
  | _ :: _, [] => isFalse (by intro e; cases e)
  | x :: xs, y :: ys =>
    match decEq x y, decEqList xs ys with
    | isTrue h1, isTrue h2 => isTrue (by rw [h1, h2])
    | isFalse h1, _ => isFalse (by intro e; cases e; exact h1 rfl)
    | _, isFalse h2 => isFalse (by intro e; cases e; exact h2 rfl)
/-- Decision procedure for equality of the field lists of JSON objects. -/
def decEqFields : (a b : List (String × JVal)) → Decidable (a = b)
  | [], [] => isTrue rfl
  | [], _ :: _ => isFalse (by intro e; cases e)
  | _ :: _, [] => isFalse (by intro e; cases e)
  | (k, x) :: xs, (l, y) :: ys =>
    if hk : k = l then
      match decEq x y, decEqFields xs ys with
      | isTrue h1, isTrue h2 => isTrue (by rw [hk, h1, h2])
      | isFalse h1, _ => isFalse (by intro e; cases e; exact h1 rfl)
      | _, isFalse h2 => isFalse (by intro e; cases e; exact h2 rfl)
    else isFalse (by intro e; cases e; exact hk rfl)
end

instance : DecidableEq JVal := decEq

end JVal

/-- The map index expression `m[field]` in its comma-ok form: the value bound
to `field`, or `none` when the map has no such key. -/
def getField (m : List (String × JVal)) (field : String) : Option JVal :=
  m.lookup field

/-- The map assignment `m[field] = value`: the binding is replaced where the key
exists and added otherwise. -/
def setField (m : List (String × JVal)) (field : String) (value : JVal) :
    List (String × JVal) :=
  if (m.lookup field).isSome then
    m.map (fun kv => if kv.1 = field then (kv.1, value) else kv)
  else m ++ [(field, value)]

/-- The arms of the type switches `switch v := x.(type)` of
`weight_comparison.go`: a `float64` is taken as it is, anything else reaches
`default` (here `none`).  The `case int` arm is unreachable for decoded JSON. -/
def asFloat64 : JVal → Option ℚ
  | .num v => some v
  | _ => none

/-! ## The ledger stub -/

/-- The selector of a rich query: the fields a document must carry with exactly
these values. -/
abbrev Selector := List (String × JVal)

/-- Exact-match semantics of a selector: only JSON objects match, and every
field of the selector must be bound to the same value in the document. -/
def matchesSelector (sel : Selector) : JVal → Bool
  | .obj fields => sel.all (fun c => decide (getField fields c.1 = some c.2))
  | _ => false

/-- How a rich query goes wrong: not at all, when it is opened
(`GetQueryResult` returns an error), or while it is drained (`Next` returns an
error once `after` results were delivered). -/
inductive QueryFault where
  | none
  | onOpen (err : String)
  | onNext (after : Nat) (err : String)

/-- A call on the stub. -/
inductive StubCall where
  | GetQueryResult (sel : Selector)
  | GetState (key : String)
  | PutState (key : String) (value : JVal)
  | DelState (key : String)
deriving DecidableEq

/-- The ledger stub of one invocation.  `world` holds the key/value pairs in the
order in which a rich query returns them; a stored value is held in the decoded
form `getAllResults` gives it (`json.Unmarshal` of the bytes, or the bytes as a
string when they are not JSON).  `calls` lists the calls issued so far, oldest
first.  The three oracles say which calls fail and with which error text. -/
structure Stub where
  world : List (String × JVal)
  calls : List StubCall
  queryFault : Selector → QueryFault
  putFault : String → Option String
  delFault : String → Option String

/-- An open query iterator: what each successive `Next` returns. -/
abbrev Iterator := List (Except String (String × JVal))

/-- `stub.GetQueryResult(query)`: the documents of the world state that match
the selector, unless the query is faulty. -/
def Stub.GetQueryResult (s : Stub) (sel : Selector) : Except String Iterator × Stub :=
  let hits := s.world.filter (fun kv => matchesSelector sel kv.2)
  let answer : Except String Iterator :=
    match s.queryFault sel with
    | QueryFault.none => Except.ok (hits.map Except.ok)
    | QueryFault.onOpen err => Except.error err
    | QueryFault.onNext n err =>
      if n < hits.length then Except.ok ((hits.take n).map Except.ok ++ [Except.error err])
      else Except.ok (hits.map Except.ok)
  (answer, { s with calls := s.calls ++ [StubCall.GetQueryResult sel] })

/-- `stub.GetState(key)`. -/
def Stub.GetState (s : Stub) (key : String) : Option JVal × Stub :=
  (s.world.lookup key, { s with calls := s.calls ++ [StubCall.GetState key] })

/-- `stub.PutState(key, value)`: on success the value replaces the one stored
under the key, or is added. -/
def Stub.PutState (s : Stub) (key : String) (value : JVal) : Option String × Stub :=
  let s1 := { s with calls := s.calls ++ [StubCall.PutState key value] }
  match s.putFault key with
  | some err => (some err, s1)
  | none =>
    let world1 :=
      if (s.world.lookup key).isSome then
        s.world.map (fun kv => if kv.1 = key then (kv.1, value) else kv)
      else s.world ++ [(key, value)]
    (none, { s1 with world := world1 })

/-- `stub.DelState(key)`: on success nothing is stored under the key any more. -/
def Stub.DelState (s : Stub) (key : String) : Option String × Stub :=
  let s1 := { s with calls := s.calls ++ [StubCall.DelState key] }
  match s.delFault key with
  | some err => (some err, s1)
  | none => (none, { s1 with world := s.world.filter (fun kv => kv.1 ≠ key) })

/-- `getAllResults` (utils.go): drains the iterator into the list of
`{"Key": ..., "Record": ...}` items, or returns the first error of `Next`. -/
def getAllResults : Iterator → Except String (List (String × JVal))
  | [] => .ok []
  | .error err :: _ => .error err
  | .ok queryResponse :: rest =>
    match getAllResults rest with
    | .ok allResults => .ok (queryResponse :: allResults)
    | .error err => .error err

/-! ## Binary64 arithmetic -/

/-- `math.Round`: the nearest integer, halves rounded away from zero. -/
def mathRound (x : ℚ) : ℚ :=
  if 0 ≤ x then ((⌊x + 1 / 2⌋ : Int) : ℚ) else -((⌊-x + 1 / 2⌋ : Int) : ℚ)

/-- The number of halvings that take `n` below 2, at most `fuel` of them. -/
def log2Fuel : Nat → Nat → Nat
  | 0, _ => 0
  | fuel + 1, n => if n < 2 then 0 else log2Fuel fuel (n / 2) + 1

/-- The integer part of the binary logarithm of a positive natural number. -/
def floorLog2 (n : Nat) : Nat := log2Fuel n n

/-- The power `2 ^ p` as a rational number. -/
def pow2 (p : Int) : ℚ :=
  if 0 ≤ p then ((2 ^ p.toNat : Nat) : ℚ) else 1 / ((2 ^ (-p).toNat : Nat) : ℚ)

/-- The binary exponent of a positive rational `a`: the `e` with
`2 ^ e ≤ a < 2 ^ (e + 1)`. -/
def binaryExponent (a : ℚ) : Int :=
  let e0 : Int := (floorLog2 a.num.natAbs : Int) - (floorLog2 a.den : Int)
  if pow2 e0 ≤ a then e0 else e0 - 1

/-- The nearest integer, halves rounded to the even neighbour. -/
def roundHalfEven (x : ℚ) : Int :=
  if x - (⌊x⌋ : ℚ) < 1 / 2 then ⌊x⌋
  else if 1 / 2 < x - (⌊x⌋ : ℚ) then ⌊x⌋ + 1
  else if ⌊x⌋ % 2 = 0 then ⌊x⌋ else ⌊x⌋ + 1

/-- The exponent of the unit in the last place of binary64 at a positive
magnitude: 52 below the binary exponent, and -1074 throughout the subnormal
range. -/
def ulpExponent (a : ℚ) : Int :=
  max (binaryExponent a) (-1022) - 52

/-- The multiple of the unit in the last place nearest to a positive magnitude,
ties to the even multiple (the exponent range is not yet cut off). -/
def roundMagnitude (a : ℚ) : ℚ :=
  (roundHalfEven (a / pow2 (ulpExponent a)) : ℚ) * pow2 (ulpExponent a)

/-- A `float64`: a finite value, held as the rational number it denotes, an
infinity, or NaN.  The two zeros are not distinguished (they compare equal in
Go). -/
inductive F64 where
  | finite (value : ℚ)
  | posInf
  | negInf
  | nan
deriving DecidableEq

namespace F64

/-- Rounding of an exact result to binary64: to the nearest representable
value, ties to even; a magnitude that rounds to `2 ^ 1024` or more overflows to
an infinity. -/
def round (q : ℚ) : F64 :=
  if q = 0 then finite 0
  else if 0 < q then
    if roundMagnitude q < pow2 1024 then finite (roundMagnitude q) else posInf
  else
    if roundMagnitude (-q) < pow2 1024 then finite (-roundMagnitude (-q)) else negInf

/-- The sum `x + y` of two `float64`. -/
def add : F64 → F64 → F64
  | finite a, finite b => round (a + b)
  | nan, _ => nan
  | _, nan => nan
  | posInf, negInf => nan
  | negInf, posInf => nan
  | posInf, _ => posInf
  | _, posInf => posInf
  | negInf, _ => negInf
  | _, negInf => negInf

/-- The product `x * y` of two `float64`. -/
def mul : F64 → F64 → F64
  | finite a, finite b => round (a * b)
  | nan, _ => nan
  | _, nan => nan
  | posInf, finite b => if b = 0 then nan else if 0 < b then posInf else negInf
  | negInf, finite b => if b = 0 then nan else if 0 < b then negInf else posInf
  | finite a, posInf => if a = 0 then nan else if 0 < a then posInf else negInf
  | finite a, negInf => if a = 0 then nan else if 0 < a then negInf else posInf
  | posInf, posInf => posInf
  | negInf, negInf => posInf
  | posInf, negInf => negInf
  | negInf, posInf => negInf

/-- The quotient `x / y` of two `float64`.  A zero divisor is taken as
positive. -/
def div : F64 → F64 → F64
  | finite a, finite b =>
    if b = 0 then (if a = 0 then nan else if 0 < a then posInf else negInf)
    else round (a / b)
  | nan, _ => nan
  | _, nan => nan
  | posInf, finite b => if 0 ≤ b then posInf else negInf
  | negInf, finite b => if 0 ≤ b then negInf else posInf
  | finite _, posInf => finite 0
  | finite _, negInf => finite 0
  | posInf, posInf => nan
  | negInf, negInf => nan
  | posInf, negInf => nan
  | negInf, posInf => nan

/-- `math.Round` of a `float64`: exact on finite values, the identity on the
infinities and NaN. -/
def mathRound : F64 → F64
  | finite a => finite (Environ.mathRound a)
  | x => x

/-- The comparison `x < y` of Go: false when either side is NaN. -/
def lt : F64 → F64 → Prop
  | finite a, finite b => a < b
  | finite _, posInf => True
  | negInf, finite _ => True
  | negInf, posInf => True
  | _, _ => False

/-- The comparison `x <= y` of Go: false when either side is NaN. -/
def le : F64 → F64 → Prop
  | finite a, finite b => a ≤ b
  | finite _, posInf => True
  | negInf, finite _ => True
  | negInf, posInf => True
  | posInf, posInf => True
  | negInf, negInf => True
  | _, _ => False

instance decLt : (x y : F64) → Decidable (lt x y)
  | finite a, finite b => inferInstanceAs (Decidable (a < b))
  | finite _, posInf => isTrue trivial
  | negInf, finite _ => isTrue trivial
  | negInf, posInf => isTrue trivial
  | finite _, negInf => isFalse (fun h => h)
  | finite _, nan => isFalse (fun h => h)
  | posInf, _ => isFalse (by intro h; cases ‹F64› <;> exact h)
  | negInf, negInf => isFalse (fun h => h)
  | negInf, nan => isFalse (fun h => h)
  | nan, _ => isFalse (by intro h; cases ‹F64› <;> exact h)

instance decLe : (x y : F64) → Decidable (le x y)
  | finite a, finite b => inferInstanceAs (Decidable (a ≤ b))
  | finite _, posInf => isTrue trivial
  | negInf, finite _ => isTrue trivial
  | negInf, posInf => isTrue trivial
  | posInf, posInf => isTrue trivial
  | negInf, negInf => isTrue trivial
  | finite _, negInf => isFalse (fun h => h)
  | finite _, nan => isFalse (fun h => h)
  | posInf, finite _ => isFalse (fun h => h)
  | posInf, negInf => isFalse (fun h => h)
  | posInf, nan => isFalse (fun h => h)
  | negInf, nan => isFalse (fun h => h)
  | nan, _ => isFalse (by intro h; cases ‹F64› <;> exact h)

/-- Whether `json.Marshal` can write the value: it rejects the infinities and
NaN. -/
def isFinite : F64 → Bool
  | finite _ => true
  | _ => false

end F64

/-- The `float64` nearest to a decimal number, as `strconv.ParseFloat` reads
it from a JSON text; 0 stands in for a number beyond the range of `float64`,
which the decoder rejects. -/
def nearestDouble (q : ℚ) : ℚ :=
  match F64.round q with
  | F64.finite value => value
  | _ => 0

/-- The `float64` sum a loop `sum += w` leaves, starting from `start`: the
weights are added one by one from the left, each addition rounded. -/
def floatSum (start : F64) (weights : List ℚ) : F64 :=
  weights.foldl (fun sum w => F64.add sum (F64.finite w)) start

/-! ## Weight reconciliation (weight_comparison.go) -/

/-- `ComparisonResult`: one entry of the violation list. -/
structure ComparisonResult where
  IncrementID : Int
  ChainedWeight : F64
  ReceivedWeight : F64
deriving DecidableEq

/-- `ComparisonResponse`: the response a reconcile operation builds.  `Message`
is left out of the JSON text when it is empty. -/
structure ComparisonResponse where
  Success : Bool
  Results : List ComparisonResult
  DeletedRecords : List String
  Message : String
deriving DecidableEq

/-- `GroupData`: one aggregation bucket.  `ChainedWeightSum` is a computed
`float64`.  `ReceivedWeightMax` is a pointer in the source, `nil` until a ticket
contributes; it holds one of the decoded weights, since `math.Max` of two finite
values is one of them.  `TicketCount` is a Go `int` that starts at 0 and is only
ever incremented by one. -/
structure GroupData where
  ChainedWeightSum : F64
  ReceivedWeightMax : Option ℚ
  TicketCount : Nat
  RecordIDs : List String
deriving DecidableEq

/-- `map[float64]*GroupData`, kept as an association list in order of creation
of the buckets.  The keys are decoded numbers, hence finite. -/
abbrev Groups := List (ℚ × GroupData)

/-- The bucket the map holds for an increment value: `groupedResults[k]`. -/
def Groups.find (g : Groups) (k : ℚ) : Option GroupData :=
  g.lookup k

/-- The bucket literal `&GroupData{0, nil, 0, []string{}}`. -/
def newGroup : GroupData :=
  { ChainedWeightSum := F64.finite 0, ReceivedWeightMax := none, TicketCount := 0,
    RecordIDs := [] }

/-- The guard `if _, exists := groupedResults[k]; !exists { groupedResults[k] = &GroupData{...} }`. -/
def Groups.ensure (g : Groups) (k : ℚ) : Groups :=
  if (g.find k).isSome then g else g ++ [(k, newGroup)]

/-- An update through the pointer `groupedResults[k]`. -/
def Groups.modify (g : Groups) (k : ℚ) (f : GroupData → GroupData) : Groups :=
  g.map (fun kv => if kv.1 = k then (kv.1, f kv.2) else kv)

/-- What Go leaves open from one call to the next in the reconcilers: the order
in which `range` visits the buckets of the map, and the permutation
`sort.Slice` picks among the sorted ones (it is not a stable sort).  They come
with what Go does guarantee: `range` visits every bucket once, and `sort.Slice`
called with a `less` that is a strict weak order returns a permutation in which
no element is `less` than an earlier one. -/
structure Runtime where
  mapRange : Groups → Groups
  mapRange_perm : ∀ g, (mapRange g).Perm g
  sortSlice : (ComparisonResult → ComparisonResult → Bool) →
    List ComparisonResult → List ComparisonResult
  sortSlice_perm : ∀ less l, (sortSlice less l).Perm l
  sortSlice_sorted : ∀ less l,
    (∀ a b, less a b = false ∨ less b a = false) →
    (∀ a b c, less b a = false → less c b = false → less c a = false) →
    (sortSlice less l).Pairwise (fun a b => less b a = false)

/-- What Go leaves to the platform the chaincode is compiled for: the value of
`int(x)` for a `float64` outside the range of `int` ("the result value is
implementation-dependent"). -/
structure Arch where
  intOutOfRange : ℚ → Int

/-- The platform amd64, on which an `int(x)` out of range is the smallest
`int`. -/
def Arch.amd64 : Arch :=
  { intOutOfRange := fun _ => -9223372036854775808 }

/-- The conversion `int(x)` of a finite `float64`: the fraction is discarded
(truncation toward zero); when the result does not fit the 64 bits of `int` the
value is the platform's. -/
def goInt (arch : Arch) (x : ℚ) : Int :=
  let truncated : Int := if 0 ≤ x then ⌊x⌋ else ⌈x⌉
  if -9223372036854775808 ≤ truncated ∧ truncated ≤ 9223372036854775807 then truncated
  else arch.intOutOfRange x

/-- One round of the loop over the proof records in
`CompareWeightsByPressIncrement` (lines 113-153). -/
def pressProofStep (groupedResults : Groups) (item : String × JVal) : Option Groups :=
  match item.2 with
  | .obj proof =>
    let recordID := item.1
    match getField proof "press_increment", getField proof "chained_weight" with
    | some pressIncrement, some chainedWeight =>
      if pressIncrement = JVal.null then some groupedResults
      else
        match asFloat64 pressIncrement with
        | none => some groupedResults
        | some incrementID =>
          match asFloat64 chainedWeight with
          | none => some groupedResults
          | some weight =>
            some ((groupedResults.ensure incrementID).modify incrementID (fun group =>
              { group with
                ChainedWeightSum := F64.add group.ChainedWeightSum (F64.finite weight)
                RecordIDs := group.RecordIDs ++ [recordID] }))
    | _, _ => some groupedResults
  | _ => none

/-- One round of the loop over the proof records in
`CompareWeightsByStoreIncrement` (lines 319-359). -/
def storeProofStep (groupedResults : Groups) (item : String × JVal) : Option Groups :=
  match item.2 with
  | .obj proof =>
    let recordID := item.1
    match getField proof "store_increment", getField proof "chained_weight" with
    | some storeIncrement, some chainedWeight =>
      if storeIncrement = JVal.null then some groupedResults
      else
        match asFloat64 storeIncrement with
        | none => some groupedResults
        | some incrementID =>
          match asFloat64 chainedWeight with
          | none => some groupedResults
          | some weight =>
            some ((groupedResults.ensure incrementID).modify incrementID (fun group =>
              { group with
                ChainedWeightSum := F64.add group.ChainedWeightSum (F64.finite weight)
                RecordIDs := group.RecordIDs ++ [recordID] }))
    | _, _ => some groupedResults
  | _ => none

/-- One round of the loop over the tickets (lines 155-201, and the same text at
361-407). -/
def ticketStep (groupedResults : Groups) (item : String × JVal) : Option Groups :=
  match item.2 with
  | .obj ticket =>
    match getField ticket "incrementId", getField ticket "receivedWeight" with
    | some incrementIDVal, some receivedWeightVal =>
      match asFloat64 incrementIDVal with
      | none => some groupedResults
      | some incrementID =>
        match asFloat64 receivedWeightVal with
        | none => some groupedResults
        | some receivedWeight =>
          some ((groupedResults.ensure incrementID).modify incrementID (fun group =>
            { group with
              ReceivedWeightMax :=
                match group.ReceivedWeightMax with
                | none => some receivedWeight
                | some current => some (max current receivedWeight)
              TicketCount := group.TicketCount + 1 }))
    | _, _ => some groupedResults
  | _ => none

/-- The condition of the `if` at lines 207-210 (413-416). -/
def isViolation (group : GroupData) : Bool :=
  decide (F64.lt (F64.finite 0) group.ChainedWeightSum) && decide (group.TicketCount > 0) &&
    match group.ReceivedWeightMax with
    | none => false
    | some receivedWeightMax =>
      decide (F64.lt (F64.finite receivedWeightMax) group.ChainedWeightSum)

/-- The expression `math.Round(x*100) / 100` of lines 214-215 (420-421). -/
def roundToCents (x : F64) : F64 :=
  F64.div (F64.mathRound (F64.mul x (F64.finite 100))) (F64.finite 100)

/-- The `ComparisonResult` literal at lines 212-216 (418-422). -/
def resultEntry (arch : Arch) (incrementID : ℚ) (chainedWeightSum : F64)
    (receivedWeightMax : ℚ) : ComparisonResult :=
  { IncrementID := goInt arch incrementID
    ChainedWeight := roundToCents chainedWeightSum
    ReceivedWeight := roundToCents (F64.finite receivedWeightMax) }

/-- The variables the classification loop updates. -/
structure LoopState where
  results : List ComparisonResult
  deletedRecords : List String
  ctx : Stub

/-- The inner loop at lines 219-224 (425-430): every record key of the bucket
is deleted, and kept in `deletedRecords` when `DelState` returned no error. -/
def deleteRecords (ctx : Stub) (deletedRecords : List String) (recordIDs : List String) :
    List String × Stub :=
  recordIDs.foldl (fun acc recordID =>
    match acc.2.DelState recordID with
    | (none, ctx1) => (acc.1 ++ [recordID], ctx1)
    | (some _, ctx1) => (acc.1, ctx1)) (deletedRecords, ctx)

/-- One round of the loop over the buckets (lines 206-227, 412-433). -/
def classifyStep (arch : Arch) (shouldDelete : Bool) (st : LoopState)
    (entry : ℚ × GroupData) : LoopState :=
  if isViolation entry.2 then
    match entry.2.ReceivedWeightMax with
    | none => st
    | some receivedWeightMax =>
      let results :=
        st.results ++ [resultEntry arch entry.1 entry.2.ChainedWeightSum receivedWeightMax]
      if shouldDelete then
        let deleted := deleteRecords st.ctx st.deletedRecords entry.2.RecordIDs
        { results := results, deletedRecords := deleted.1, ctx := deleted.2 }
      else { st with results := results }
  else st

/-- The failure response built at each of the four error exits. -/
def comparisonFailure (err : String) : ComparisonResponse :=
  { Success := false
    Message := "Error comparing weights: " ++ err
    Results := []
    DeletedRecords := [] }

/-- What a reconcile operation returns to its caller, always with a `nil`
error: the JSON text of a response, or the empty string. -/
inductive Reply where
  | document (response : ComparisonResponse)
  | emptyString
deriving DecidableEq

/-- Whether `json.Marshal` can write an entry: both weights are finite. -/
def entryFinite (result : ComparisonResult) : Bool :=
  result.ChainedWeight.isFinite && result.ReceivedWeight.isFinite

/-- The two lines `responseJSON, _ := json.Marshal(response)` and
`return string(responseJSON), nil`: `json.Marshal` fails on a `float64` that is
an infinity or NaN, its error is dropped, and the text of a `nil` byte slice is
the empty string. -/
def marshalResponse (response : ComparisonResponse) : Reply :=
  if response.Results.all entryFinite then
    Reply.document response
  else Reply.emptyString

/-- The function literal passed to `sort.Slice` (lines 229-231, 435-437). -/
def lessByIncrementID (a b : ComparisonResult) : Bool :=
  decide (a.IncrementID < b.IncrementID)

/-- Lines 203-246 (409-452): classification of the buckets, deletion, sorting
and the success response. -/
def finishComparison (arch : Arch) (rt : Runtime) (shouldDelete : Bool) (ctx : Stub)
    (groupedResults : Groups) : Reply × Stub :=
  let st := (rt.mapRange groupedResults).foldl (classifyStep arch shouldDelete)
    { results := [], deletedRecords := [], ctx := ctx }
  let results := rt.sortSlice lessByIncrementID st.results
  let response : ComparisonResponse :=
    { Success := true, Results := results, DeletedRecords := st.deletedRecords, Message := "" }
  (marshalResponse (if shouldDelete then response else { response with DeletedRecords := [] }),
    st.ctx)

/-- `WeightComparison.CompareWeightsByPressIncrement`.  The result is `none`
when the invocation panics. -/
def CompareWeightsByPressIncrement (arch : Arch) (rt : Runtime) (ctx : Stub) (deleteViolations : String) :
    Option (Reply × Stub) :=
  let shouldDelete := decide (deleteViolations = "true")
  match ctx.GetQueryResult [("docType", JVal.str "proofRecord")] with
  | (Except.error err, ctx1) => some (marshalResponse (comparisonFailure err), ctx1)
  | (Except.ok proofIterator, ctx1) =>
    match getAllResults proofIterator with
    | Except.error err => some (marshalResponse (comparisonFailure err), ctx1)
    | Except.ok proofRecords =>
      match ctx1.GetQueryResult [("docType", JVal.str "ticket")] with
      | (Except.error err, ctx2) => some (marshalResponse (comparisonFailure err), ctx2)
      | (Except.ok ticketIterator, ctx2) =>
        match getAllResults ticketIterator with
        | Except.error err => some (marshalResponse (comparisonFailure err), ctx2)
        | Except.ok tickets =>
          match proofRecords.foldlM pressProofStep [] with
          | none => none
          | some afterProofs =>
            match tickets.foldlM ticketStep afterProofs with
            | none => none
            | some groupedResults =>
              some (finishComparison arch rt shouldDelete ctx2 groupedResults)

/-- `WeightComparison.CompareWeightsByStoreIncrement`.  The result is `none`
when the invocation panics. -/
def CompareWeightsByStoreIncrement (arch : Arch) (rt : Runtime) (ctx : Stub) (deleteViolations : String) :
    Option (Reply × Stub) :=
  let shouldDelete := decide (deleteViolations = "true")
  match ctx.GetQueryResult [("docType", JVal.str "proofRecord")] with
  | (Except.error err, ctx1) => some (marshalResponse (comparisonFailure err), ctx1)
  | (Except.ok proofIterator, ctx1) =>
    match getAllResults proofIterator with
    | Except.error err => some (marshalResponse (comparisonFailure err), ctx1)
    | Except.ok proofRecords =>
      match ctx1.GetQueryResult [("docType", JVal.str "ticket")] with
      | (Except.error err, ctx2) => some (marshalResponse (comparisonFailure err), ctx2)
      | (Except.ok ticketIterator, ctx2) =>
        match getAllResults ticketIterator with
        | Except.error err => some (marshalResponse (comparisonFailure err), ctx2)
        | Except.ok tickets =>
          match proofRecords.foldlM storeProofStep [] with
          | none => none
          | some afterProofs =>
            match tickets.foldlM ticketStep afterProofs with
            | none => none
            | some groupedResults =>
              some (finishComparison arch rt shouldDelete ctx2 groupedResults)

/-! ## Concrete runtimes and a sample ledger -/

/-- The stable insertion sort by a `less` function (what `sort.Slice` runs on
short slices): an element goes before the first one that is `less` than it. -/
def insertionSortBy (less : ComparisonResult → ComparisonResult → Bool)
    (l : List ComparisonResult) : List ComparisonResult :=
  l.insertionSort (fun a b => less b a = false)

/-- A runtime whose `range` visits the buckets in order of creation and whose
sort is the insertion sort. -/
def Runtime.inOrder : Runtime where
  mapRange := fun g => g
  mapRange_perm := fun g => List.Perm.refl g
  sortSlice := insertionSortBy
  sortSlice_perm := fun _ l => List.perm_insertionSort _ l
  sortSlice_sorted := fun less l total trans =>
    @List.sorted_insertionSort ComparisonResult (fun a b => less b a = false) _
      ⟨fun a b => total b a⟩ ⟨fun a b c hab hbc => trans a b c hab hbc⟩ l

/-- A runtime whose `range` visits the buckets in the reverse order. -/
def Runtime.reversed : Runtime where
  mapRange := fun g => g.reverse
  mapRange_perm := fun g => List.reverse_perm g
  sortSlice := insertionSortBy
  sortSlice_perm := fun _ l => List.perm_insertionSort _ l
  sortSlice_sorted := fun less l total trans =>
    @List.sorted_insertionSort ComparisonResult (fun a b => less b a = false) _
      ⟨fun a b => total b a⟩ ⟨fun a b c hab hbc => trans a b c hab hbc⟩ l

/-- A stub over a world state on which no call fails. -/
def Stub.healthy (world : List (String × JVal)) : Stub :=
  { world := world
    calls := []
    queryFault := fun _ => QueryFault.none
    putFault := fun _ => none
    delFault := fun _ => none }

/-- A proof record that carries a press increment and a chained weight. -/
def pressRecord (increment weight : ℚ) : JVal :=
  JVal.obj [("docType", JVal.str "proofRecord"), ("press_increment", JVal.num increment),
    ("chained_weight", JVal.num weight)]

/-- A ticket. -/
def ticketRecord (id : String) (increment weight : ℚ) : JVal :=
  JVal.obj [("docType", JVal.str "ticket"), ("id", JVal.str id),
    ("incrementId", JVal.num increment), ("receivedWeight", JVal.num weight)]

/-- The scenario of the specification: proof records A (increment 5, weight 10)
and B (increment 5, weight 8), and ticket T1 (increment 5, received weight 15). -/
def sampleWorld : List (String × JVal) :=
  [("PROOF_A", pressRecord 5 10), ("PROOF_B", pressRecord 5 8),
   ("TICKET_T1", ticketRecord "T1" 5 15)]

/-! ## The specification's view of the reconciler -/

/-- The pair of numbers a stored entity contributes to the aggregation, read as
the specification words it: the key field and the value field are both present
and numeric (a `null` is not numeric).  `none` when the entity contributes
nothing. -/
def numericPair (keyField valueField : String) : JVal → Option (ℚ × ℚ)
  | .obj fields =>
    match getField fields keyField, getField fields valueField with
    | some (.num increment), some (.num value) => some (increment, value)
    | _, _ => none
  | _ => none

/-- The scanned items that contribute to the bucket of increment value `k`, in
scan order, each as its storage key and the weight it contributes. -/
def contributionsTo (keyField valueField : String) (k : ℚ)
    (items : List (String × JVal)) : List (String × ℚ) :=
  items.filterMap (fun item =>
    match numericPair keyField valueField item.2 with
    | some (increment, value) => if increment = k then some (item.1, value) else none
    | none => none)

/-- The classification of a bucket as a violation, in the words of the
specification (§4.4, step 4). -/
def Violating (group : GroupData) : Prop :=
  F64.lt (F64.finite 0) group.ChainedWeightSum ∧ 0 < group.TicketCount ∧
    ∃ receivedWeightMax, group.ReceivedWeightMax = some receivedWeightMax ∧
      F64.lt (F64.finite receivedWeightMax) group.ChainedWeightSum

/-- The entry a bucket contributes to the violation list, if any. -/
def violationOf (arch : Arch) (entry : ℚ × GroupData) : Option ComparisonResult :=
  match entry.2.ReceivedWeightMax with
  | some receivedWeightMax =>
    if F64.lt (F64.finite 0) entry.2.ChainedWeightSum ∧ 0 < entry.2.TicketCount ∧
        F64.lt (F64.finite receivedWeightMax) entry.2.ChainedWeightSum then
      some (resultEntry arch entry.1 entry.2.ChainedWeightSum receivedWeightMax)
    else none
  | none => none

/-- A bulk read: the query is opened and drained by `getAllResults`. -/
def bulkRead (ctx : Stub) (sel : Selector) : Except String (List (String × JVal)) :=
  match (ctx.GetQueryResult sel).1 with
  | Except.ok iterator => getAllResults iterator
  | Except.error err => Except.error err

/-- The stored entities a selector matches, in the order of the world state. -/
def scan (world : List (String × JVal)) (sel : Selector) : List (String × JVal) :=
  world.filter (fun kv => matchesSelector sel kv.2)

/-- The proof-record pass of the specification (§4.4, step 2) for a chosen
increment field. -/
def proofStepOn (field : String) (groupedResults : Groups) (item : String × JVal) :
    Option Groups :=
  match item.2 with
  | .obj proof =>
    let recordID := item.1
    match getField proof field, getField proof "chained_weight" with
    | some increment, some chainedWeight =>
      if increment = JVal.null then some groupedResults
      else
        match asFloat64 increment with
        | none => some groupedResults
        | some incrementID =>
          match asFloat64 chainedWeight with
          | none => some groupedResults
          | some weight =>
            some ((groupedResults.ensure incrementID).modify incrementID (fun group =>
              { group with
                ChainedWeightSum := F64.add group.ChainedWeightSum (F64.finite weight)
                RecordIDs := group.RecordIDs ++ [recordID] }))
    | _, _ => some groupedResults
  | _ => none

/-- `Reconcile(incrementFieldOnProofRecord, deleteViolations)` of the
specification (§4.4): one algorithm, parameterised by the proof-record field
that supplies the increment key. -/
def Reconcile (field : String) (arch : Arch) (rt : Runtime) (ctx : Stub) (deleteViolations : String) :
    Option (Reply × Stub) :=
  let shouldDelete := decide (deleteViolations = "true")
  match ctx.GetQueryResult [("docType", JVal.str "proofRecord")] with
  | (Except.error err, ctx1) => some (marshalResponse (comparisonFailure err), ctx1)
  | (Except.ok proofIterator, ctx1) =>
    match getAllResults proofIterator with
    | Except.error err => some (marshalResponse (comparisonFailure err), ctx1)
    | Except.ok proofRecords =>
      match ctx1.GetQueryResult [("docType", JVal.str "ticket")] with
      | (Except.error err, ctx2) => some (marshalResponse (comparisonFailure err), ctx2)
      | (Except.ok ticketIterator, ctx2) =>
        match getAllResults ticketIterator with
        | Except.error err => some (marshalResponse (comparisonFailure err), ctx2)
        | Except.ok tickets =>
          match proofRecords.foldlM (proofStepOn field) [] with
          | none => none
          | some afterProofs =>
            match tickets.foldlM ticketStep afterProofs with
            | none => none
            | some groupedResults =>
              some (finishComparison arch rt shouldDelete ctx2 groupedResults)

/-- What one proof record does to its bucket. -/
def addProof (recordID : String) (weight : ℚ) (group : GroupData) : GroupData :=
  { group with
    ChainedWeightSum := F64.add group.ChainedWeightSum (F64.finite weight)
    RecordIDs := group.RecordIDs ++ [recordID] }

/-- What one ticket does to its bucket. -/
def addTicket (_ticketKey : String) (receivedWeight : ℚ) (group : GroupData) : GroupData :=
  { group with
    ReceivedWeightMax :=
      match group.ReceivedWeightMax with
      | none => some receivedWeight
      | some current => some (max current receivedWeight)
    TicketCount := group.TicketCount + 1 }

/-- The bucket after a list of contributions, starting from the bucket `start`
(`none` when the map has no such bucket yet). -/
def accumulate (upd : String → ℚ → GroupData → GroupData) (start : Option GroupData)
    (cs : List (String × ℚ)) : Option GroupData :=
  cs.foldl (fun o c => some (upd c.1 c.2 (o.getD newGroup))) start

/-- The largest element of a list of weights (`none` for the empty list): the
running maximum the ticket pass keeps. -/
def maximumOf : List ℚ → Option ℚ
  | [] => none
  | w :: ws => some (ws.foldl max w)

/-- The bucket the two passes build from the proof records `ps` and the tickets
`cs` that contribute to one increment value; `none` when nothing contributes. -/
def bucketOf (ps cs : List (String × ℚ)) : Option GroupData :=
  if ps = [] ∧ cs = [] then none
  else some
    { ChainedWeightSum := floatSum (F64.finite 0) (ps.map Prod.snd)
      ReceivedWeightMax := maximumOf (cs.map Prod.snd)
      TicketCount := cs.length
      RecordIDs := ps.map Prod.fst }

/-- The selector of the scan over the proof records. -/
def proofSelector : Selector := [("docType", JVal.str "proofRecord")]

/-- The selector of the scan over the tickets. -/
def ticketSelector : Selector := [("docType", JVal.str "ticket")]

/-- The buckets the two passes build over a world state for a chosen increment
field. -/
def bucketsOf (field : String) (world : List (String × JVal)) : Option Groups :=
  match (scan world proofSelector).foldlM (proofStepOn field) [] with
  | none => none
  | some afterProofs => (scan world ticketSelector).foldlM ticketStep afterProofs

/-- The stub after `DelState` was called on each of the keys in turn: the calls
are recorded, and the keys whose delete does not fail are gone from the world
state. -/
def applyDeletes (ctx : Stub) (keys : List String) : Stub :=
  { ctx with
    calls := ctx.calls ++ keys.map StubCall.DelState
    world := ctx.world.filter
      (fun kv => !(decide (kv.1 ∈ keys) && (ctx.delFault kv.1).isNone)) }

/-- The record keys of the violating buckets, in the order the buckets are
listed. -/
def keysToDelete (g : Groups) : List String :=
  (g.filter (fun e => isViolation e.2)).flatMap (fun e => e.2.RecordIDs)

/-- The property of being the bucket map of a world state for a chosen
increment field: the increment values of the buckets are distinct, and the
bucket of each increment value aggregates exactly the proof records and the
tickets of the world state that contribute to that value. -/
def IsBucketMap (field : String) (world : List (String × JVal)) (g : Groups) : Prop :=
  (g.map Prod.fst).Nodup ∧
  ∀ k, g.find k =
    bucketOf (contributionsTo field "chained_weight" k (scan world proofSelector))
      (contributionsTo "incrementId" "receivedWeight" k (scan world ticketSelector))

/-- A world state with two violating buckets, of increment values 5.2 and 5.7,
which both convert to the integer 5. -/
def tiedWorld : List (String × JVal) :=
  [("PROOF_A", pressRecord (nearestDouble (52 / 10)) 10),
   ("PROOF_B", pressRecord (nearestDouble (57 / 10)) 20),
   ("TICKET_T1", ticketRecord "T1" (nearestDouble (52 / 10)) 1),
   ("TICKET_T2", ticketRecord "T2" (nearestDouble (57 / 10)) 2)]

/-- The exchange of the two increment field names. -/
def swapName (name : String) : String :=
  if name = "store_increment" then "press_increment"
  else if name = "press_increment" then "store_increment"
  else name

/-- A stored entity with the fields `store_increment` and `press_increment`
exchanged when it is a proof record; any other entity is left as it is. -/
def swapIncrementFields : JVal → JVal
  | .obj fields =>
    if matchesSelector proofSelector (.obj fields) then
      .obj (fields.map (fun f => (swapName f.1, f.2)))
    else .obj fields
  | v => v

/-- The world state with the two increment fields exchanged in every proof
record. -/
def swapWorld (world : List (String × JVal)) : List (String × JVal) :=
  world.map (fun kv => (kv.1, swapIncrementFields kv.2))

/-! ## Ingestion (proof_record_manager.go, ticket_manager.go, utils.go) -/

/-- The argument string of an ingestion operation as `json.Unmarshal` reads it
into a `map[string]interface{}`: an error (text that is not JSON, or JSON that
is neither an object nor `null`), or the field map (empty for `null`). -/
inductive Payload where
  | invalid (err : String)
  | object (fields : List (String × JVal))

/-- `ProofRecord`: the typed view of a proof record that the success response
carries. -/
structure ProofRecord where
  SponsorID : String
  ProofShortID : String
  CollectorName : String
  BulkName : String
  ParentIncrement : ℚ
  ChainedWeight : ℚ
  TraceChainType : String
  BulkShortID : String
  StoreIncrement : Option ℚ
  PressIncrement : Option ℚ
  RecordID : String
  CreatedAt : String
  CreatedBy : String
  DocType : String
deriving DecidableEq

/-- `Ticket`: the typed view of a ticket that the success response carries. -/
structure Ticket where
  ID : String
  ReceivedWeight : ℚ
  IncrementID : ℚ
  CreatedAt : String
  CreatedBy : String
  DocType : String
deriving DecidableEq

/-! ### The typed decoding of the success responses

`json.Unmarshal(recordJSON, &proofRecord)` at line 125 of
`proof_record_manager.go` (118 of `ticket_manager.go`), whose error is not
looked at. -/

/-- The bindings of a map with one binding for each key: the first one, which
is the one `getField` reads. -/
def dedupKeys : List (String × JVal) → List (String × JVal)
  | [] => []
  | binding :: rest => binding :: (dedupKeys rest).filter (fun other => other.1 ≠ binding.1)

/-- `json.Marshal` of a `map[string]interface{}`: one member for each key, the
keys in sorted order. -/
def marshalObject (m : List (String × JVal)) : List (String × JVal) :=
  (dedupKeys m).insertionSort (fun a b => a.1 ≤ b.1)

/-- The case folding under which `encoding/json` compares the key of a member
to an ASCII struct tag: an ASCII capital goes to its small letter, and the two
letters outside ASCII that fold to an ASCII letter, the long s (U+017F) and the
Kelvin sign (U+212A), go to `s` and `k`. -/
def foldRune (c : Char) : Nat :=
  if 65 ≤ c.toNat ∧ c.toNat ≤ 90 then c.toNat + 32
  else if c.toNat = 383 then 115
  else if c.toNat = 8490 then 107
  else c.toNat

/-- The case-insensitive match of a key against a struct tag. -/
def equalFold (tag key : String) : Bool :=
  decide (tag.data.map foldRune = key.data.map foldRune)

/-- The JSON names of the fields of `ProofRecord` (the struct tags). -/
def recordSchema : List String :=
  ["sponsor_id", "proof_short_id", "collector_name", "bulk_name", "parent_increment",
   "chained_weight", "traceChainType", "bulk_short_id", "store_increment", "press_increment",
   "recordId", "createdAt", "createdBy", "docType"]

/-- The JSON names of the fields of `Ticket` (the struct tags). -/
def ticketSchema : List String :=
  ["id", "receivedWeight", "incrementId", "createdAt", "createdBy", "docType"]

/-- The struct field a member is decoded into: the field whose tag is the key,
else the first field whose tag matches the key case-insensitively, else none
(the member is skipped). -/
def fieldFor (schema : List String) (key : String) : Option String :=
  match schema.find? (fun tag => decide (tag = key)) with
  | some tag => some tag
  | none => schema.find? (fun tag => equalFold tag key)

/-- The values that `json.Unmarshal` decodes into the field tagged `tag`, in the
order of the members of the text. -/
def valuesFor (schema : List String) (members : List (String × JVal)) (tag : String) :
    List JVal :=
  (members.filter (fun member => decide (fieldFor schema member.1 = some tag))).map Prod.snd

/-- The decoding of a value into a `string` field: a JSON string is stored,
`null` and a value of another type (an `UnmarshalTypeError`) leave the field as
it is. -/
def storeString (current : String) : JVal → String
  | JVal.str s => s
  | _ => current

/-- The decoding of a value into a `float64` field. -/
def storeFloat (current : ℚ) : JVal → ℚ
  | JVal.num q => q
  | _ => current

/-- The decoding of a value into a `*float64` field: `null` sets the pointer to
nil; for any other value a nil pointer is first allocated (pointing to zero),
then a number is stored and a value of another type leaves the pointee as it
is. -/
def storeFloatPtr (current : Option ℚ) : JVal → Option ℚ
  | JVal.null => none
  | JVal.num q => some q
  | _ => some (current.getD 0)

/-- `json.Unmarshal` of the members of an object into a zero `ProofRecord`:
the members are decoded in the order of the text, each into the field its key
selects, so that a later member overwrites an earlier one. -/
def decodeProofRecord (members : List (String × JVal)) : ProofRecord :=
  { SponsorID := (valuesFor recordSchema members "sponsor_id").foldl storeString ""
    ProofShortID := (valuesFor recordSchema members "proof_short_id").foldl storeString ""
    CollectorName := (valuesFor recordSchema members "collector_name").foldl storeString ""
    BulkName := (valuesFor recordSchema members "bulk_name").foldl storeString ""
    ParentIncrement := (valuesFor recordSchema members "parent_increment").foldl storeFloat 0
    ChainedWeight := (valuesFor recordSchema members "chained_weight").foldl storeFloat 0
    TraceChainType := (valuesFor recordSchema members "traceChainType").foldl storeString ""
    BulkShortID := (valuesFor recordSchema members "bulk_short_id").foldl storeString ""
    StoreIncrement := (valuesFor recordSchema members "store_increment").foldl storeFloatPtr none
    PressIncrement := (valuesFor recordSchema members "press_increment").foldl storeFloatPtr none
    RecordID := (valuesFor recordSchema members "recordId").foldl storeString ""
    CreatedAt := (valuesFor recordSchema members "createdAt").foldl storeString ""
    CreatedBy := (valuesFor recordSchema members "createdBy").foldl storeString ""
    DocType := (valuesFor recordSchema members "docType").foldl storeString "" }

/-- `json.Unmarshal` of the members of an object into a zero `Ticket`. -/
def decodeTicket (members : List (String × JVal)) : Ticket :=
  { ID := (valuesFor ticketSchema members "id").foldl storeString ""
    ReceivedWeight := (valuesFor ticketSchema members "receivedWeight").foldl storeFloat 0
    IncrementID := (valuesFor ticketSchema members "incrementId").foldl storeFloat 0
    CreatedAt := (valuesFor ticketSchema members "createdAt").foldl storeString ""
    CreatedBy := (valuesFor ticketSchema members "createdBy").foldl storeString ""
    DocType := (valuesFor ticketSchema members "docType").foldl storeString "" }

/-- What an invocation reads besides the ledger: the identity of the caller
(`ctx.GetClientIdentity().GetID()`, which may fail), the clock (`time.Now()` as
milliseconds since the epoch and as an RFC 3339 text), and `simpleHash` of the
marshalled record (FNV-1a, 32 bits, in base 36). -/
structure Env where
  clientID : Except String String
  nowMillis : Int
  nowRFC3339 : String
  simpleHash : List (String × JVal) → String

/-- `GenerateRecordKey` (utils.go): `PROOF_<timestamp>_<hash>`. -/
def GenerateRecordKey (env : Env) (record : List (String × JVal)) : String :=
  "PROOF_" ++ toString env.nowMillis ++ "_" ++ env.simpleHash record

/-- `CreateProofRecordResponse`.  Fields tagged `omitempty` are left out of the
JSON text when they hold their zero value. -/
structure CreateProofRecordResponse where
  Success : Bool
  Message : String
  RecordID : String
  Record : Option ProofRecord
  DuplicateFields : List String
  ExistingRecords : List (String × JVal)
deriving DecidableEq

/-- `DuplicateCheckResult`. -/
structure DuplicateCheckResult where
  IsDuplicate : Bool
  DuplicateFields : List String
  ExistingRecords : List (String × JVal)
deriving DecidableEq

/-- The loop that adds to the selector every field of the group whose value is
present and non-null on the candidate (lines 222-226 of proof_record_manager.go,
180-184 of ticket_manager.go). -/
def buildSelector (docType : String) (record : List (String × JVal)) (fields : List String) :
    Selector :=
  fields.foldl (fun selector field =>
    match getField record field with
    | some value => if value = JVal.null then selector else setField selector field value
    | none => selector) [("docType", JVal.str docType)]

/-- `json.Marshal` of the query: the keys of a Go map are written in sorted
order, so that two selectors with the same bindings are the same query string. -/
def marshalSelector (selector : Selector) : Selector :=
  selector.insertionSort (fun a b => a.1 ≤ b.1)

/-- `ProofRecordManager.validateRecord`. -/
def validateRecord (record : List (String × JVal)) : Bool :=
  ["sponsor_id", "proof_short_id", "collector_name", "bulk_name", "parent_increment",
    "chained_weight", "traceChainType", "bulk_short_id"].all (fun field =>
      match getField record field with
      | some value => decide (value ≠ JVal.null)
      | none => false)

/-- `ProofRecordManager.findDuplicatesByFields`.  The returned error is always
`nil`: a failing query is answered as "no duplicate". -/
def findDuplicatesByFields (ctx : Stub) (record : List (String × JVal))
    (fields : List String) : Except String DuplicateCheckResult × Stub :=
  match ctx.GetQueryResult (marshalSelector (buildSelector "proofRecord" record fields)) with
  | (Except.error _, ctx1) =>
    (Except.ok { IsDuplicate := false, DuplicateFields := [], ExistingRecords := [] }, ctx1)
  | (Except.ok resultsIterator, ctx1) =>
    match getAllResults resultsIterator with
    | Except.error _ =>
      (Except.ok { IsDuplicate := false, DuplicateFields := [], ExistingRecords := [] }, ctx1)
    | Except.ok existingRecords =>
      (Except.ok { IsDuplicate := decide (existingRecords.length > 0)
                   DuplicateFields := []
                   ExistingRecords := existingRecords }, ctx1)

/-- The loop over the conditions in `checkForDuplicates` (lines 195-209). -/
def checkConditions (ctx : Stub) (record : List (String × JVal)) :
    List (Bool × List String) → Except String DuplicateCheckResult × Stub
  | [] => (Except.ok { IsDuplicate := false, DuplicateFields := [], ExistingRecords := [] }, ctx)
  | (condition, checkFields) :: rest =>
    if condition then
      match findDuplicatesByFields ctx record checkFields with
      | (Except.error err, ctx1) => (Except.error err, ctx1)
      | (Except.ok duplicateResult, ctx1) =>
        if duplicateResult.IsDuplicate then
          (Except.ok { IsDuplicate := true
                       DuplicateFields := checkFields
                       ExistingRecords := duplicateResult.ExistingRecords }, ctx1)
        else checkConditions ctx1 record rest
    else checkConditions ctx record rest

/-- `ProofRecordManager.checkForDuplicates`. -/
def checkForDuplicates (ctx : Stub) (record : List (String × JVal)) :
    Except String DuplicateCheckResult × Stub :=
  let storeIsNull :=
    match getField record "store_increment" with
    | some storeIncrement => decide (storeIncrement = JVal.null)
    | none => true
  let pressIsNull :=
    match getField record "press_increment" with
    | some pressIncrement => decide (pressIncrement = JVal.null)
    | none => true
  checkConditions ctx record
    [(!storeIsNull, ["store_increment", "press_increment", "parent_increment"]),
     (storeIsNull, ["press_increment", "parent_increment"]),
     (pressIsNull, ["parent_increment", "store_increment"]),
     (pressIsNull && storeIsNull, ["parent_increment"])]

/-- A failure response of `CreateProofRecord` that carries only a message. -/
def proofRecordFailure (message : String) : CreateProofRecordResponse :=
  { Success := false, Message := message, RecordID := "", Record := none,
    DuplicateFields := [], ExistingRecords := [] }

/-- `ProofRecordManager.CreateProofRecord`.  `json.Marshal` of a map of decoded
JSON values does not fail, so the exit at lines 103-111 is never taken. -/
def CreateProofRecord (env : Env) (ctx : Stub) (recordData : Payload) :
    CreateProofRecordResponse × Stub :=
  match recordData with
  | Payload.invalid err => (proofRecordFailure ("Error creating proof record: " ++ err), ctx)
  | Payload.object record =>
    if !validateRecord record then
      (proofRecordFailure
        "Error creating proof record: Invalid record data. Missing required fields.", ctx)
    else
      match checkForDuplicates ctx record with
      | (Except.error err, ctx1) =>
        (proofRecordFailure ("Error creating proof record: " ++ err), ctx1)
      | (Except.ok duplicateCheckResult, ctx1) =>
        if duplicateCheckResult.IsDuplicate then
          ({ Success := false
             Message := "Duplicate record found"
             RecordID := ""
             Record := none
             DuplicateFields := duplicateCheckResult.DuplicateFields
             ExistingRecords := duplicateCheckResult.ExistingRecords }, ctx1)
        else
          let recordKey := GenerateRecordKey env record
          let clientID :=
            match env.clientID with
            | Except.ok id => id
            | Except.error _ => ""
          let stamped :=
            setField (setField (setField (setField record
              "recordId" (JVal.str recordKey))
              "createdAt" (JVal.str env.nowRFC3339))
              "createdBy" (JVal.str clientID))
              "docType" (JVal.str "proofRecord")
          match ctx1.PutState recordKey (JVal.obj stamped) with
          | (some err, ctx2) =>
            (proofRecordFailure ("Error creating proof record: " ++ err), ctx2)
          | (none, ctx2) =>
            ({ Success := true
               Message := "Record saved successfully"
               RecordID := recordKey
               Record := some (decodeProofRecord (marshalObject stamped))
               DuplicateFields := []
               ExistingRecords := [] }, ctx2)

/-- `CreateTicketResponse`. -/
structure CreateTicketResponse where
  Success : Bool
  Message : String
  TicketKey : String
  Ticket : Option Ticket
  DuplicateFields : List String
  ExistingTickets : List (String × JVal)
deriving DecidableEq

/-- `TicketDuplicateCheckResult`. -/
structure TicketDuplicateCheckResult where
  IsDuplicate : Bool
  DuplicateFields : List String
  ExistingRecords : List (String × JVal)
deriving DecidableEq

/-- `TicketManager.validateTicket`. -/
def validateTicket (ticket : List (String × JVal)) : Bool :=
  ["id", "receivedWeight", "incrementId"].all (fun field =>
    match getField ticket field with
    | some value => decide (value ≠ JVal.null)
    | none => false)

/-- `TicketManager.findTicketDuplicatesByFields`.  The returned error is always
`nil`. -/
def findTicketDuplicatesByFields (ctx : Stub) (ticket : List (String × JVal))
    (fields : List String) : Except String TicketDuplicateCheckResult × Stub :=
  match ctx.GetQueryResult (marshalSelector (buildSelector "ticket" ticket fields)) with
  | (Except.error _, ctx1) =>
    (Except.ok { IsDuplicate := false, DuplicateFields := [], ExistingRecords := [] }, ctx1)
  | (Except.ok resultsIterator, ctx1) =>
    match getAllResults resultsIterator with
    | Except.error _ =>
      (Except.ok { IsDuplicate := false, DuplicateFields := [], ExistingRecords := [] }, ctx1)
    | Except.ok existingTickets =>
      (Except.ok { IsDuplicate := decide (existingTickets.length > 0)
                   DuplicateFields := []
                   ExistingRecords := existingTickets }, ctx1)

/-- `TicketManager.checkTicketForDuplicates`. -/
def checkTicketForDuplicates (ctx : Stub) (ticket : List (String × JVal)) :
    Except String TicketDuplicateCheckResult × Stub :=
  let fields := ["incrementId", "id"]
  match findTicketDuplicatesByFields ctx ticket fields with
  | (Except.error err, ctx1) => (Except.error err, ctx1)
  | (Except.ok duplicateResult, ctx1) =>
    if duplicateResult.IsDuplicate then
      (Except.ok { IsDuplicate := true
                   DuplicateFields := fields
                   ExistingRecords := duplicateResult.ExistingRecords }, ctx1)
    else
      (Except.ok { IsDuplicate := false, DuplicateFields := [], ExistingRecords := [] }, ctx1)

/-- A failure response of `CreateTicket` that carries only a message. -/
def ticketFailure (message : String) : CreateTicketResponse :=
  { Success := false, Message := message, TicketKey := "", Ticket := none,
    DuplicateFields := [], ExistingTickets := [] }

/-- `TicketManager.CreateTicket`.  The result is `none` when the invocation
panics: the type assertion `ticket["id"].(string)` at line 84 fails for an `id`
that is not a string. -/
def CreateTicket (env : Env) (ctx : Stub) (ticketData : Payload) :
    Option (CreateTicketResponse × Stub) :=
  match ticketData with
  | Payload.invalid err => some (ticketFailure ("Error creating ticket: " ++ err), ctx)
  | Payload.object ticket =>
    if !validateTicket ticket then
      some (ticketFailure
        "Error creating ticket: Invalid ticket data. Missing required fields.", ctx)
    else
      match checkTicketForDuplicates ctx ticket with
      | (Except.error err, ctx1) =>
        some (ticketFailure ("Error creating ticket: " ++ err), ctx1)
      | (Except.ok duplicateCheckResult, ctx1) =>
        if duplicateCheckResult.IsDuplicate then
          some ({ Success := false
                  Message := "Duplicate ticket found"
                  TicketKey := ""
                  Ticket := none
                  DuplicateFields := duplicateCheckResult.DuplicateFields
                  ExistingTickets := duplicateCheckResult.ExistingRecords }, ctx1)
        else
          match getField ticket "id" with
          | some (JVal.str ticketID) =>
            let ticketKey := "TICKET_" ++ ticketID
            let clientID :=
              match env.clientID with
              | Except.ok id => id
              | Except.error _ => ""
            let stamped :=
              setField (setField (setField ticket
                "createdAt" (JVal.str env.nowRFC3339))
                "createdBy" (JVal.str clientID))
                "docType" (JVal.str "ticket")
            match ctx1.PutState ticketKey (JVal.obj stamped) with
            | (some err, ctx2) => some (ticketFailure ("Error creating ticket: " ++ err), ctx2)
            | (none, ctx2) =>
              some ({ Success := true
                      Message := "Ticket saved successfully"
                      TicketKey := ticketKey
                      Ticket := some (decodeTicket (marshalObject stamped))
                      DuplicateFields := []
                      ExistingTickets := [] }, ctx2)
          | _ => none

/-- The required fields of a proof record (the list in `validateRecord`). -/
def requiredRecordFields : List String :=
  ["sponsor_id", "proof_short_id", "collector_name", "bulk_name", "parent_increment",
    "chained_weight", "traceChainType", "bulk_short_id"]

/-- The required fields of a ticket (the list in `validateTicket`). -/
def requiredTicketFields : List String :=
  ["id", "receivedWeight", "incrementId"]

/-- An environment for examples. -/
def Env.sample : Env :=
  { clientID := Except.ok "client-1"
    nowMillis := 1700000000000
    nowRFC3339 := "2023-11-14T22:13:20Z"
    simpleHash := fun _ => "1a2b3c" }


/-! ## The specification's view of duplicate detection -/

/-- What a duplicate query gives the detector: the entities of the drained
iterator, and nothing when opening the query or draining it fails. -/
def queryAnswer (ctx : Stub) (sel : Selector) : List (String × JVal) :=
  match bulkRead ctx sel with
  | Except.ok entities => entities
  | Except.error _ => []

/-- Whether the candidate carries the field with a non-null value. -/
def hasValue (record : List (String × JVal)) (field : String) : Bool :=
  match getField record field with
  | some value => decide (value ≠ JVal.null)
  | none => false

/-- The field groups of the proof-record policy that are eligible for a
candidate, in the fixed order of the specification (§4.2): group 1 when the
store increment is present, group 2 when it is absent, group 3 when the press
increment is absent, group 4 when both are absent. -/
def eligibleGroups (record : List (String × JVal)) : List (List String) :=
  (if hasValue record "store_increment" then
    [["store_increment", "press_increment", "parent_increment"]] else []) ++
  (if hasValue record "store_increment" then [] else
    [["press_increment", "parent_increment"]]) ++
  (if hasValue record "press_increment" then [] else
    [["parent_increment", "store_increment"]]) ++
  (if hasValue record "press_increment" || hasValue record "store_increment" then []
   else [["parent_increment"]])

/-- The query of a field group for a candidate proof record: the kind, plus the
fields of the group that are non-null on the candidate. -/
def groupSelector (record : List (String × JVal)) (fields : List String) : Selector :=
  marshalSelector (buildSelector "proofRecord" record fields)

/-- A valid candidate proof record with parent increment 7 and neither a store
nor a press increment. -/
def parentOnlyCandidate : List (String × JVal) :=
  [("sponsor_id", JVal.str "S1"), ("proof_short_id", JVal.str "P2"),
   ("collector_name", JVal.str "C"), ("bulk_name", JVal.str "B"),
   ("parent_increment", JVal.num 7), ("chained_weight", JVal.num 3),
   ("traceChainType", JVal.str "T"), ("bulk_short_id", JVal.str "BS")]

/-- A stored proof record with parent increment 7 and neither a store nor a
press increment. -/
def parentOnlyStored : JVal :=
  JVal.obj [("sponsor_id", JVal.str "S1"), ("proof_short_id", JVal.str "P1"),
    ("collector_name", JVal.str "C"), ("bulk_name", JVal.str "B"),
    ("parent_increment", JVal.num 7), ("chained_weight", JVal.num 2),
    ("traceChainType", JVal.str "T"), ("bulk_short_id", JVal.str "BS"),
    ("recordId", JVal.str "PROOF_1_a"), ("createdAt", JVal.str "2023-01-01T00:00:00Z"),
    ("createdBy", JVal.str "client-0"), ("docType", JVal.str "proofRecord")]

/-- The entity `CreateTicket` persists for a payload: the payload's fields with
the stamps `createdAt`, `createdBy` and `docType` assigned (lines 92-94). -/
def stampTicket (env : Env) (ticket : List (String × JVal)) : List (String × JVal) :=
  setField (setField (setField ticket
    "createdAt" (JVal.str env.nowRFC3339))
    "createdBy" (JVal.str (match env.clientID with
      | Except.ok id => id
      | Except.error _ => "")))
    "docType" (JVal.str "ticket")

/-- The entity `CreateProofRecord` persists for a payload: the payload's fields
with the stamps `recordId`, `createdAt`, `createdBy` and `docType` assigned
(lines 98-101). -/
def stampRecord (env : Env) (record : List (String × JVal)) : List (String × JVal) :=
  setField (setField (setField (setField record
    "recordId" (JVal.str (GenerateRecordKey env record)))
    "createdAt" (JVal.str env.nowRFC3339))
    "createdBy" (JVal.str (match env.clientID with
      | Except.ok id => id
      | Except.error _ => "")))
    "docType" (JVal.str "proofRecord")

/-- The query of the ticket policy for a candidate: the kind, plus `incrementId`
and `id` where they are non-null on the candidate. -/
def ticketSelectorOf (ticket : List (String × JVal)) : Selector :=
  marshalSelector (buildSelector "ticket" ticket ["incrementId", "id"])


/-- A ledger on which every rich query fails when it is opened; writes and
deletes succeed. -/
def Stub.queriesDown (world : List (String × JVal)) : Stub :=
  { world := world
    calls := []
    queryFault := fun _ => QueryFault.onOpen "query failed"
    putFault := fun _ => none
    delFault := fun _ => none }

/-- A ticket payload whose `id` is a number: `{"id": 7, "receivedWeight": 1,
"incrementId": 1}`. -/
def numericIdTicket : List (String × JVal) :=
  [("id", JVal.num 7), ("receivedWeight", JVal.num 1), ("incrementId", JVal.num 1)]

/-! ## Point lookup and the typed response -/

/-- `QueryUtils.QueryProofRecord` (query_utils.go, lines 20-29).  `readFault` is
the error of `GetState`, if the point read fails. -/
def QueryProofRecord (ctx : Stub) (readFault : Option String) (recordId : String) :
    Except String JVal × Stub :=
  match ctx.GetState recordId with
  | (recordAsBytes, ctx1) =>
    match readFault with
    | some err => (Except.error ("failed to read from world state: " ++ err), ctx1)
    | none =>
      match recordAsBytes with
      | none => (Except.error ("Proof record " ++ recordId ++ " does not exist"), ctx1)
      | some record => (Except.ok record, ctx1)

/-- The names of the four stamps of a proof record. -/
def recordStamps : List String := ["recordId", "createdAt", "createdBy", "docType"]

/-- A valid payload with parent increment 8 that also carries a field outside
the schema and its own `docType`. -/
def extraFieldCandidate : List (String × JVal) :=
  [("sponsor_id", JVal.str "S1"), ("proof_short_id", JVal.str "P3"),
   ("collector_name", JVal.str "C"), ("bulk_name", JVal.str "B"),
   ("parent_increment", JVal.num 8), ("chained_weight", JVal.num 3),
   ("traceChainType", JVal.str "T"), ("bulk_short_id", JVal.str "BS"),
   ("color", JVal.str "green"), ("docType", JVal.str "other")]

/-- `json.Marshal` of a `ProofRecord`: the fourteen tagged fields, in the order
of the struct; a nil increment is written as `null`. -/
def ProofRecord.toJSON (r : ProofRecord) : List (String × JVal) :=
  [("sponsor_id", JVal.str r.SponsorID),
   ("proof_short_id", JVal.str r.ProofShortID),
   ("collector_name", JVal.str r.CollectorName),
   ("bulk_name", JVal.str r.BulkName),
   ("parent_increment", JVal.num r.ParentIncrement),
   ("chained_weight", JVal.num r.ChainedWeight),
   ("traceChainType", JVal.str r.TraceChainType),
   ("bulk_short_id", JVal.str r.BulkShortID),
   ("store_increment",
      match r.StoreIncrement with
      | some v => JVal.num v
      | none => JVal.null),
   ("press_increment",
      match r.PressIncrement with
      | some v => JVal.num v
      | none => JVal.null),
   ("recordId", JVal.str r.RecordID),
   ("createdAt", JVal.str r.CreatedAt),
   ("createdBy", JVal.str r.CreatedBy),
   ("docType", JVal.str r.DocType)]

/-- `json.Marshal` of a `Ticket`: the six tagged fields. -/
def Ticket.toJSON (t : Ticket) : List (String × JVal) :=
  [("id", JVal.str t.ID),
   ("receivedWeight", JVal.num t.ReceivedWeight),
   ("incrementId", JVal.num t.IncrementID),
   ("createdAt", JVal.str t.CreatedAt),
   ("createdBy", JVal.str t.CreatedBy),
   ("docType", JVal.str t.DocType)]

/-- A valid payload that also carries the key `recordid`, which matches the tag
`recordId` case-insensitively and is written after it by `json.Marshal`. -/
def lowercaseKeyCandidate : List (String × JVal) :=
  [("sponsor_id", JVal.str "S1"), ("proof_short_id", JVal.str "P4"),
   ("collector_name", JVal.str "C"), ("bulk_name", JVal.str "B"),
   ("parent_increment", JVal.num 9), ("chained_weight", JVal.num 3),
   ("traceChainType", JVal.str "T"), ("bulk_short_id", JVal.str "BS"),
   ("recordid", JVal.str "forged")]

/-- A valid ticket payload that also carries a field outside the schema. -/
def extraFieldTicket : List (String × JVal) :=
  [("id", JVal.str "T9"), ("receivedWeight", JVal.num 4), ("incrementId", JVal.num 2),
   ("note", JVal.str "fragile")]

/-- The binding a candidate contributes to a selector for a field: the field
with its value when the value is present and non-null, nothing otherwise. -/
def presentBinding (record : List (String × JVal)) (field : String) : Selector :=
  match getField record field with
  | some value => if value = JVal.null then [] else [(field, value)]
  | none => []

/-- The one selector of the specification's reading of the proof-record
policy: `docType` = `proofRecord`, `parent_increment`, and whichever of
`store_increment` and `press_increment` are non-null on the candidate, as the
query text that `json.Marshal` writes. -/
def collapsedSelector (record : List (String × JVal)) : Selector :=
  marshalSelector ([("docType", JVal.str "proofRecord")] ++
    presentBinding record "parent_increment" ++
    presentBinding record "store_increment" ++
    presentBinding record "press_increment")

/-- A world state whose bucket 5 has chained weight sum 15.004 against the
largest received weight 15.001. -/
def roundingWorld : List (String × JVal) :=
  [("PROOF_A", pressRecord 5 (nearestDouble (15004 / 1000))),
   ("TICKET_T1", ticketRecord "T1" 5 (nearestDouble (15001 / 1000)))]

/-- A world state whose bucket 5 has the chained weight 1e307 against the
received weight 1: the product of the sum by 100 overflows. -/
def overflowWorld : List (String × JVal) :=
  [("PROOF_A", pressRecord 5 (nearestDouble 1e307)), ("TICKET_T1", ticketRecord "T1" 5 1)]

/-- Three proof records of increment 5 with the chained weights 2^53, 1 and 1,
in this scan order. -/
def largeFirstRecords : List (String × JVal) :=
  [("PROOF_A", pressRecord 5 9007199254740992), ("PROOF_B", pressRecord 5 1),
   ("PROOF_C", pressRecord 5 1)]

/-- The same three proof records scanned with the large weight last. -/
def largeLastRecords : List (String × JVal) :=
  [("PROOF_B", pressRecord 5 1), ("PROOF_C", pressRecord 5 1),
   ("PROOF_A", pressRecord 5 9007199254740992)]

/-- A world state whose bucket of increment 5.9 has the chained weight 17.005
against the received weight 12.344, each the `float64` nearest to the decimal. -/
def boundaryWorld : List (String × JVal) :=
  [("PROOF_A", pressRecord (nearestDouble (59 / 10)) (nearestDouble (17005 / 1000))),
   ("TICKET_T1", ticketRecord "T1" (nearestDouble (59 / 10)) (nearestDouble (12344 / 1000)))]

/-- A world state whose bucket 5 has the chained weights 2^53 and 1 against the
received weight 2^53: the exact sum exceeds the received weight, the `float64`
sum does not. -/
def absorbedWorld : List (String × JVal) :=
  [("PROOF_A", pressRecord 5 9007199254740992), ("PROOF_B", pressRecord 5 1),
   ("TICKET_T1", ticketRecord "T1" 5 9007199254740992)]
/-! ## Theorems -/

/-! ### Binary64 rounding -/

theorem log2Fuel_spec (fuel n : Nat) (hn : 0 < n) (hf : n ≤ fuel) :
    2 ^ log2Fuel fuel n ≤ n ∧ n < 2 ^ (log2Fuel fuel n + 1) := by
  induction fuel generalizing n with
  | zero => omega
  | succ k ih =>
    unfold log2Fuel
    by_cases h2 : n < 2
    · rw [if_pos h2]
      constructor <;> simp <;> omega
    · rw [if_neg h2]
      have hpos : 0 < n / 2 := Nat.div_pos (by omega) (by norm_num)
      have hle : n / 2 ≤ k := by omega
      obtain ⟨h1, h3⟩ := ih (n / 2) hpos hle
      constructor
      · rw [pow_succ]
        omega
      · rw [pow_succ]
        omega

theorem floorLog2_spec (n : Nat) (hn : 0 < n) :
    2 ^ floorLog2 n ≤ n ∧ n < 2 ^ (floorLog2 n + 1) :=
  log2Fuel_spec n n hn (le_refl n)

theorem pow2_eq (p : Int) : pow2 p = (2 : ℚ) ^ p := by
  unfold pow2
  by_cases h : 0 ≤ p
  · rw [if_pos h]
    obtain ⟨n, rfl⟩ := Int.eq_ofNat_of_zero_le h
    simp [zpow_natCast]
  · rw [if_neg h]
    have hp : p = -((-p).toNat : Int) := by
      rw [Int.toNat_of_nonneg (by omega)]
      ring
    generalize (-p).toNat = n at hp
    subst hp
    simp [zpow_neg, zpow_natCast]

theorem pow2_pos (p : Int) : 0 < pow2 p := by
  rw [pow2_eq]
  positivity

theorem pow2_add (a b : Int) : pow2 (a + b) = pow2 a * pow2 b := by
  rw [pow2_eq, pow2_eq, pow2_eq, zpow_add₀ (by norm_num : (2 : ℚ) ≠ 0)]

theorem pow2_mono {a b : Int} (h : a ≤ b) : pow2 a ≤ pow2 b := by
  rw [pow2_eq, pow2_eq]
  exact zpow_le_zpow_right₀ (by norm_num) h

theorem pow2_lt {a b : Int} (h : a < b) : pow2 a < pow2 b := by
  rw [pow2_eq, pow2_eq]
  exact zpow_lt_zpow_right₀ (by norm_num) h

theorem pow2_natCast (n : Nat) : pow2 (n : Int) = ((2 ^ n : Nat) : ℚ) := by
  rw [pow2_eq, zpow_natCast]
  push_cast
  rfl

theorem binaryExponent_spec (a : ℚ) (ha : 0 < a) :
    pow2 (binaryExponent a) ≤ a ∧ a < pow2 (binaryExponent a + 1) := by
  have hnum : 0 < a.num := Rat.num_pos.2 ha
  have hn : 0 < a.num.natAbs := Int.natAbs_pos.2 (ne_of_gt hnum)
  have hd : 0 < a.den := a.den_pos
  obtain ⟨n1, n2⟩ := floorLog2_spec a.num.natAbs hn
  obtain ⟨d1, d2⟩ := floorLog2_spec a.den hd
  have hval : a = (a.num.natAbs : ℚ) / (a.den : ℚ) := by
    have h0 : ((a.num.natAbs : Nat) : Int) = a.num := Int.natAbs_of_nonneg (le_of_lt hnum)
    have h2 : (a.num.natAbs : ℚ) = (a.num : ℚ) :=
      calc (a.num.natAbs : ℚ) = (((a.num.natAbs : Nat) : Int) : ℚ) := (Int.cast_natCast _).symm
        _ = (a.num : ℚ) := by rw [h0]
    rw [h2]
    exact (Rat.num_div_den a).symm
  have hdq : (0 : ℚ) < (a.den : ℚ) := by exact_mod_cast hd
  have n1q : ((2 ^ floorLog2 a.num.natAbs : Nat) : ℚ) ≤ (a.num.natAbs : ℚ) := by exact_mod_cast n1
  have n2q : (a.num.natAbs : ℚ) < ((2 ^ (floorLog2 a.num.natAbs + 1) : Nat) : ℚ) := by
    exact_mod_cast n2
  have d1q : ((2 ^ floorLog2 a.den : Nat) : ℚ) ≤ (a.den : ℚ) := by exact_mod_cast d1
  have d2q : (a.den : ℚ) < ((2 ^ (floorLog2 a.den + 1) : Nat) : ℚ) := by exact_mod_cast d2
  rw [← pow2_natCast] at n1q n2q d1q d2q
  have hupper : a < pow2 ((floorLog2 a.num.natAbs : Int) - (floorLog2 a.den : Int) + 1) := by
    have hsplit : pow2 ((floorLog2 a.num.natAbs : Int) - (floorLog2 a.den : Int) + 1) *
        pow2 (floorLog2 a.den : Int) = pow2 (((floorLog2 a.num.natAbs + 1 : Nat) : Int)) := by
      rw [← pow2_add]
      congr 1
      push_cast
      ring
    have hpd := pow2_pos (floorLog2 a.den : Int)
    have hpe := pow2_pos ((floorLog2 a.num.natAbs : Int) - (floorLog2 a.den : Int) + 1)
    generalize (floorLog2 a.num.natAbs : Int) - (floorLog2 a.den : Int) + 1 = E at hsplit hpe ⊢
    rw [hval, div_lt_iff₀ hdq]
    calc (a.num.natAbs : ℚ) < pow2 (((floorLog2 a.num.natAbs + 1 : Nat) : Int)) := n2q
      _ = pow2 E * pow2 (floorLog2 a.den : Int) := hsplit.symm
      _ ≤ pow2 E * (a.den : ℚ) := mul_le_mul_of_nonneg_left d1q (le_of_lt hpe)
  have hlower : pow2 ((floorLog2 a.num.natAbs : Int) - (floorLog2 a.den : Int) - 1) ≤ a := by
    have hsplit : pow2 ((floorLog2 a.num.natAbs : Int) - (floorLog2 a.den : Int) - 1) *
        pow2 (((floorLog2 a.den + 1 : Nat) : Int)) = pow2 (floorLog2 a.num.natAbs : Int) := by
      rw [← pow2_add]
      congr 1
      push_cast
      ring
    have hpe := pow2_pos ((floorLog2 a.num.natAbs : Int) - (floorLog2 a.den : Int) - 1)
    generalize (floorLog2 a.num.natAbs : Int) - (floorLog2 a.den : Int) - 1 = E at hsplit hpe ⊢
    rw [hval, le_div_iff₀ hdq]
    calc pow2 E * (a.den : ℚ)
        ≤ pow2 E * pow2 (((floorLog2 a.den + 1 : Nat) : Int)) :=
          mul_le_mul_of_nonneg_left (le_of_lt d2q) (le_of_lt hpe)
      _ = pow2 (floorLog2 a.num.natAbs : Int) := hsplit
      _ ≤ (a.num.natAbs : ℚ) := n1q
  unfold binaryExponent
  simp only
  by_cases hc : pow2 ((floorLog2 a.num.natAbs : Int) - (floorLog2 a.den : Int)) ≤ a
  · rw [if_pos hc]
    exact ⟨hc, hupper⟩
  · rw [if_neg hc]
    refine ⟨hlower, ?_⟩
    have : (floorLog2 a.num.natAbs : Int) - (floorLog2 a.den : Int) - 1 + 1 =
        (floorLog2 a.num.natAbs : Int) - (floorLog2 a.den : Int) := by ring
    rw [this]
    exact lt_of_not_ge hc

theorem binaryExponent_mono (a b : ℚ) (ha : 0 < a) (hab : a ≤ b) :
    binaryExponent a ≤ binaryExponent b := by
  by_contra hlt
  have hlt' : binaryExponent b + 1 ≤ binaryExponent a := by omega
  obtain ⟨a1, _⟩ := binaryExponent_spec a ha
  obtain ⟨_, b2⟩ := binaryExponent_spec b (lt_of_lt_of_le ha hab)
  have := pow2_mono hlt'
  linarith

theorem roundHalfEven_le_ceil (x : ℚ) : (roundHalfEven x : ℚ) ≤ (⌊x⌋ : ℚ) + 1 := by
  unfold roundHalfEven
  split_ifs <;> push_cast <;> linarith

theorem roundHalfEven_ge_floor (x : ℚ) : (⌊x⌋ : ℚ) ≤ (roundHalfEven x : ℚ) := by
  unfold roundHalfEven
  split_ifs <;> push_cast <;> linarith

theorem roundHalfEven_intCast (n : Int) : roundHalfEven (n : ℚ) = n := by
  unfold roundHalfEven
  simp

theorem roundHalfEven_abs_le (x : ℚ) : |(roundHalfEven x : ℚ) - x| ≤ 1 / 2 := by
  have h1 : (⌊x⌋ : ℚ) ≤ x := Int.floor_le x
  have h2 : x < (⌊x⌋ : ℚ) + 1 := Int.lt_floor_add_one x
  unfold roundHalfEven
  rw [abs_le]
  split_ifs with c1 c2 c3 <;> push_cast <;> constructor <;> linarith

theorem roundHalfEven_mono (x y : ℚ) (h : x ≤ y) : roundHalfEven x ≤ roundHalfEven y := by
  have hf : ⌊x⌋ ≤ ⌊y⌋ := Int.floor_mono h
  rcases lt_or_eq_of_le hf with hlt | heq
  · have h1 : (roundHalfEven x : ℚ) ≤ (⌊x⌋ : ℚ) + 1 := roundHalfEven_le_ceil x
    have h2 : (⌊y⌋ : ℚ) ≤ (roundHalfEven y : ℚ) := roundHalfEven_ge_floor y
    have h3 : ⌊x⌋ + 1 ≤ ⌊y⌋ := hlt
    have h3' : (⌊x⌋ : ℚ) + 1 ≤ (⌊y⌋ : ℚ) := by exact_mod_cast h3
    have : (roundHalfEven x : ℚ) ≤ (roundHalfEven y : ℚ) := by linarith
    exact_mod_cast this
  · unfold roundHalfEven
    rw [heq]
    split_ifs <;> first | omega | (exfalso; linarith)

theorem ulpExponent_mono (a b : ℚ) (ha : 0 < a) (hab : a ≤ b) :
    ulpExponent a ≤ ulpExponent b := by
  have := binaryExponent_mono a b ha hab
  unfold ulpExponent
  omega

theorem roundMagnitude_nonneg (a : ℚ) (ha : 0 < a) : 0 ≤ roundMagnitude a := by
  unfold roundMagnitude
  have hp := pow2_pos (ulpExponent a)
  have hx : 0 ≤ a / pow2 (ulpExponent a) := le_of_lt (div_pos ha hp)
  have h0 : roundHalfEven 0 ≤ roundHalfEven (a / pow2 (ulpExponent a)) :=
    roundHalfEven_mono 0 _ hx
  have h00 : roundHalfEven (0 : ℚ) = 0 := by
    have := roundHalfEven_intCast 0
    simpa using this
  rw [h00] at h0
  have : (0 : ℚ) ≤ (roundHalfEven (a / pow2 (ulpExponent a)) : ℚ) := by exact_mod_cast h0
  positivity

theorem roundMagnitude_le_top (a : ℚ) (ha : 0 < a) :
    roundMagnitude a ≤ pow2 (max (binaryExponent a) (-1022) + 1) := by
  unfold roundMagnitude
  have hp := pow2_pos (ulpExponent a)
  obtain ⟨_, hup⟩ := binaryExponent_spec a ha
  have hle : a ≤ pow2 (max (binaryExponent a) (-1022) + 1) :=
    le_trans (le_of_lt hup) (pow2_mono (by omega))
  have hsplit : pow2 (max (binaryExponent a) (-1022) + 1) = pow2 53 * pow2 (ulpExponent a) := by
    rw [← pow2_add]
    congr 1
    unfold ulpExponent
    ring
  have hx : a / pow2 (ulpExponent a) ≤ pow2 53 := by
    rw [div_le_iff₀ hp, ← hsplit]
    exact hle
  have h53 : pow2 53 = ((9007199254740992 : Int) : ℚ) := by
    rw [pow2_eq]
    norm_num
  rw [h53] at hx
  have hr := roundHalfEven_mono _ _ hx
  rw [roundHalfEven_intCast] at hr
  have hrq : (roundHalfEven (a / pow2 (ulpExponent a)) : ℚ) ≤ ((9007199254740992 : Int) : ℚ) := by
    exact_mod_cast hr
  rw [hsplit, h53]
  exact mul_le_mul_of_nonneg_right hrq (le_of_lt hp)

theorem roundMagnitude_ge_bottom (a : ℚ) (ha : 0 < a) (he : -1022 ≤ binaryExponent a) :
    pow2 (binaryExponent a) ≤ roundMagnitude a := by
  unfold roundMagnitude
  have hp := pow2_pos (ulpExponent a)
  obtain ⟨hlow, _⟩ := binaryExponent_spec a ha
  have hsplit : pow2 (binaryExponent a) = pow2 52 * pow2 (ulpExponent a) := by
    rw [← pow2_add]
    congr 1
    unfold ulpExponent
    rw [max_eq_left he]
    ring
  have hx : pow2 52 ≤ a / pow2 (ulpExponent a) := by
    rw [le_div_iff₀ hp, ← hsplit]
    exact hlow
  have h52 : pow2 52 = ((4503599627370496 : Int) : ℚ) := by
    rw [pow2_eq]
    norm_num
  rw [h52] at hx
  have hr := roundHalfEven_mono _ _ hx
  rw [roundHalfEven_intCast] at hr
  have hrq : ((4503599627370496 : Int) : ℚ) ≤ (roundHalfEven (a / pow2 (ulpExponent a)) : ℚ) := by
    exact_mod_cast hr
  rw [hsplit, h52]
  exact mul_le_mul_of_nonneg_right hrq (le_of_lt hp)

theorem roundMagnitude_mono (a b : ℚ) (ha : 0 < a) (hab : a ≤ b) :
    roundMagnitude a ≤ roundMagnitude b := by
  have hb : 0 < b := lt_of_lt_of_le ha hab
  have hexp := binaryExponent_mono a b ha hab
  rcases lt_or_eq_of_le (ulpExponent_mono a b ha hab) with hlt | heq
  · have hbe : max (binaryExponent a) (-1022) + 1 ≤ binaryExponent b := by
      unfold ulpExponent at hlt
      omega
    have hbe' : -1022 ≤ binaryExponent b := by omega
    calc roundMagnitude a ≤ pow2 (max (binaryExponent a) (-1022) + 1) :=
          roundMagnitude_le_top a ha
      _ ≤ pow2 (binaryExponent b) := pow2_mono hbe
      _ ≤ roundMagnitude b := roundMagnitude_ge_bottom b hb hbe'
  · unfold roundMagnitude
    rw [heq]
    have hp := pow2_pos (ulpExponent b)
    have hx : a / pow2 (ulpExponent b) ≤ b / pow2 (ulpExponent b) :=
      div_le_div_of_nonneg_right hab (le_of_lt hp)
    have hr := roundHalfEven_mono _ _ hx
    have hrq : (roundHalfEven (a / pow2 (ulpExponent b)) : ℚ) ≤
        (roundHalfEven (b / pow2 (ulpExponent b)) : ℚ) := by exact_mod_cast hr
    exact mul_le_mul_of_nonneg_right hrq (le_of_lt hp)

theorem round_mono (x y : ℚ) (h : x ≤ y) : F64.le (F64.round x) (F64.round y) := by
  unfold F64.round
  by_cases hx0 : x = 0
  · subst hx0
    rw [if_pos rfl]
    by_cases hy0 : y = 0
    · rw [if_pos hy0]; exact le_refl (0 : ℚ)
    · have hy : 0 < y := lt_of_le_of_ne h (Ne.symm hy0)
      rw [if_neg hy0, if_pos hy]
      split_ifs
      · exact roundMagnitude_nonneg y hy
      · trivial
  · rw [if_neg hx0]
    by_cases hxp : 0 < x
    · have hy : 0 < y := lt_of_lt_of_le hxp h
      rw [if_pos hxp, if_neg (ne_of_gt hy), if_pos hy]
      have hm := roundMagnitude_mono x y hxp h
      split_ifs with c1 c2 c2
      · exact hm
      · trivial
      · exact absurd (lt_of_le_of_lt hm c2) c1
      · trivial
    · have hxn : x < 0 := lt_of_le_of_ne (le_of_not_gt hxp) hx0
      rw [if_neg hxp]
      by_cases hy0 : y = 0
      · rw [if_pos hy0]
        split_ifs
        · have := roundMagnitude_nonneg (-x) (by linarith)
          show -roundMagnitude (-x) ≤ 0
          linarith
        · trivial
      · rw [if_neg hy0]
        by_cases hyp : 0 < y
        · rw [if_pos hyp]
          have h1 := roundMagnitude_nonneg (-x) (by linarith)
          have h2 := roundMagnitude_nonneg y hyp
          split_ifs
          · show -roundMagnitude (-x) ≤ roundMagnitude y
            linarith
          · trivial
          · trivial
          · trivial
        · have hyn : y < 0 := lt_of_le_of_ne (le_of_not_gt hyp) hy0
          rw [if_neg hyp]
          have hm := roundMagnitude_mono (-y) (-x) (by linarith) (by linarith)
          split_ifs with c1 c2 c2
          · show -roundMagnitude (-x) ≤ -roundMagnitude (-y)
            linarith
          · exact absurd (lt_of_le_of_lt hm c1) c2
          · trivial
          · trivial

theorem not_flt_of_fle (a b : F64) (h : F64.le a b) : ¬ F64.lt b a := by
  cases a <;> cases b <;> simp [F64.le, F64.lt] at h ⊢
  exact h

theorem fle_of_flt (a b : F64) (h : F64.lt a b) : F64.le a b := by
  cases a <;> cases b <;> simp [F64.le, F64.lt] at h ⊢
  exact le_of_lt h

theorem fle_trans (a b c : F64) (h1 : F64.le a b) (h2 : F64.le b c) : F64.le a c := by
  cases a <;> cases b <;> cases c <;> simp [F64.le] at h1 h2 ⊢
  exact le_trans h1 h2
theorem roundMagnitude_err (a : ℚ) (_ha : 0 < a) :
    |roundMagnitude a - a| ≤ pow2 (ulpExponent a) / 2 := by
  unfold roundMagnitude
  have hp := pow2_pos (ulpExponent a)
  generalize pow2 (ulpExponent a) = u at hp
  have h := roundHalfEven_abs_le (a / u)
  have heq : (roundHalfEven (a / u) : ℚ) * u - a = ((roundHalfEven (a / u) : ℚ) - a / u) * u := by
    field_simp
  rw [heq, abs_mul, abs_of_pos hp]
  calc |(roundHalfEven (a / u) : ℚ) - a / u| * u ≤ 1 / 2 * u :=
        mul_le_mul_of_nonneg_right h (le_of_lt hp)
    _ = u / 2 := by ring

theorem ulp_le (a : ℚ) (ha : 0 < a) :
    pow2 (ulpExponent a) ≤ a * pow2 (-52) + pow2 (-1074) := by
  obtain ⟨hlow, _⟩ := binaryExponent_spec a ha
  have h52 := pow2_pos (-52)
  have h1074 := pow2_pos (-1074)
  unfold ulpExponent
  by_cases he : -1022 ≤ binaryExponent a
  · rw [max_eq_left he, sub_eq_add_neg, pow2_add]
    have : pow2 (binaryExponent a) * pow2 (-52) ≤ a * pow2 (-52) :=
      mul_le_mul_of_nonneg_right hlow (le_of_lt h52)
    linarith
  · rw [max_eq_right (by omega)]
    have h0 : 0 ≤ a * pow2 (-52) := le_of_lt (mul_pos ha h52)
    have : ((-1022 : Int) - 52) = -1074 := by norm_num
    rw [this]
    linarith

theorem round_err (q w : ℚ) (h : F64.round q = F64.finite w) :
    |w - q| ≤ |q| * pow2 (-53) + pow2 (-1075) := by
  have h52 : pow2 (-52) = 2 * pow2 (-53) := by
    have : ((-52 : Int)) = 1 + (-53) := by norm_num
    rw [this, pow2_add]
    have h1 : pow2 1 = 2 := by decide!
    rw [h1]
  have h1074 : pow2 (-1074) = 2 * pow2 (-1075) := by
    have : ((-1074 : Int)) = 1 + (-1075) := by norm_num
    rw [this, pow2_add]
    have h1 : pow2 1 = 2 := by decide!
    rw [h1]
  have h53 := pow2_pos (-53)
  have h1075 := pow2_pos (-1075)
  unfold F64.round at h
  by_cases hq0 : q = 0
  · rw [if_pos hq0] at h
    cases h
    rw [hq0]
    simp only [sub_self, abs_zero, zero_mul, zero_add]
    exact le_of_lt h1075
  · rw [if_neg hq0] at h
    by_cases hq : 0 < q
    · rw [if_pos hq] at h
      split at h
      · cases h
        have e1 := roundMagnitude_err q hq
        have e2 := ulp_le q hq
        rw [abs_of_pos hq]
        rw [h52, h1074] at e2
        calc |roundMagnitude q - q| ≤ pow2 (ulpExponent q) / 2 := e1
          _ ≤ q * pow2 (-53) + pow2 (-1075) := by linarith
      · cases h
    · rw [if_neg hq] at h
      have hneg : 0 < -q := by
        rcases lt_trichotomy q 0 with h1 | h1 | h1
        · linarith
        · exact absurd h1 hq0
        · exact absurd h1 hq
      split at h
      · cases h
        have e1 := roundMagnitude_err (-q) hneg
        have e2 := ulp_le (-q) hneg
        rw [abs_of_neg (by linarith : q < 0)]
        rw [h52, h1074] at e2
        have hab : |(-roundMagnitude (-q)) - q| = |roundMagnitude (-q) - -q| := by
          rw [← abs_neg]
          congr 1
          ring
        rw [hab]
        calc |roundMagnitude (-q) - -q| ≤ pow2 (ulpExponent (-q)) / 2 := e1
          _ ≤ -q * pow2 (-53) + pow2 (-1075) := by linarith
      · cases h

theorem round_ne_nan (q : ℚ) : F64.round q ≠ F64.nan := by
  unfold F64.round
  split_ifs <;> simp

theorem roundToCents_finite (s w : ℚ) (h : roundToCents (F64.finite s) = F64.finite w) :
    ∃ p : ℚ, F64.mul (F64.finite s) (F64.finite 100) = F64.finite p ∧
      F64.round (mathRound p / 100) = F64.finite w ∧
      |p - s * 100| ≤ |s * 100| * pow2 (-53) + pow2 (-1075) ∧
      |w - mathRound p / 100| ≤ |mathRound p / 100| * pow2 (-53) + pow2 (-1075) := by
  unfold roundToCents at h
  have hm : F64.mul (F64.finite s) (F64.finite 100) = F64.round (s * 100) := rfl
  rw [hm] at h ⊢
  cases hr : F64.round (s * 100) with
  | finite p =>
    rw [hr] at h
    have hd : F64.div (F64.mathRound (F64.finite p)) (F64.finite 100) =
        F64.round (mathRound p / 100) := by
      simp [F64.mathRound, F64.div]
    rw [hd] at h
    exact ⟨p, rfl, h, round_err _ _ hr, round_err _ _ h⟩
  | posInf =>
    rw [hr] at h
    simp [F64.mathRound, F64.div] at h
  | negInf =>
    rw [hr] at h
    simp [F64.mathRound, F64.div] at h
  | nan => exact absurd hr (round_ne_nan _)

theorem mathRound_near (x : ℚ) : |mathRound x - x| ≤ 1 / 2 := by
  unfold mathRound
  by_cases h : 0 ≤ x
  · rw [if_pos h]
    have h1 := Int.floor_le (x + 1 / 2)
    have h2 := Int.lt_floor_add_one (x + 1 / 2)
    rw [abs_le]
    constructor <;> linarith
  · rw [if_neg h]
    have h1 := Int.floor_le (-x + 1 / 2)
    have h2 := Int.lt_floor_add_one (-x + 1 / 2)
    rw [abs_le]
    constructor <;> linarith

theorem roundToCents_err (s w : ℚ) (h : roundToCents (F64.finite s) = F64.finite w) :
    |w - s| ≤ 1 / 200 + (|s| + 1) * pow2 (-51) := by
  obtain ⟨p, _, _, e1, e3⟩ := roundToCents_finite s w h
  have e2 := mathRound_near p
  have h53 : pow2 (-53) = 1 / 9007199254740992 := by decide!
  have h51 : pow2 (-51) = 1 / 2251799813685248 := by decide!
  have hd : pow2 (-1075) ≤ 1 / 9007199254740992 := by
    rw [← h53]
    exact pow2_mono (by norm_num)
  have hd0 := pow2_pos (-1075)
  rw [h53] at e1 e3
  rw [h51]
  generalize pow2 (-1075) = d at e1 e3 hd hd0
  generalize mathRound p = n at e2 e3
  have hs := abs_nonneg s
  have a1 : |s * 100| = |s| * 100 := by rw [abs_mul]; norm_num
  have a2 : |n / 100| = |n| / 100 := by rw [abs_div]; norm_num
  rw [a1] at e1
  rw [a2] at e3
  have t1 : |n| ≤ |p| + 1 / 2 := by
    have := abs_sub_abs_le_abs_sub n p
    linarith
  have t2 : |p| ≤ |s| * 100 + (|s| * 100 * (1 / 9007199254740992) + d) := by
    have := abs_sub_abs_le_abs_sub p (s * 100)
    rw [a1] at this
    linarith
  have key : w - s = (w - n / 100) + (n - p) / 100 + (p - s * 100) / 100 := by ring
  have b1 : |(n - p) / 100| = |n - p| / 100 := by rw [abs_div]; norm_num
  have b2 : |(p - s * 100) / 100| = |p - s * 100| / 100 := by rw [abs_div]; norm_num
  have tri : |w - s| ≤ |w - n / 100| + |n - p| / 100 + |p - s * 100| / 100 := by
    rw [key]
    calc |w - n / 100 + (n - p) / 100 + (p - s * 100) / 100|
        ≤ |w - n / 100 + (n - p) / 100| + |(p - s * 100) / 100| := abs_add _ _
      _ ≤ |w - n / 100| + |(n - p) / 100| + |(p - s * 100) / 100| := by
          have := abs_add (w - n / 100) ((n - p) / 100)
          linarith
      _ = |w - n / 100| + |n - p| / 100 + |p - s * 100| / 100 := by rw [b1, b2]
  have hn := abs_nonneg n
  linarith

theorem mathRound_mono (x y : ℚ) (h : x ≤ y) : mathRound x ≤ mathRound y := by
  unfold mathRound
  by_cases hx : 0 ≤ x
  · have hy : 0 ≤ y := le_trans hx h
    rw [if_pos hx, if_pos hy]
    exact_mod_cast Int.floor_mono (by linarith : x + 1 / 2 ≤ y + 1 / 2)
  · rw [if_neg hx]
    by_cases hy : 0 ≤ y
    · rw [if_pos hy]
      have h1 : (0 : ℚ) ≤ ((⌊-x + 1 / 2⌋ : Int) : ℚ) := by
        exact_mod_cast Int.floor_nonneg.2 (by linarith : (0 : ℚ) ≤ -x + 1 / 2)
      have h2 : (0 : ℚ) ≤ ((⌊y + 1 / 2⌋ : Int) : ℚ) := by
        exact_mod_cast Int.floor_nonneg.2 (by linarith : (0 : ℚ) ≤ y + 1 / 2)
      linarith
    · rw [if_neg hy]
      have : ((⌊-y + 1 / 2⌋ : Int) : ℚ) ≤ ((⌊-x + 1 / 2⌋ : Int) : ℚ) := by
        exact_mod_cast Int.floor_mono (by linarith : -y + 1 / 2 ≤ -x + 1 / 2)
      linarith

theorem fle_round_posInf (q : ℚ) : F64.le (F64.round q) F64.posInf := by
  unfold F64.round
  split_ifs <;> simp [F64.le]

theorem fle_negInf_round (q : ℚ) : F64.le F64.negInf (F64.round q) := by
  unfold F64.round
  split_ifs <;> simp [F64.le]

theorem mul100_mono (x y : F64) (h : F64.le x y) :
    F64.le (F64.mul x (F64.finite 100)) (F64.mul y (F64.finite 100)) := by
  cases x <;> cases y <;> simp [F64.le] at h
  · exact round_mono _ _ (by linarith)
  · simp only [F64.mul]
    norm_num
    exact fle_round_posInf _
  · simp [F64.mul, F64.le]
  · simp only [F64.mul]
    norm_num
    exact fle_negInf_round _
  · simp [F64.mul, F64.le]
  · simp [F64.mul, F64.le]

theorem fmathRound_mono (x y : F64) (h : F64.le x y) :
    F64.le (F64.mathRound x) (F64.mathRound y) := by
  cases x <;> cases y <;> simp [F64.le] at h <;> simp [F64.mathRound, F64.le]
  exact mathRound_mono _ _ h

theorem div100_mono (x y : F64) (h : F64.le x y) :
    F64.le (F64.div x (F64.finite 100)) (F64.div y (F64.finite 100)) := by
  cases x <;> cases y <;> simp [F64.le] at h
  · simp only [F64.div]
    norm_num
    exact round_mono _ _ (by linarith)
  · simp only [F64.div]
    norm_num
    exact fle_round_posInf _
  · simp [F64.div, F64.le]
  · simp only [F64.div]
    norm_num
    exact fle_negInf_round _
  · simp [F64.div, F64.le]
  · simp [F64.div, F64.le]

theorem roundToCents_mono (x y : F64) (h : F64.le x y) :
    F64.le (roundToCents x) (roundToCents y) :=
  div100_mono _ _ (fmathRound_mono _ _ (mul100_mono _ _ h))

/-! ### Weight reconciliation -/


theorem Groups.find_nil (k : ℚ) : Groups.find [] k = none := rfl

theorem Groups.find_cons (a : ℚ) (d : GroupData) (t : Groups) (k : ℚ) :
    Groups.find ((a, d) :: t) k = if k = a then some d else Groups.find t k := by
  unfold Groups.find
  rw [List.lookup_cons]
  by_cases h : k = a
  · subst h; simp
  · have : (k == a) = false := by simpa using h
    simp [this, h]

theorem Groups.modify_cons (a : ℚ) (d : GroupData) (t : Groups) (k : ℚ)
    (f : GroupData → GroupData) :
    Groups.modify ((a, d) :: t) k f =
      (if a = k then (a, f d) else (a, d)) :: Groups.modify t k f := rfl

theorem Groups.find_modify (g : Groups) (k k' : ℚ) (f : GroupData → GroupData) :
    (g.modify k f).find k' = if k' = k then (g.find k).map f else g.find k' := by
  induction g with
  | nil => simp [Groups.modify, Groups.find]
  | cons e t ih =>
    obtain ⟨a, d⟩ := e
    rw [Groups.modify_cons]
    by_cases hak : a = k
    · subst hak
      rw [if_pos rfl, Groups.find_cons, Groups.find_cons, Groups.find_cons, ih]
      by_cases hk : k' = a
      · subst hk; simp
      · simp [hk]
    · rw [if_neg hak, Groups.find_cons, Groups.find_cons, Groups.find_cons, ih]
      by_cases hk : k' = k
      · subst hk
        simp [Ne.symm hak]
      · simp [hk]

theorem Groups.find_append_single (g : Groups) (k k' : ℚ) (d : GroupData) :
    Groups.find (g ++ [(k, d)]) k' =
      match g.find k' with
      | some x => some x
      | none => if k' = k then some d else none := by
  induction g with
  | nil => simp [Groups.find_cons, Groups.find_nil]
  | cons e t ih =>
    obtain ⟨a, x⟩ := e
    rw [List.cons_append, Groups.find_cons, Groups.find_cons, ih]
    by_cases h : k' = a <;> simp [h]

theorem Groups.find_ensure (g : Groups) (k k' : ℚ) :
    (g.ensure k).find k' =
      if k' = k then some ((g.find k).getD newGroup) else g.find k' := by
  unfold Groups.ensure
  cases hk : g.find k with
  | some d =>
    by_cases h : k' = k
    · subst h; simp [hk]
    · simp [h]
  | none =>
    simp only [Option.isSome_none, Bool.false_eq_true, if_false, Groups.find_append_single]
    by_cases h : k' = k
    · subst h; simp [hk]
    · cases g.find k' <;> simp [h]

theorem Groups.find_upsert (g : Groups) (k k' : ℚ) (f : GroupData → GroupData) :
    ((g.ensure k).modify k f).find k' =
      if k' = k then some (f ((g.find k).getD newGroup)) else g.find k' := by
  rw [Groups.find_modify]
  by_cases h : k' = k
  · simp [h, Groups.find_ensure]
  · simp [h, Groups.find_ensure]


theorem proofStepOn_obj (field : String) (g : Groups) (key : String)
    (p : List (String × JVal)) :
    proofStepOn field g (key, JVal.obj p) =
      some (match numericPair field "chained_weight" (JVal.obj p) with
        | some (k, w) => (g.ensure k).modify k (addProof key w)
        | none => g) := by
  simp only [proofStepOn, numericPair]
  cases h1 : getField p field with
  | none => simp
  | some inc =>
    cases h2 : getField p "chained_weight" with
    | none => cases inc <;> simp
    | some cw => cases inc <;> cases cw <;> rfl

theorem ticketStep_obj (g : Groups) (key : String) (p : List (String × JVal)) :
    ticketStep g (key, JVal.obj p) =
      some (match numericPair "incrementId" "receivedWeight" (JVal.obj p) with
        | some (k, w) => (g.ensure k).modify k (addTicket key w)
        | none => g) := by
  simp only [ticketStep, numericPair]
  cases h1 : getField p "incrementId" with
  | none => simp
  | some inc =>
    cases h2 : getField p "receivedWeight" with
    | none => cases inc <;> simp
    | some cw => cases inc <;> cases cw <;> rfl

theorem pressProofStep_eq : pressProofStep = proofStepOn "press_increment" := rfl

theorem storeProofStep_eq : storeProofStep = proofStepOn "store_increment" := rfl

theorem CompareWeightsByPressIncrement_eq :
    CompareWeightsByPressIncrement = Reconcile "press_increment" := rfl

theorem CompareWeightsByStoreIncrement_eq :
    CompareWeightsByStoreIncrement = Reconcile "store_increment" := rfl
theorem Groups.keys_modify (g : Groups) (k : ℚ) (f : GroupData → GroupData) :
    (g.modify k f).map Prod.fst = g.map Prod.fst := by
  induction g with
  | nil => rfl
  | cons e t ih =>
    obtain ⟨a, d⟩ := e
    rw [Groups.modify_cons, List.map_cons, List.map_cons, ih]
    by_cases h : a = k <;> simp [h]

theorem Groups.find_eq_none_iff (g : Groups) (k : ℚ) :
    g.find k = none ↔ k ∉ g.map Prod.fst := by
  induction g with
  | nil => simp [Groups.find_nil]
  | cons e t ih =>
    obtain ⟨a, d⟩ := e
    rw [Groups.find_cons]
    by_cases h : k = a
    · simp [h]
    · simp [h, ih]

theorem Groups.nodup_upsert (g : Groups) (k : ℚ) (f : GroupData → GroupData)
    (h : (g.map Prod.fst).Nodup) :
    (((g.ensure k).modify k f).map Prod.fst).Nodup := by
  rw [Groups.keys_modify]
  unfold Groups.ensure
  cases hk : g.find k with
  | some d => simpa using h
  | none =>
    have hnot := (Groups.find_eq_none_iff g k).1 hk
    simp only [Option.isSome_none, Bool.false_eq_true, if_false, List.map_append,
      List.map_cons, List.map_nil]
    exact List.Nodup.append h (List.nodup_singleton k) (by
      intro x hx hx'
      simp at hx'
      subst hx'
      exact hnot hx)

theorem Groups.mem_iff_find (g : Groups) (h : (g.map Prod.fst).Nodup) (k : ℚ)
    (d : GroupData) : (k, d) ∈ g ↔ g.find k = some d := by
  induction g with
  | nil => simp [Groups.find_nil]
  | cons e t ih =>
    obtain ⟨a, x⟩ := e
    rw [List.map_cons, List.nodup_cons] at h
    rw [Groups.find_cons, List.mem_cons]
    by_cases hk : k = a
    · subst hk
      simp only [if_true, Prod.mk.injEq, true_and, Option.some.injEq]
      constructor
      · rintro (h1 | h1)
        · exact h1.symm
        · exact absurd (List.mem_map_of_mem Prod.fst h1) h.1
      · intro h1; exact Or.inl h1.symm
    · simp only [hk, if_false, Prod.mk.injEq, false_and, false_or]
      exact ih h.2

theorem contributionsTo_nil (kf vf : String) (k : ℚ) : contributionsTo kf vf k [] = [] := rfl

theorem contributionsTo_cons (kf vf : String) (k : ℚ) (it : String × JVal)
    (rest : List (String × JVal)) :
    contributionsTo kf vf k (it :: rest) =
      (match numericPair kf vf it.2 with
        | some (increment, value) => if increment = k then [(it.1, value)] else []
        | none => []) ++ contributionsTo kf vf k rest := by
  unfold contributionsTo
  rw [List.filterMap_cons]
  cases h : numericPair kf vf it.2 with
  | none => simp
  | some pr =>
    obtain ⟨a, b⟩ := pr
    by_cases hk : a = k <;> simp [hk]

theorem pass_find (step : Groups → String × JVal → Option Groups) (kf vf : String)
    (upd : String → ℚ → GroupData → GroupData)
    (hstep : ∀ g key p, step g (key, JVal.obj p) =
      some (match numericPair kf vf (JVal.obj p) with
        | some (k, w) => (g.ensure k).modify k (upd key w)
        | none => g))
    (items : List (String × JVal)) (hobj : ∀ it ∈ items, ∃ p, it.2 = JVal.obj p)
    (g : Groups) :
    ∃ g', items.foldlM step g = some g' ∧
      ((g.map Prod.fst).Nodup → (g'.map Prod.fst).Nodup) ∧
      ∀ k, g'.find k = accumulate upd (g.find k) (contributionsTo kf vf k items) := by
  induction items generalizing g with
  | nil => exact ⟨g, rfl, id, fun k => rfl⟩
  | cons it rest ih =>
    obtain ⟨key, v⟩ := it
    obtain ⟨p, hp⟩ := hobj (key, v) (List.mem_cons_self _ _)
    simp only at hp
    subst hp
    have hrest : ∀ it ∈ rest, ∃ p, it.2 = JVal.obj p :=
      fun it hit => hobj it (List.mem_cons_of_mem _ hit)
    rw [List.foldlM_cons, hstep]
    cases hpair : numericPair kf vf (JVal.obj p) with
    | none =>
      obtain ⟨g', hg', hnd, hfind⟩ := ih hrest g
      refine ⟨g', by simpa using hg', hnd, fun k => ?_⟩
      rw [hfind k, contributionsTo_cons]
      simp [hpair]
    | some pr =>
      obtain ⟨k0, w⟩ := pr
      obtain ⟨g', hg', hnd, hfind⟩ := ih hrest ((g.ensure k0).modify k0 (upd key w))
      refine ⟨g', by simpa using hg', fun h => hnd (Groups.nodup_upsert g k0 _ h), fun k => ?_⟩
      rw [hfind k, contributionsTo_cons, Groups.find_upsert]
      simp only [hpair]
      by_cases hk : k0 = k
      · subst hk
        simp [accumulate]
      · have hk' : ¬ k = k0 := fun h => hk h.symm
        simp [hk, hk']
theorem accumulate_cons (upd : String → ℚ → GroupData → GroupData) (o : Option GroupData)
    (c : String × ℚ) (cs : List (String × ℚ)) :
    accumulate upd o (c :: cs) = accumulate upd (some (upd c.1 c.2 (o.getD newGroup))) cs :=
  rfl

theorem accumulate_addProof_some (d : GroupData) (ps : List (String × ℚ)) :
    accumulate addProof (some d) ps =
      some { ChainedWeightSum := floatSum d.ChainedWeightSum (ps.map Prod.snd)
             ReceivedWeightMax := d.ReceivedWeightMax
             TicketCount := d.TicketCount
             RecordIDs := d.RecordIDs ++ ps.map Prod.fst } := by
  induction ps generalizing d with
  | nil => simp [accumulate, floatSum]
  | cons c cs ih =>
    rw [accumulate_cons, ih]
    simp [addProof, floatSum]

theorem accumulate_addProof_none (ps : List (String × ℚ)) :
    accumulate addProof none ps = bucketOf ps [] := by
  cases ps with
  | nil => simp [accumulate, bucketOf]
  | cons c cs =>
    rw [accumulate_cons, accumulate_addProof_some]
    simp [bucketOf, addProof, newGroup, maximumOf, floatSum]

theorem foldl_max_mem (c : ℚ) (ws : List ℚ) : ws.foldl max c ∈ c :: ws := by
  induction ws generalizing c with
  | nil => simp
  | cons w ws ih =>
    rw [List.foldl_cons]
    have h := ih (max c w)
    rw [List.mem_cons] at h
    rcases h with h | h
    · rw [h]
      rcases max_choice c w with hc | hw
      · rw [hc]; exact List.mem_cons_self _ _
      · rw [hw]; exact List.mem_cons_of_mem _ (List.mem_cons_self _ _)
    · exact List.mem_cons_of_mem _ (List.mem_cons_of_mem _ h)

theorem foldl_max_ge (c : ℚ) (ws : List ℚ) : ∀ x ∈ c :: ws, x ≤ ws.foldl max c := by
  induction ws generalizing c with
  | nil => intro x hx; simp at hx; simp [hx]
  | cons w ws ih =>
    intro x hx
    rw [List.foldl_cons]
    have hbase : max c w ≤ ws.foldl max (max c w) := ih (max c w) _ (List.mem_cons_self _ _)
    rw [List.mem_cons] at hx
    rcases hx with hx | hx
    · rw [hx]; exact le_trans (le_max_left c w) hbase
    · rw [List.mem_cons] at hx
      rcases hx with hx | hx
      · rw [hx]; exact le_trans (le_max_right c w) hbase
      · exact ih (max c w) x (List.mem_cons_of_mem _ hx)

theorem maximumOf_eq_none (ws : List ℚ) : maximumOf ws = none ↔ ws = [] := by
  cases ws <;> simp [maximumOf]

theorem maximumOf_spec (ws : List ℚ) (m : ℚ) (h : maximumOf ws = some m) :
    m ∈ ws ∧ ∀ x ∈ ws, x ≤ m := by
  cases ws with
  | nil => simp [maximumOf] at h
  | cons w ws =>
    simp only [maximumOf, Option.some.injEq] at h
    subst h
    exact ⟨foldl_max_mem w ws, foldl_max_ge w ws⟩

theorem accumulate_addTicket_some (d : GroupData) (cs : List (String × ℚ)) :
    accumulate addTicket (some d) cs =
      some { ChainedWeightSum := d.ChainedWeightSum
             ReceivedWeightMax :=
               match d.ReceivedWeightMax with
               | none => maximumOf (cs.map Prod.snd)
               | some current => some ((cs.map Prod.snd).foldl max current)
             TicketCount := d.TicketCount + cs.length
             RecordIDs := d.RecordIDs } := by
  induction cs generalizing d with
  | nil => cases d with
    | mk s m c r => cases m <;> simp [accumulate, maximumOf]
  | cons c cs ih =>
    rw [accumulate_cons, ih]
    cases d with
    | mk s m n r =>
      cases m <;> simp [addTicket, maximumOf, Nat.add_assoc, Nat.add_comm 1]

theorem accumulate_addTicket_bucketOf (ps cs : List (String × ℚ)) :
    accumulate addTicket (bucketOf ps []) cs = bucketOf ps cs := by
  by_cases hps : ps = []
  · subst hps
    cases cs with
    | nil => simp [bucketOf, accumulate]
    | cons c cs =>
      have : bucketOf [] [] = none := by simp [bucketOf]
      rw [this, accumulate_cons, accumulate_addTicket_some]
      simp [bucketOf, addTicket, newGroup, maximumOf, Nat.add_comm, floatSum]
  · have : bucketOf ps [] = some
        { ChainedWeightSum := floatSum (F64.finite 0) (ps.map Prod.snd),
          ReceivedWeightMax := none,
          TicketCount := 0, RecordIDs := ps.map Prod.fst } := by
      simp [bucketOf, hps, maximumOf]
    rw [this, accumulate_addTicket_some]
    simp [bucketOf, hps]
theorem getAllResults_map_ok (l : List (String × JVal)) :
    getAllResults (l.map Except.ok) = Except.ok l := by
  induction l with
  | nil => rfl
  | cons a t ih => simp [getAllResults, ih]

theorem getAllResults_map_ok_error (l : List (String × JVal)) (err : String) :
    getAllResults (l.map Except.ok ++ [Except.error err]) = Except.error err := by
  induction l with
  | nil => rfl
  | cons a t ih => simp [getAllResults, ih]

theorem GetQueryResult_snd (ctx : Stub) (sel : Selector) :
    (ctx.GetQueryResult sel).2 =
      { ctx with calls := ctx.calls ++ [StubCall.GetQueryResult sel] } := rfl

theorem GetQueryResult_eta (ctx : Stub) (sel : Selector) :
    ctx.GetQueryResult sel =
      ((ctx.GetQueryResult sel).1,
        { ctx with calls := ctx.calls ++ [StubCall.GetQueryResult sel] }) := rfl

theorem bulkRead_ok (ctx : Stub) (sel : Selector) (items : List (String × JVal))
    (h : bulkRead ctx sel = Except.ok items) :
    items = scan ctx.world sel ∧
    ∃ it, (ctx.GetQueryResult sel).1 = Except.ok it ∧ getAllResults it = Except.ok items := by
  unfold bulkRead at h
  unfold Stub.GetQueryResult at h ⊢
  simp only [] at h ⊢
  cases hf : ctx.queryFault sel with
  | none =>
    rw [hf] at h
    simp only [getAllResults_map_ok, Except.ok.injEq] at h
    exact ⟨h.symm, _, rfl, by rw [getAllResults_map_ok, h]⟩
  | onOpen err => rw [hf] at h; simp at h
  | onNext n err =>
    rw [hf] at h
    simp only [] at h ⊢
    by_cases hn : n < (List.filter (fun kv => matchesSelector sel kv.2) ctx.world).length
    · rw [if_pos hn] at h
      simp only [] at h
      rw [getAllResults_map_ok_error] at h
      cases h
    · rw [if_neg hn] at h ⊢
      simp only [getAllResults_map_ok, Except.ok.injEq] at h
      exact ⟨h.symm, _, rfl, by rw [getAllResults_map_ok, h]⟩

theorem bulkRead_calls (ctx : Stub) (calls : List StubCall) (sel : Selector) :
    bulkRead { ctx with calls := calls } sel = bulkRead ctx sel := rfl

theorem scan_obj (world : List (String × JVal)) (sel : Selector) :
    ∀ it ∈ scan world sel, ∃ p, it.2 = JVal.obj p := by
  intro it hit
  unfold scan at hit
  rw [List.mem_filter] at hit
  obtain ⟨_, hm⟩ := hit
  cases hv : it.2 with
  | obj p => exact ⟨p, rfl⟩
  | null => rw [hv] at hm; simp [matchesSelector] at hm
  | bool b => rw [hv] at hm; simp [matchesSelector] at hm
  | num q => rw [hv] at hm; simp [matchesSelector] at hm
  | str s => rw [hv] at hm; simp [matchesSelector] at hm
  | arr a => rw [hv] at hm; simp [matchesSelector] at hm

theorem buckets_closed_form (field : String) (proofs tickets : List (String × JVal))
    (hp : ∀ it ∈ proofs, ∃ p, it.2 = JVal.obj p)
    (ht : ∀ it ∈ tickets, ∃ p, it.2 = JVal.obj p) :
    ∃ g1 g2, proofs.foldlM (proofStepOn field) [] = some g1 ∧
      tickets.foldlM ticketStep g1 = some g2 ∧
      (g1.map Prod.fst).Nodup ∧ (g2.map Prod.fst).Nodup ∧
      ∀ k, g1.find k = bucketOf (contributionsTo field "chained_weight" k proofs) [] ∧
        g2.find k = bucketOf (contributionsTo field "chained_weight" k proofs)
          (contributionsTo "incrementId" "receivedWeight" k tickets) := by
  obtain ⟨g1, h1, hnd1, hf1⟩ :=
    pass_find (proofStepOn field) field "chained_weight" addProof
      (proofStepOn_obj field) proofs hp []
  obtain ⟨g2, h2, hnd2, hf2⟩ :=
    pass_find ticketStep "incrementId" "receivedWeight" addTicket ticketStep_obj tickets ht g1
  have hn1 : (g1.map Prod.fst).Nodup := hnd1 (by simp)
  refine ⟨g1, g2, h1, h2, hn1, hnd2 hn1, fun k => ?_⟩
  have e1 : g1.find k = bucketOf (contributionsTo field "chained_weight" k proofs) [] := by
    rw [hf1 k, Groups.find_nil, accumulate_addProof_none]
  exact ⟨e1, by rw [hf2 k, e1, accumulate_addTicket_bucketOf]⟩

theorem bucketsOf_total (field : String) (world : List (String × JVal)) :
    ∃ g, bucketsOf field world = some g ∧ (g.map Prod.fst).Nodup ∧
      ∀ k, g.find k =
        bucketOf (contributionsTo field "chained_weight" k (scan world proofSelector))
          (contributionsTo "incrementId" "receivedWeight" k (scan world ticketSelector)) := by
  obtain ⟨g1, g2, h1, h2, _, hnd, hf⟩ :=
    buckets_closed_form field (scan world proofSelector) (scan world ticketSelector)
      (scan_obj world proofSelector) (scan_obj world ticketSelector)
  refine ⟨g2, ?_, hnd, fun k => (hf k).2⟩
  unfold bucketsOf
  rw [h1]
  exact h2
theorem isViolation_iff (d : GroupData) : isViolation d = true ↔ Violating d := by
  unfold isViolation Violating
  cases h : d.ReceivedWeightMax with
  | none => simp
  | some m => simp [and_assoc]

theorem violationOf_eq_none_iff (arch : Arch) (e : ℚ × GroupData) :
    violationOf arch e = none ↔ ¬ Violating e.2 := by
  unfold violationOf Violating
  cases h : e.2.ReceivedWeightMax with
  | none => simp
  | some m =>
    by_cases hc : F64.lt (F64.finite 0) e.2.ChainedWeightSum ∧ 0 < e.2.TicketCount ∧ F64.lt (F64.finite m) e.2.ChainedWeightSum
    · simp only [hc, and_self, if_true]
      simp [hc.2.2]
    · simp only [hc, if_false, true_iff]
      rintro ⟨h1, h2, m', hm', h3⟩
      simp only [Option.some.injEq] at hm'
      subst hm'
      exact hc ⟨h1, h2, h3⟩

theorem violationOf_eq_some_iff (arch : Arch) (e : ℚ × GroupData) (r : ComparisonResult) :
    violationOf arch e = some r ↔
      Violating e.2 ∧ ∃ m, e.2.ReceivedWeightMax = some m ∧
        r = resultEntry arch e.1 e.2.ChainedWeightSum m := by
  unfold violationOf Violating
  cases h : e.2.ReceivedWeightMax with
  | none => simp
  | some m =>
    by_cases hc : F64.lt (F64.finite 0) e.2.ChainedWeightSum ∧ 0 < e.2.TicketCount ∧ F64.lt (F64.finite m) e.2.ChainedWeightSum
    · simp only [hc, and_self, if_true, Option.some.injEq, true_and]
      constructor
      · intro h1; exact ⟨⟨m, rfl, hc.2.2⟩, m, rfl, h1.symm⟩
      · rintro ⟨_, m', hm', hr⟩; subst hm'; exact hr.symm
    · simp only [hc, if_false]
      constructor
      · intro h1; cases h1
      · rintro ⟨⟨h1, h2, m', hm', h3⟩, _⟩
        simp only [Option.some.injEq] at hm'
        subst hm'
        exact absurd ⟨h1, h2, h3⟩ hc

theorem isViolation_eq_isSome (arch : Arch) (e : ℚ × GroupData) :
    isViolation e.2 = (violationOf arch e).isSome := by
  cases hv : violationOf arch e with
  | none =>
    have := (violationOf_eq_none_iff arch e).1 hv
    have h2 : ¬ isViolation e.2 = true := fun h => this ((isViolation_iff _).1 h)
    simpa using h2
  | some r =>
    have := ((violationOf_eq_some_iff arch e r).1 hv).1
    simpa using (isViolation_iff _).2 this

theorem applyDeletes_nil (ctx : Stub) : applyDeletes ctx [] = ctx := by
  cases ctx
  simp [applyDeletes]

theorem applyDeletes_append (ctx : Stub) (a b : List String) :
    applyDeletes (applyDeletes ctx a) b = applyDeletes ctx (a ++ b) := by
  cases ctx
  simp only [applyDeletes, List.map_append, List.append_assoc, List.filter_filter,
    Stub.mk.injEq, true_and, and_true]
  apply List.filter_congr
  intro kv _
  by_cases h1 : kv.1 ∈ a <;> by_cases h2 : kv.1 ∈ b <;> simp [h1, h2]

theorem DelState_eq (ctx : Stub) (key : String) :
    ctx.DelState key = (ctx.delFault key, applyDeletes ctx [key]) := by
  cases ctx with
  | mk world calls qf pf df =>
    simp only [Stub.DelState, applyDeletes]
    cases h : df key with
    | none =>
      simp only [Prod.mk.injEq, Stub.mk.injEq, true_and, and_true, List.map_cons, List.map_nil]
      apply List.filter_congr
      intro kv _
      by_cases hk : kv.1 = key
      · simp [hk, h]
      · simp [hk]
    | some err =>
      simp only [Prod.mk.injEq, Stub.mk.injEq, true_and, and_true, List.map_cons, List.map_nil]
      symm
      rw [List.filter_eq_self]
      intro kv _
      by_cases hk : kv.1 = key
      · simp [hk, h]
      · simp [hk]

theorem deleteRecords_cons (ctx : Stub) (deleted : List String) (key : String)
    (ids : List String) :
    deleteRecords ctx deleted (key :: ids) =
      deleteRecords (applyDeletes ctx [key])
        (deleted ++ [key].filter (fun k => (ctx.delFault k).isNone)) ids := by
  unfold deleteRecords
  rw [List.foldl_cons]
  simp only [DelState_eq]
  cases h : ctx.delFault key <;> simp [h]

theorem deleteRecords_eq (ctx : Stub) (deleted ids : List String) :
    deleteRecords ctx deleted ids =
      (deleted ++ ids.filter (fun k => (ctx.delFault k).isNone), applyDeletes ctx ids) := by
  induction ids generalizing ctx deleted with
  | nil => simp [deleteRecords, applyDeletes_nil]
  | cons key ids ih =>
    rw [deleteRecords_cons, ih, applyDeletes_append]
    have : (applyDeletes ctx [key]).delFault = ctx.delFault := rfl
    rw [this]
    simp [List.filter_cons, List.append_assoc]
    cases h : ctx.delFault key <;> simp [h]
theorem classifyStep_eq (arch : Arch) (sd : Bool) (st : LoopState) (e : ℚ × GroupData) :
    classifyStep arch sd st e =
      match violationOf arch e with
      | none => st
      | some r =>
        if sd then
          { results := st.results ++ [r]
            deletedRecords :=
              st.deletedRecords ++ e.2.RecordIDs.filter (fun k => (st.ctx.delFault k).isNone)
            ctx := applyDeletes st.ctx e.2.RecordIDs }
        else { st with results := st.results ++ [r] } := by
  unfold classifyStep
  rw [isViolation_eq_isSome arch]
  cases hv : violationOf arch e with
  | none => simp
  | some r =>
    obtain ⟨_, m, hm, hr⟩ := (violationOf_eq_some_iff arch e r).1 hv
    simp only [Option.isSome_some, if_true, hm, deleteRecords_eq, hr]

theorem keysToDelete_cons (e : ℚ × GroupData) (l : Groups) :
    keysToDelete (e :: l) =
      (if isViolation e.2 then e.2.RecordIDs else []) ++ keysToDelete l := by
  unfold keysToDelete
  by_cases h : isViolation e.2 = true
  · simp [List.filter_cons, h]
  · simp [List.filter_cons, h]

theorem classify_fold (arch : Arch) (sd : Bool) (l : Groups) (st : LoopState) :
    l.foldl (classifyStep arch sd) st =
      { results := st.results ++ l.filterMap (violationOf arch)
        deletedRecords :=
          if sd then
            st.deletedRecords ++ (keysToDelete l).filter (fun k => (st.ctx.delFault k).isNone)
          else st.deletedRecords
        ctx := if sd then applyDeletes st.ctx (keysToDelete l) else st.ctx } := by
  induction l generalizing st with
  | nil =>
    cases sd <;> simp [keysToDelete, applyDeletes_nil]
  | cons e l ih =>
    rw [List.foldl_cons, ih, classifyStep_eq, keysToDelete_cons, isViolation_eq_isSome arch]
    cases hv : violationOf arch e with
    | none =>
      simp [List.filterMap_cons, hv]
    | some r =>
      cases sd
      · simp [List.filterMap_cons, hv]
      · have hf : ∀ ids, (applyDeletes st.ctx ids).delFault = st.ctx.delFault := fun _ => rfl
        simp [List.filterMap_cons, hv, applyDeletes_append, hf, List.filter_append]

theorem finishComparison_eq (arch : Arch) (rt : Runtime) (sd : Bool) (ctx : Stub) (g : Groups) :
    finishComparison arch rt sd ctx g =
      (marshalResponse
        { Success := true
          Results := rt.sortSlice lessByIncrementID ((rt.mapRange g).filterMap (violationOf arch))
          DeletedRecords :=
            if sd then
              (keysToDelete (rt.mapRange g)).filter (fun k => (ctx.delFault k).isNone)
            else []
          Message := "" },
       if sd then applyDeletes ctx (keysToDelete (rt.mapRange g)) else ctx) := by
  unfold finishComparison
  simp only [classify_fold]
  cases sd <;> simp


theorem Reconcile_of_reads (field : String) (arch : Arch) (rt : Runtime) (ctx : Stub) (dv : String)
    (a b : List (String × JVal))
    (ha : bulkRead ctx proofSelector = Except.ok a)
    (hb : bulkRead ctx ticketSelector = Except.ok b) :
    ∃ g, bucketsOf field ctx.world = some g ∧
      Reconcile field arch rt ctx dv =
        some (finishComparison arch rt (decide (dv = "true"))
          { ctx with calls := ctx.calls ++
              [StubCall.GetQueryResult proofSelector, StubCall.GetQueryResult ticketSelector] }
          g) := by
  obtain ⟨g, hg, _, _⟩ := bucketsOf_total field ctx.world
  refine ⟨g, hg, ?_⟩
  obtain ⟨ea, ita, hqa, hra⟩ := bulkRead_ok ctx proofSelector a ha
  have hb' : bulkRead { ctx with calls := ctx.calls ++ [StubCall.GetQueryResult proofSelector] }
      ticketSelector = Except.ok b := hb
  obtain ⟨eb, itb, hqb, hrb⟩ := bulkRead_ok _ ticketSelector b hb'
  unfold bucketsOf at hg
  rw [← ea] at hg
  have ebw : b = scan ctx.world ticketSelector := eb
  rw [← ebw] at hg
  simp only [proofSelector, ticketSelector] at *
  unfold Reconcile
  simp only []
  rw [GetQueryResult_eta ctx, hqa]
  simp only [hra]
  rw [GetQueryResult_eta _, hqb]
  simp only [hrb]
  cases h1 : List.foldlM (proofStepOn field) [] a with
  | none => rw [h1] at hg; cases hg
  | some g1 =>
    rw [h1] at hg
    simp only [] at hg ⊢
    rw [hg]
    simp
theorem Reconcile_results (field : String) (arch : Arch) (rt : Runtime) (ctx : Stub) (dv : String)
    (a b : List (String × JVal))
    (ha : bulkRead ctx proofSelector = Except.ok a)
    (hb : bulkRead ctx ticketSelector = Except.ok b) :
    ∃ g, IsBucketMap field ctx.world g ∧
      Reconcile field arch rt ctx dv =
        some (marshalResponse
                { Success := true
                  Results := rt.sortSlice lessByIncrementID
                    ((rt.mapRange g).filterMap (violationOf arch))
                  DeletedRecords :=
                    if decide (dv = "true") then
                      (keysToDelete (rt.mapRange g)).filter (fun k => (ctx.delFault k).isNone)
                    else []
                  Message := "" },
              if decide (dv = "true") then
                applyDeletes
                  { ctx with calls := ctx.calls ++
                      [StubCall.GetQueryResult proofSelector,
                       StubCall.GetQueryResult ticketSelector] }
                  (keysToDelete (rt.mapRange g))
              else
                { ctx with calls := ctx.calls ++
                    [StubCall.GetQueryResult proofSelector,
                     StubCall.GetQueryResult ticketSelector] }) := by
  obtain ⟨g, hg, hrec⟩ := Reconcile_of_reads field arch rt ctx dv a b ha hb
  obtain ⟨g', hg', hnd, hfind⟩ := bucketsOf_total field ctx.world
  rw [hg] at hg'
  cases hg'
  refine ⟨g, ⟨hnd, hfind⟩, ?_⟩
  rw [hrec, finishComparison_eq]

theorem results_perm (arch : Arch) (rt : Runtime) (g : Groups) :
    (rt.sortSlice lessByIncrementID ((rt.mapRange g).filterMap (violationOf arch))).Perm
      (g.filterMap (violationOf arch)) :=
  (rt.sortSlice_perm _ _).trans ((rt.mapRange_perm g).filterMap (violationOf arch))

theorem all_perm {α : Type} (p : α → Bool) (l1 l2 : List α) (h : l1.Perm l2) :
    l1.all p = l2.all p := by
  have h1 : l1.all p = true ↔ l2.all p = true := by
    simp only [List.all_eq_true]
    exact ⟨fun hx x hm => hx x (h.mem_iff.2 hm), fun hx x hm => hx x (h.mem_iff.1 hm)⟩
  cases a : l1.all p <;> cases b : l2.all p <;> simp_all

theorem marshalResponse_cases (response : ComparisonResponse) :
    ((∀ r ∈ response.Results, entryFinite r = true) →
      marshalResponse response = Reply.document response) ∧
    ((∃ r ∈ response.Results, entryFinite r = false) →
      marshalResponse response = Reply.emptyString) ∧
    (∀ returned, marshalResponse response = Reply.document returned →
      returned = response ∧ ∀ r ∈ response.Results, entryFinite r = true) ∧
    (marshalResponse response = Reply.emptyString →
      ∃ r ∈ response.Results, entryFinite r = false) := by
  unfold marshalResponse
  by_cases h : response.Results.all entryFinite = true
  · rw [if_pos h]
    have hall := List.all_eq_true.1 h
    refine ⟨fun _ => rfl, ?_, ?_, ?_⟩
    · rintro ⟨r, hr, hf⟩
      rw [hall r hr] at hf
      cases hf
    · intro returned heq
      cases heq
      exact ⟨rfl, hall⟩
    · intro heq
      cases heq
  · rw [if_neg h]
    have hex : ∃ r ∈ response.Results, entryFinite r = false := by
      by_contra hcon
      apply h
      rw [List.all_eq_true]
      intro r hr
      cases hf : entryFinite r with
      | true => rfl
      | false => exact absurd ⟨r, hr, hf⟩ hcon
    refine ⟨?_, fun _ => rfl, ?_, fun _ => hex⟩
    · intro hall
      obtain ⟨r, hr, hf⟩ := hex
      rw [hall r hr] at hf
      cases hf
    · intro returned heq
      cases heq

theorem violation_facts (arch : Arch) (field : String) (world : List (String × JVal))
    (g : Groups) (hg : IsBucketMap field world g) :
    (∀ e ∈ g, (∃ r, violationOf arch e = some r) ↔
      (F64.lt (F64.finite 0) e.2.ChainedWeightSum ∧ 0 < e.2.TicketCount ∧
        ∃ m, e.2.ReceivedWeightMax = some m ∧ F64.lt (F64.finite m) e.2.ChainedWeightSum)) ∧
    (∀ e ∈ g, ∀ m, e.2.ReceivedWeightMax = some m →
      F64.le e.2.ChainedWeightSum (F64.finite m) → violationOf arch e = none) ∧
    (∀ e ∈ g,
      contributionsTo "incrementId" "receivedWeight" e.1 (scan world ticketSelector) = [] →
      violationOf arch e = none) ∧
    (∀ e ∈ g,
      contributionsTo field "chained_weight" e.1 (scan world proofSelector) = [] →
      violationOf arch e = none) := by
  obtain ⟨hnd, hfind⟩ := hg
  have hbucket : ∀ e ∈ g, bucketOf
      (contributionsTo field "chained_weight" e.1 (scan world proofSelector))
      (contributionsTo "incrementId" "receivedWeight" e.1 (scan world ticketSelector))
      = some e.2 := by
    intro e he
    rw [← hfind e.1]
    exact (Groups.mem_iff_find g hnd e.1 e.2).1 he
  refine ⟨fun e _ => ?_, fun e _ m hm hle => ?_, fun e he hc => ?_, fun e he hc => ?_⟩
  · constructor
    · rintro ⟨r, hr⟩
      exact ((violationOf_eq_some_iff arch e r).1 hr).1
    · intro hv
      obtain ⟨m, hm, _⟩ := hv.2.2
      exact ⟨_, (violationOf_eq_some_iff arch e _).2 ⟨hv, m, hm, rfl⟩⟩
  · rw [violationOf_eq_none_iff]
    rintro ⟨_, _, m', hm', hlt⟩
    rw [hm] at hm'
    cases hm'
    exact not_flt_of_fle _ _ hle hlt
  · rw [violationOf_eq_none_iff]
    rintro ⟨_, hcount, _⟩
    have hb := hbucket e he
    rw [hc] at hb
    unfold bucketOf at hb
    split at hb
    · cases hb
    · simp only [Option.some.injEq] at hb
      rw [← hb] at hcount
      simp at hcount
  · rw [violationOf_eq_none_iff]
    rintro ⟨hsum, _, _⟩
    have hb := hbucket e he
    rw [hc] at hb
    unfold bucketOf at hb
    split at hb
    · cases hb
    · simp only [Option.some.injEq] at hb
      rw [← hb] at hsum
      simp [floatSum, F64.lt] at hsum

theorem Reconcile_classifies (field : String) (arch : Arch) (rt : Runtime) (ctx : Stub) (dv : String)
    (proofRecords tickets : List (String × JVal))
    (hp : bulkRead ctx proofSelector = Except.ok proofRecords)
    (ht : bulkRead ctx ticketSelector = Except.ok tickets) :
    ∃ (g : Groups) (out : Reply × Stub) (response : ComparisonResponse),
      IsBucketMap field ctx.world g ∧
      Reconcile field arch rt ctx dv = some out ∧
      out.1 = marshalResponse response ∧
      response.Success = true ∧
      response.Results.Perm (g.filterMap (violationOf arch)) ∧
      ((∀ e ∈ g, ∀ r, violationOf arch e = some r → entryFinite r = true) →
        out.1 = Reply.document response) ∧
      ((∃ e ∈ g, ∃ r, violationOf arch e = some r ∧ entryFinite r = false) →
        out.1 = Reply.emptyString) ∧
      (∀ e ∈ g, (∃ r, violationOf arch e = some r) ↔
        (F64.lt (F64.finite 0) e.2.ChainedWeightSum ∧ 0 < e.2.TicketCount ∧
          ∃ m, e.2.ReceivedWeightMax = some m ∧
            F64.lt (F64.finite m) e.2.ChainedWeightSum)) ∧
      (∀ e ∈ g, ∀ m, e.2.ReceivedWeightMax = some m →
        F64.le e.2.ChainedWeightSum (F64.finite m) → violationOf arch e = none) ∧
      (∀ e ∈ g,
        contributionsTo "incrementId" "receivedWeight" e.1
          (scan ctx.world ticketSelector) = [] → violationOf arch e = none) ∧
      (∀ e ∈ g,
        contributionsTo field "chained_weight" e.1
          (scan ctx.world proofSelector) = [] → violationOf arch e = none) := by
  obtain ⟨g, hg, hrec⟩ := Reconcile_results field arch rt ctx dv proofRecords tickets hp ht
  obtain ⟨f1, f2, f3, f4⟩ := violation_facts arch field ctx.world g hg
  have hperm := results_perm arch rt g
  refine ⟨g, _, _, hg, hrec, rfl, rfl, hperm, ?_, ?_, f1, f2, f3, f4⟩
  · intro hall
    apply (marshalResponse_cases _).1
    intro r hr
    obtain ⟨e, he, hv⟩ := List.mem_filterMap.1 (hperm.mem_iff.1 hr)
    exact hall e he r hv
  · rintro ⟨e, he, r, hv, hf⟩
    apply (marshalResponse_cases _).2.1
    exact ⟨r, hperm.mem_iff.2 (List.mem_filterMap.2 ⟨e, he, hv⟩), hf⟩

/-- C1 (counterexample): a world state whose two bulk reads succeed and whose
bucket 5 is a violation (sum 1e307 > 0, one ticket, maximum 1 < sum), on which
`CompareWeightsByPressIncrement` returns the empty string: the bucket
contributes no entry to any returned result.  And a world state whose bucket 5
has the chained weights 2^53 and 1 against the received weight 2^53: the sum of
the weights exceeds the received weight, the `float64` sum of the code is 2^53,
and the bucket contributes no entry. -/
theorem C1_counterexample :
    bulkRead (Stub.healthy overflowWorld) proofSelector =
      Except.ok [("PROOF_A", pressRecord 5 (nearestDouble 1e307))] ∧
    bulkRead (Stub.healthy overflowWorld) ticketSelector =
      Except.ok [("TICKET_T1", ticketRecord "T1" 5 1)] ∧
    bucketsOf "press_increment" overflowWorld =
      some [(5, { ChainedWeightSum := F64.finite (nearestDouble 1e307)
                  ReceivedWeightMax := some 1
                  TicketCount := 1
                  RecordIDs := ["PROOF_A"] })] ∧
    isViolation { ChainedWeightSum := F64.finite (nearestDouble 1e307)
                  ReceivedWeightMax := some 1
                  TicketCount := 1
                  RecordIDs := ["PROOF_A"] } = true ∧
    roundToCents (F64.finite (nearestDouble 1e307)) = F64.posInf ∧
    (CompareWeightsByPressIncrement Arch.amd64 Runtime.inOrder (Stub.healthy overflowWorld)
      "false").map (fun out => out.1) = some Reply.emptyString ∧
    ((contributionsTo "press_increment" "chained_weight" 5
      (scan absorbedWorld proofSelector)).map Prod.snd).sum = 9007199254740993 ∧
    (contributionsTo "incrementId" "receivedWeight" 5
      (scan absorbedWorld ticketSelector)).map Prod.snd = [9007199254740992] ∧
    bucketsOf "press_increment" absorbedWorld =
      some [(5, { ChainedWeightSum := F64.finite 9007199254740992
                  ReceivedWeightMax := some 9007199254740992
                  TicketCount := 1
                  RecordIDs := ["PROOF_A", "PROOF_B"] })] ∧
    (CompareWeightsByPressIncrement Arch.amd64 Runtime.inOrder (Stub.healthy absorbedWorld)
      "false").map (fun out => out.1) =
      some (Reply.document
        { Success := true, Results := [], DeletedRecords := [], Message := "" }) := by
  refine ⟨rfl, rfl, ?_, ?_, ?_, ?_, ?_, ?_, ?_, ?_⟩ <;> decide!

/-- C1 (amended): when the two bulk reads succeed, both reconcile operations
build a success response whose results are, up to order, exactly the entries
of the violating buckets: a bucket contributes an entry if and only if its
chained weight sum (the `float64` sum accumulated in scan order) is positive,
its ticket count is positive, a maximum received weight exists and the sum is
strictly greater than it.  A bucket whose maximum is at least its sum
contributes nothing, nor does a bucket to which no ticket or no proof record
contributes.  The response is returned as a document when the two rounded
weights of every entry are finite; when a rounded weight is not finite the
operation returns the empty string. -/
theorem C1_violation_classification (arch : Arch) (rt : Runtime) (ctx : Stub)
    (deleteViolations : String)
    (proofRecords tickets : List (String × JVal))
    (hp : bulkRead ctx proofSelector = Except.ok proofRecords)
    (ht : bulkRead ctx ticketSelector = Except.ok tickets) :
    (∃ (g : Groups) (out : Reply × Stub) (response : ComparisonResponse),
      IsBucketMap "press_increment" ctx.world g ∧
      CompareWeightsByPressIncrement arch rt ctx deleteViolations = some out ∧
      out.1 = marshalResponse response ∧
      response.Success = true ∧
      response.Results.Perm (g.filterMap (violationOf arch)) ∧
      ((∀ e ∈ g, ∀ r, violationOf arch e = some r → entryFinite r = true) →
        out.1 = Reply.document response) ∧
      ((∃ e ∈ g, ∃ r, violationOf arch e = some r ∧ entryFinite r = false) →
        out.1 = Reply.emptyString) ∧
      (∀ e ∈ g, (∃ r, violationOf arch e = some r) ↔
        (F64.lt (F64.finite 0) e.2.ChainedWeightSum ∧ 0 < e.2.TicketCount ∧
          ∃ m, e.2.ReceivedWeightMax = some m ∧
            F64.lt (F64.finite m) e.2.ChainedWeightSum)) ∧
      (∀ e ∈ g, ∀ m, e.2.ReceivedWeightMax = some m →
        F64.le e.2.ChainedWeightSum (F64.finite m) → violationOf arch e = none) ∧
      (∀ e ∈ g,
        contributionsTo "incrementId" "receivedWeight" e.1
          (scan ctx.world ticketSelector) = [] → violationOf arch e = none) ∧
      (∀ e ∈ g,
        contributionsTo "press_increment" "chained_weight" e.1
          (scan ctx.world proofSelector) = [] → violationOf arch e = none)) ∧
    (∃ (g : Groups) (out : Reply × Stub) (response : ComparisonResponse),
      IsBucketMap "store_increment" ctx.world g ∧
      CompareWeightsByStoreIncrement arch rt ctx deleteViolations = some out ∧
      out.1 = marshalResponse response ∧
      response.Success = true ∧
      response.Results.Perm (g.filterMap (violationOf arch)) ∧
      ((∀ e ∈ g, ∀ r, violationOf arch e = some r → entryFinite r = true) →
        out.1 = Reply.document response) ∧
      ((∃ e ∈ g, ∃ r, violationOf arch e = some r ∧ entryFinite r = false) →
        out.1 = Reply.emptyString) ∧
      (∀ e ∈ g, (∃ r, violationOf arch e = some r) ↔
        (F64.lt (F64.finite 0) e.2.ChainedWeightSum ∧ 0 < e.2.TicketCount ∧
          ∃ m, e.2.ReceivedWeightMax = some m ∧
            F64.lt (F64.finite m) e.2.ChainedWeightSum)) ∧
      (∀ e ∈ g, ∀ m, e.2.ReceivedWeightMax = some m →
        F64.le e.2.ChainedWeightSum (F64.finite m) → violationOf arch e = none) ∧
      (∀ e ∈ g,
        contributionsTo "incrementId" "receivedWeight" e.1
          (scan ctx.world ticketSelector) = [] → violationOf arch e = none) ∧
      (∀ e ∈ g,
        contributionsTo "store_increment" "chained_weight" e.1
          (scan ctx.world proofSelector) = [] → violationOf arch e = none)) := by
  rw [CompareWeightsByPressIncrement_eq, CompareWeightsByStoreIncrement_eq]
  exact ⟨Reconcile_classifies _ arch rt ctx deleteViolations proofRecords tickets hp ht,
    Reconcile_classifies _ arch rt ctx deleteViolations proofRecords tickets hp ht⟩

/-- Witness of C1: the scenario of the specification, where both bulk reads
succeed and the document is returned. -/
theorem C1_violation_classification_witness :
    (∃ (g : Groups) (out : Reply × Stub) (response : ComparisonResponse),
      IsBucketMap "press_increment" sampleWorld g ∧
      CompareWeightsByPressIncrement Arch.amd64 Runtime.inOrder (Stub.healthy sampleWorld) "true"
        = some out ∧
      out.1 = marshalResponse response ∧
      response.Success = true ∧
      response.Results.Perm (g.filterMap (violationOf Arch.amd64))) ∧
    (CompareWeightsByPressIncrement Arch.amd64 Runtime.inOrder (Stub.healthy sampleWorld) "true").map
        (fun out => out.1) =
      some (Reply.document
        { Success := true, Results := [⟨5, F64.finite 18, F64.finite 15⟩],
          DeletedRecords := ["PROOF_A", "PROOF_B"], Message := "" }) := by
  refine ⟨?_, by decide!⟩
  obtain ⟨⟨g, out, response, h1, h2, h3, h4, h5, _⟩, _⟩ :=
    C1_violation_classification Arch.amd64 Runtime.inOrder (Stub.healthy sampleWorld) "true"
      [("PROOF_A", pressRecord 5 10), ("PROOF_B", pressRecord 5 8)]
      [("TICKET_T1", ticketRecord "T1" 5 15)] rfl rfl
  exact ⟨g, out, response, h1, h2, h3, h4, h5⟩

/-- C2 (counterexample): three proof records of increment 5 with the chained
weights 2^53, 1 and 1.  Their sum is 2^53 + 2, but the bucket the press pass
builds holds 2^53 when the large weight is scanned first (each addition of 1 is
rounded away), and 2^53 + 2 when it is scanned last. -/
theorem C2_counterexample :
    (contributionsTo "press_increment" "chained_weight" 5 largeFirstRecords).map Prod.snd =
      [9007199254740992, 1, 1] ∧
    ((contributionsTo "press_increment" "chained_weight" 5 largeFirstRecords).map
      Prod.snd).sum = 9007199254740994 ∧
    (largeFirstRecords.foldlM pressProofStep []).map (fun g => g.find 5) =
      some (some { ChainedWeightSum := F64.finite 9007199254740992
                   ReceivedWeightMax := none
                   TicketCount := 0
                   RecordIDs := ["PROOF_A", "PROOF_B", "PROOF_C"] }) ∧
    (largeLastRecords.foldlM pressProofStep []).map (fun g => g.find 5) =
      some (some { ChainedWeightSum := F64.finite 9007199254740994
                   ReceivedWeightMax := none
                   TicketCount := 0
                   RecordIDs := ["PROOF_B", "PROOF_C", "PROOF_A"] }) ∧
    largeLastRecords.Perm largeFirstRecords := by
  refine ⟨by decide!, by decide!, by decide!, by decide!, ?_⟩
  unfold largeLastRecords largeFirstRecords
  exact List.Perm.trans (List.Perm.cons _ (List.Perm.swap _ _ _)) (List.Perm.swap _ _ _)

/-- C2 (amended): after the proof-record pass, for every increment value `k`
the bucket of `k` exists exactly when some scanned proof record carries a
numeric increment field equal to `k` together with a numeric chained weight;
its `ChainedWeightSum` is the `float64` sum of the chained weights of exactly
those records, accumulated from 0 in scan order with every addition rounded,
and its `RecordIDs` are their storage keys in scan order.  This holds for the
press pass and for the store pass. -/
theorem C2_proof_pass (proofRecords : List (String × JVal))
    (hobj : ∀ item ∈ proofRecords, ∃ fields, item.2 = JVal.obj fields) (k : ℚ) :
    (∃ g, proofRecords.foldlM pressProofStep [] = some g ∧
      (contributionsTo "press_increment" "chained_weight" k proofRecords = [] →
        g.find k = none) ∧
      (contributionsTo "press_increment" "chained_weight" k proofRecords ≠ [] →
        ∃ d, g.find k = some d ∧
          d.ChainedWeightSum =
            floatSum (F64.finite 0)
              ((contributionsTo "press_increment" "chained_weight" k proofRecords).map
                Prod.snd) ∧
          d.RecordIDs =
            (contributionsTo "press_increment" "chained_weight" k proofRecords).map
              Prod.fst ∧
          d.TicketCount = 0 ∧ d.ReceivedWeightMax = none)) ∧
    (∃ g, proofRecords.foldlM storeProofStep [] = some g ∧
      (contributionsTo "store_increment" "chained_weight" k proofRecords = [] →
        g.find k = none) ∧
      (contributionsTo "store_increment" "chained_weight" k proofRecords ≠ [] →
        ∃ d, g.find k = some d ∧
          d.ChainedWeightSum =
            floatSum (F64.finite 0)
              ((contributionsTo "store_increment" "chained_weight" k proofRecords).map
                Prod.snd) ∧
          d.RecordIDs =
            (contributionsTo "store_increment" "chained_weight" k proofRecords).map
              Prod.fst ∧
          d.TicketCount = 0 ∧ d.ReceivedWeightMax = none)) := by
  have key : ∀ field, ∃ g, proofRecords.foldlM (proofStepOn field) [] = some g ∧
      (contributionsTo field "chained_weight" k proofRecords = [] → g.find k = none) ∧
      (contributionsTo field "chained_weight" k proofRecords ≠ [] →
        ∃ d, g.find k = some d ∧
          d.ChainedWeightSum =
            floatSum (F64.finite 0)
              ((contributionsTo field "chained_weight" k proofRecords).map Prod.snd) ∧
          d.RecordIDs = (contributionsTo field "chained_weight" k proofRecords).map Prod.fst ∧
          d.TicketCount = 0 ∧ d.ReceivedWeightMax = none) := by
    intro field
    obtain ⟨g1, _, h1, _, _, _, hf⟩ :=
      buckets_closed_form field proofRecords [] hobj (by simp)
    refine ⟨g1, h1, fun hnil => ?_, fun hne => ?_⟩
    · rw [(hf k).1, hnil]; simp [bucketOf]
    · refine ⟨{ ChainedWeightSum :=
                  floatSum (F64.finite 0)
                    ((contributionsTo field "chained_weight" k proofRecords).map Prod.snd)
                ReceivedWeightMax := none
                TicketCount := 0
                RecordIDs :=
                  (contributionsTo field "chained_weight" k proofRecords).map Prod.fst },
        ?_, rfl, rfl, rfl, rfl⟩
      rw [(hf k).1]
      simp [bucketOf, hne, maximumOf]
  exact ⟨key "press_increment", key "store_increment"⟩

/-- Witness of C2: records A (increment 5, chained weight 10) and B (increment
5, chained weight 8) give the bucket of 5 the sum 18 and the keys of A and B. -/
theorem C2_proof_pass_witness :
    (∃ g, [("PROOF_A", pressRecord 5 10), ("PROOF_B", pressRecord 5 8)].foldlM
        pressProofStep [] = some g ∧
      g.find 5 = some { ChainedWeightSum := F64.finite 18, ReceivedWeightMax := none,
                        TicketCount := 0, RecordIDs := ["PROOF_A", "PROOF_B"] }) ∧
    contributionsTo "press_increment" "chained_weight" 5
      [("PROOF_A", pressRecord 5 10), ("PROOF_B", pressRecord 5 8)] =
        [("PROOF_A", 10), ("PROOF_B", 8)] := by
  have hc : contributionsTo "press_increment" "chained_weight" 5
      [("PROOF_A", pressRecord 5 10), ("PROOF_B", pressRecord 5 8)] =
        [("PROOF_A", 10), ("PROOF_B", 8)] := by decide!
  refine ⟨?_, hc⟩
  obtain ⟨⟨g, hg, _, hsome⟩, _⟩ :=
    C2_proof_pass [("PROOF_A", pressRecord 5 10), ("PROOF_B", pressRecord 5 8)]
      (by intro item hitem; simp [pressRecord] at hitem; rcases hitem with h | h <;>
            exact ⟨_, by rw [h]⟩) 5
  obtain ⟨d, hd, hsum, hids, hcount, hmax⟩ := hsome (by rw [hc]; simp)
  refine ⟨g, hg, ?_⟩
  rw [hd]
  rw [hc] at hsum hids
  have hfs : floatSum (F64.finite 0) (List.map Prod.snd [("PROOF_A", (10 : ℚ)), ("PROOF_B", 8)]) =
      F64.finite 18 := by decide!
  rw [hfs] at hsum
  cases d with
  | mk s m c r =>
    simp only at hsum hids hcount hmax
    subst hsum hids hcount hmax
    rfl
theorem bucketOf_getD_sum (ps : List (String × ℚ)) :
    ((bucketOf ps []).getD newGroup).ChainedWeightSum =
      floatSum (F64.finite 0) (ps.map Prod.snd) ∧
    ((bucketOf ps []).getD newGroup).RecordIDs = ps.map Prod.fst := by
  by_cases h : ps = []
  · subst h; simp [bucketOf, newGroup, floatSum]
  · simp [bucketOf, h]

theorem ticket_pass_facts (field : String) (proofRecords tickets : List (String × JVal))
    (hp : ∀ item ∈ proofRecords, ∃ fields, item.2 = JVal.obj fields)
    (ht : ∀ item ∈ tickets, ∃ fields, item.2 = JVal.obj fields) (k : ℚ) :
    ∃ g1 g2, proofRecords.foldlM (proofStepOn field) [] = some g1 ∧
      tickets.foldlM ticketStep g1 = some g2 ∧
      (contributionsTo "incrementId" "receivedWeight" k tickets = [] →
        g2.find k = g1.find k) ∧
      (contributionsTo "incrementId" "receivedWeight" k tickets ≠ [] →
        ∃ d, g2.find k = some d) ∧
      (∀ d, g2.find k = some d →
        d.TicketCount = (contributionsTo "incrementId" "receivedWeight" k tickets).length ∧
        d.ReceivedWeightMax =
          maximumOf ((contributionsTo "incrementId" "receivedWeight" k tickets).map Prod.snd) ∧
        (d.ReceivedWeightMax = none ↔ d.TicketCount = 0) ∧
        (∀ m, d.ReceivedWeightMax = some m →
          m ∈ (contributionsTo "incrementId" "receivedWeight" k tickets).map Prod.snd ∧
          ∀ w ∈ (contributionsTo "incrementId" "receivedWeight" k tickets).map Prod.snd,
            w ≤ m) ∧
        d.ChainedWeightSum = ((g1.find k).getD newGroup).ChainedWeightSum ∧
        d.RecordIDs = ((g1.find k).getD newGroup).RecordIDs) := by
  obtain ⟨g1, g2, h1, h2, _, _, hf⟩ := buckets_closed_form field proofRecords tickets hp ht
  refine ⟨g1, g2, h1, h2, fun hnil => ?_, fun hne => ?_, fun d hd => ?_⟩
  · rw [(hf k).1, (hf k).2, hnil]
  · rw [(hf k).2]
    simp [bucketOf, hne]
  · rw [(hf k).2] at hd
    rw [(hf k).1]
    obtain ⟨hs, hr⟩ := bucketOf_getD_sum (contributionsTo field "chained_weight" k proofRecords)
    rw [hs, hr]
    unfold bucketOf at hd
    split at hd
    · cases hd
    · simp only [Option.some.injEq] at hd
      subst hd
      refine ⟨rfl, rfl, ?_, fun m hm => maximumOf_spec _ m hm, rfl, rfl⟩
      simp [maximumOf_eq_none]

/-- C3: after the ticket pass, for every increment value `k` the bucket of `k`
has `TicketCount` equal to the number of scanned tickets whose `incrementId`
and `receivedWeight` are both numeric with `incrementId = k`, and
`ReceivedWeightMax` equal to the largest `receivedWeight` among them (a member
of the list that bounds all others, not their sum); the maximum is absent
exactly when the count is 0; `ChainedWeightSum` and `RecordIDs` are what the
proof-record pass left (zero and empty for a bucket the tickets create), and a
bucket no ticket contributes to is untouched.  This holds after the press pass
and after the store pass. -/
theorem C3_ticket_pass (proofRecords tickets : List (String × JVal))
    (hp : ∀ item ∈ proofRecords, ∃ fields, item.2 = JVal.obj fields)
    (ht : ∀ item ∈ tickets, ∃ fields, item.2 = JVal.obj fields) (k : ℚ) :
    (∃ g1 g2, proofRecords.foldlM pressProofStep [] = some g1 ∧
      tickets.foldlM ticketStep g1 = some g2 ∧
      (contributionsTo "incrementId" "receivedWeight" k tickets = [] →
        g2.find k = g1.find k) ∧
      (contributionsTo "incrementId" "receivedWeight" k tickets ≠ [] →
        ∃ d, g2.find k = some d) ∧
      (∀ d, g2.find k = some d →
        d.TicketCount = (contributionsTo "incrementId" "receivedWeight" k tickets).length ∧
        d.ReceivedWeightMax =
          maximumOf ((contributionsTo "incrementId" "receivedWeight" k tickets).map Prod.snd) ∧
        (d.ReceivedWeightMax = none ↔ d.TicketCount = 0) ∧
        (∀ m, d.ReceivedWeightMax = some m →
          m ∈ (contributionsTo "incrementId" "receivedWeight" k tickets).map Prod.snd ∧
          ∀ w ∈ (contributionsTo "incrementId" "receivedWeight" k tickets).map Prod.snd,
            w ≤ m) ∧
        d.ChainedWeightSum = ((g1.find k).getD newGroup).ChainedWeightSum ∧
        d.RecordIDs = ((g1.find k).getD newGroup).RecordIDs)) ∧
    (∃ g1 g2, proofRecords.foldlM storeProofStep [] = some g1 ∧
      tickets.foldlM ticketStep g1 = some g2 ∧
      (contributionsTo "incrementId" "receivedWeight" k tickets = [] →
        g2.find k = g1.find k) ∧
      (contributionsTo "incrementId" "receivedWeight" k tickets ≠ [] →
        ∃ d, g2.find k = some d) ∧
      (∀ d, g2.find k = some d →
        d.TicketCount = (contributionsTo "incrementId" "receivedWeight" k tickets).length ∧
        d.ReceivedWeightMax =
          maximumOf ((contributionsTo "incrementId" "receivedWeight" k tickets).map Prod.snd) ∧
        (d.ReceivedWeightMax = none ↔ d.TicketCount = 0) ∧
        (∀ m, d.ReceivedWeightMax = some m →
          m ∈ (contributionsTo "incrementId" "receivedWeight" k tickets).map Prod.snd ∧
          ∀ w ∈ (contributionsTo "incrementId" "receivedWeight" k tickets).map Prod.snd,
            w ≤ m) ∧
        d.ChainedWeightSum = ((g1.find k).getD newGroup).ChainedWeightSum ∧
        d.RecordIDs = ((g1.find k).getD newGroup).RecordIDs)) :=
  ⟨ticket_pass_facts "press_increment" proofRecords tickets hp ht k,
   ticket_pass_facts "store_increment" proofRecords tickets hp ht k⟩

/-- Witness of C3: two tickets for increment 5, with received weights 15 and
12, after the proof records A and B: the bucket of 5 counts 2 tickets and keeps
the maximum 15 (not the sum 27), with the sum 18 of the proof pass untouched. -/
theorem C3_ticket_pass_witness :
    (∃ g1 g2,
      [("PROOF_A", pressRecord 5 10), ("PROOF_B", pressRecord 5 8)].foldlM
        pressProofStep [] = some g1 ∧
      [("TICKET_T1", ticketRecord "T1" 5 15), ("TICKET_T2", ticketRecord "T2" 5 12)].foldlM
        ticketStep g1 = some g2 ∧
      ∃ d, g2.find 5 = some d ∧ d.TicketCount = 2 ∧ d.ReceivedWeightMax = some 15) ∧
    ([("PROOF_A", pressRecord 5 10), ("PROOF_B", pressRecord 5 8)].foldlM
        pressProofStep [] >>= fun g1 =>
      [("TICKET_T1", ticketRecord "T1" 5 15), ("TICKET_T2", ticketRecord "T2" 5 12)].foldlM
        ticketStep g1) =
      some [(5, { ChainedWeightSum := F64.finite 18, ReceivedWeightMax := some 15,
                  TicketCount := 2, RecordIDs := ["PROOF_A", "PROOF_B"] })] := by
  have hc : contributionsTo "incrementId" "receivedWeight" 5
      [("TICKET_T1", ticketRecord "T1" 5 15), ("TICKET_T2", ticketRecord "T2" 5 12)] =
        [("TICKET_T1", 15), ("TICKET_T2", 12)] := by decide!
  refine ⟨?_, by decide!⟩
  obtain ⟨⟨g1, g2, h1, h2, _, hsome, hall⟩, _⟩ :=
    C3_ticket_pass [("PROOF_A", pressRecord 5 10), ("PROOF_B", pressRecord 5 8)]
      [("TICKET_T1", ticketRecord "T1" 5 15), ("TICKET_T2", ticketRecord "T2" 5 12)]
      (by intro item hitem; simp [pressRecord] at hitem; rcases hitem with h | h <;>
            exact ⟨_, by rw [h]⟩)
      (by intro item hitem; simp [ticketRecord] at hitem; rcases hitem with h | h <;>
            exact ⟨_, by rw [h]⟩) 5
  obtain ⟨d, hd⟩ := hsome (by rw [hc]; simp)
  obtain ⟨hcount, hmax, _⟩ := hall d hd
  rw [hc] at hcount hmax
  refine ⟨g1, g2, h1, h2, d, hd, hcount, ?_⟩
  rw [hmax]
  decide!
theorem marshalResponse_failure (err : String) :
    marshalResponse (comparisonFailure err) = Reply.document (comparisonFailure err) := rfl

theorem Reconcile_cases (field : String) (arch : Arch) (rt : Runtime) (ctx : Stub) (dv : String) :
    Reconcile field arch rt ctx dv =
      match bulkRead ctx proofSelector with
      | Except.error err =>
        some (Reply.document (comparisonFailure err),
          { ctx with calls := ctx.calls ++ [StubCall.GetQueryResult proofSelector] })
      | Except.ok _ =>
        match bulkRead ctx ticketSelector with
        | Except.error err =>
          some (Reply.document (comparisonFailure err),
            { ctx with calls := ctx.calls ++
                [StubCall.GetQueryResult proofSelector,
                 StubCall.GetQueryResult ticketSelector] })
        | Except.ok _ =>
          match bucketsOf field ctx.world with
          | none => none
          | some g =>
            some (finishComparison arch rt (decide (dv = "true"))
              { ctx with calls := ctx.calls ++
                  [StubCall.GetQueryResult proofSelector,
                   StubCall.GetQueryResult ticketSelector] } g) := by
  cases hA : bulkRead ctx proofSelector with
  | error e =>
    simp only []
    unfold bulkRead at hA
    unfold Reconcile
    simp only [proofSelector] at *
    rw [GetQueryResult_eta ctx]
    cases h1 : (ctx.GetQueryResult [("docType", JVal.str "proofRecord")]).1 with
    | error e1 =>
      rw [h1] at hA
      simp only [Except.error.injEq] at hA
      subst hA
      rfl
    | ok it =>
      rw [h1] at hA
      simp only [] at hA ⊢
      rw [hA]
      rfl
  | ok a =>
    cases hB : bulkRead ctx ticketSelector with
    | ok b =>
      obtain ⟨g, hg, hrec⟩ := Reconcile_of_reads field arch rt ctx dv a b hA hB
      simp only [hg, hrec]
    | error e =>
      simp only []
      obtain ⟨_, ita, hqa, hra⟩ := bulkRead_ok ctx proofSelector a hA
      have hB' : bulkRead
          { ctx with calls := ctx.calls ++ [StubCall.GetQueryResult proofSelector] }
          ticketSelector = Except.error e := hB
      unfold bulkRead at hB'
      unfold Reconcile
      simp only [proofSelector, ticketSelector] at *
      rw [GetQueryResult_eta ctx, hqa]
      simp only [hra]
      rw [GetQueryResult_eta _]
      cases h1 : (Stub.GetQueryResult
          { ctx with calls := ctx.calls ++
              [StubCall.GetQueryResult [("docType", JVal.str "proofRecord")]] }
          [("docType", JVal.str "ticket")]).1 with
      | error e1 =>
        rw [h1] at hB'
        simp only [Except.error.injEq] at hB'
        subst hB'
        simp [marshalResponse_failure]
      | ok it =>
        rw [h1] at hB'
        simp only [] at hB' ⊢
        rw [hB']
        simp [marshalResponse_failure]

theorem Reconcile_total (field : String) (arch : Arch) (rt : Runtime) (ctx : Stub) (dv : String) :
    ∃ out, Reconcile field arch rt ctx dv = some out := by
  rw [Reconcile_cases]
  cases bulkRead ctx proofSelector with
  | error e => exact ⟨_, rfl⟩
  | ok a =>
    cases bulkRead ctx ticketSelector with
    | error e => exact ⟨_, rfl⟩
    | ok b =>
      obtain ⟨g, hg, _⟩ := bucketsOf_total field ctx.world
      simp only [hg]
      exact ⟨_, rfl⟩

theorem Reconcile_marshals (field : String) (arch : Arch) (rt : Runtime) (ctx : Stub)
    (dv : String) :
    ∃ out response, Reconcile field arch rt ctx dv = some out ∧
      out.1 = marshalResponse response := by
  rw [Reconcile_cases]
  cases bulkRead ctx proofSelector with
  | error e => exact ⟨_, comparisonFailure e, rfl, rfl⟩
  | ok a =>
    cases bulkRead ctx ticketSelector with
    | error e => exact ⟨_, comparisonFailure e, rfl, rfl⟩
    | ok b =>
      obtain ⟨g, hg, _⟩ := bucketsOf_total field ctx.world
      simp only [hg, finishComparison_eq]
      exact ⟨_, _, rfl, rfl⟩

theorem Reconcile_read_only (field : String) (arch : Arch) (rt : Runtime) (ctx : Stub) (dv : String)
    (hdv : dv ≠ "true") :
    ∃ out, Reconcile field arch rt ctx dv = some out ∧
      out.2.world = ctx.world ∧
      (∃ response, out.1 = marshalResponse response ∧ response.DeletedRecords = []) ∧
      (∀ returned, out.1 = Reply.document returned → returned.DeletedRecords = []) ∧
      (∃ queries : List Selector,
        out.2.calls = ctx.calls ++ queries.map StubCall.GetQueryResult) := by
  have hd : decide (dv = "true") = false := by simpa using hdv
  have key : ∃ out, Reconcile field arch rt ctx dv = some out ∧
      out.2.world = ctx.world ∧
      (∃ response, out.1 = marshalResponse response ∧ response.DeletedRecords = []) ∧
      (∃ queries : List Selector,
        out.2.calls = ctx.calls ++ queries.map StubCall.GetQueryResult) := by
    rw [Reconcile_cases]
    cases bulkRead ctx proofSelector with
    | error e => exact ⟨_, rfl, rfl, ⟨comparisonFailure e, rfl, rfl⟩, [proofSelector], rfl⟩
    | ok a =>
      cases bulkRead ctx ticketSelector with
      | error e =>
        exact ⟨_, rfl, rfl, ⟨comparisonFailure e, rfl, rfl⟩, [proofSelector, ticketSelector], rfl⟩
      | ok b =>
        obtain ⟨g, hg, _⟩ := bucketsOf_total field ctx.world
        simp only [hg, finishComparison_eq, hd]
        exact ⟨_, rfl, rfl, ⟨_, rfl, rfl⟩, [proofSelector, ticketSelector], rfl⟩
  obtain ⟨out, h1, h2, ⟨response, h3, h4⟩, h5⟩ := key
  refine ⟨out, h1, h2, ⟨response, h3, h4⟩, ?_, h5⟩
  intro returned hret
  rw [h3] at hret
  obtain ⟨heq, _⟩ := (marshalResponse_cases response).2.2.1 returned hret
  rw [heq]
  exact h4

/-- C5: when `deleteViolations` is any string other than "true", both reconcile
operations return (they do not panic), the world state after the call is the
world state before it, the `deletedRecords` of the response they build, and of
the document they return, is empty, and the only calls issued on the stub are
rich queries: no `DelState` and no `PutState`. -/
theorem C5_no_deletion_frame (arch : Arch) (rt : Runtime) (ctx : Stub) (deleteViolations : String)
    (hdv : deleteViolations ≠ "true") :
    (∃ out, CompareWeightsByPressIncrement arch rt ctx deleteViolations = some out ∧
      out.2.world = ctx.world ∧
      (∃ response, out.1 = marshalResponse response ∧ response.DeletedRecords = []) ∧
      (∀ returned, out.1 = Reply.document returned → returned.DeletedRecords = []) ∧
      (∃ queries : List Selector,
        out.2.calls = ctx.calls ++ queries.map StubCall.GetQueryResult)) ∧
    (∃ out, CompareWeightsByStoreIncrement arch rt ctx deleteViolations = some out ∧
      out.2.world = ctx.world ∧
      (∃ response, out.1 = marshalResponse response ∧ response.DeletedRecords = []) ∧
      (∀ returned, out.1 = Reply.document returned → returned.DeletedRecords = []) ∧
      (∃ queries : List Selector,
        out.2.calls = ctx.calls ++ queries.map StubCall.GetQueryResult)) := by
  rw [CompareWeightsByPressIncrement_eq, CompareWeightsByStoreIncrement_eq]
  exact ⟨Reconcile_read_only _ arch rt ctx deleteViolations hdv,
    Reconcile_read_only _ arch rt ctx deleteViolations hdv⟩

/-- Witness of C5: the scenario of the specification holds a violation, and a
call with `deleteViolations = "false"` reports it and leaves the three stored
entities in place. -/
theorem C5_no_deletion_frame_witness :
    (∃ out, CompareWeightsByPressIncrement Arch.amd64 Runtime.inOrder (Stub.healthy sampleWorld) "false"
        = some out ∧
      out.2.world = sampleWorld ∧
      (∀ returned, out.1 = Reply.document returned → returned.DeletedRecords = []) ∧
      (∃ queries : List Selector, out.2.calls = queries.map StubCall.GetQueryResult)) ∧
    (CompareWeightsByPressIncrement Arch.amd64 Runtime.inOrder (Stub.healthy sampleWorld) "false").map
        (fun out => (out.1, out.2.world, out.2.calls)) =
      some (Reply.document
          { Success := true, Results := [⟨5, F64.finite 18, F64.finite 15⟩],
            DeletedRecords := [], Message := "" },
        sampleWorld,
        [StubCall.GetQueryResult proofSelector, StubCall.GetQueryResult ticketSelector]) := by
  refine ⟨?_, by decide!⟩
  obtain ⟨⟨out, h1, h2, _, h3, qs, h4⟩, _⟩ :=
    C5_no_deletion_frame Arch.amd64 Runtime.inOrder (Stub.healthy sampleWorld) "false" (by decide)
  exact ⟨out, h1, h2, h3, qs, by simpa [Stub.healthy] using h4⟩

theorem sortSlice_by_id (rt : Runtime) (l : List ComparisonResult) :
    (rt.sortSlice lessByIncrementID l).Sorted (fun a b => a.IncrementID ≤ b.IncrementID) := by
  have h := rt.sortSlice_sorted lessByIncrementID l
    (by
      intro a b
      unfold lessByIncrementID
      by_cases hab : a.IncrementID < b.IncrementID
      · right
        simp only [decide_eq_false_iff_not, not_lt]
        exact le_of_lt hab
      · left
        simpa using hab)
    (by
      intro a b c h1 h2
      unfold lessByIncrementID at h1 h2 ⊢
      simp only [decide_eq_false_iff_not, not_lt] at h1 h2 ⊢
      exact le_trans h1 h2)
  refine List.Pairwise.imp ?_ h
  intro a b hab
  unfold lessByIncrementID at hab
  simpa using hab

theorem Reconcile_sorted (field : String) (arch : Arch) (rt : Runtime) (ctx : Stub) (dv : String) :
    ∃ out, Reconcile field arch rt ctx dv = some out ∧
      ((∃ err, out.1 = Reply.document (comparisonFailure err) ∧
          (bulkRead ctx proofSelector = Except.error err ∨
            ((∃ a, bulkRead ctx proofSelector = Except.ok a) ∧
              bulkRead ctx ticketSelector = Except.error err))) ∨
        (∃ a b g response, bulkRead ctx proofSelector = Except.ok a ∧
          bulkRead ctx ticketSelector = Except.ok b ∧
          IsBucketMap field ctx.world g ∧
          out.1 = marshalResponse response ∧
          response.Success = true ∧
          response.Results.Perm (g.filterMap (violationOf arch)) ∧
          response.Results.Sorted (fun a b => a.IncrementID ≤ b.IncrementID) ∧
          response.Results.Chain' (fun a b => a.IncrementID ≤ b.IncrementID))) ∧
      (∀ returned, out.1 = Reply.document returned →
        returned.Results.Sorted (fun a b => a.IncrementID ≤ b.IncrementID) ∧
        returned.Results.Chain' (fun a b => a.IncrementID ≤ b.IncrementID)) := by
  rw [Reconcile_cases]
  cases hp : bulkRead ctx proofSelector with
  | error e =>
    refine ⟨_, rfl, Or.inl ⟨e, rfl, Or.inl rfl⟩, ?_⟩
    intro returned hret
    cases hret
    exact ⟨List.sorted_nil, List.chain'_nil⟩
  | ok a =>
    cases ht : bulkRead ctx ticketSelector with
    | error e =>
      refine ⟨_, rfl, Or.inl ⟨e, rfl, Or.inr ⟨⟨a, rfl⟩, rfl⟩⟩, ?_⟩
      intro returned hret
      cases hret
      exact ⟨List.sorted_nil, List.chain'_nil⟩
    | ok b =>
      obtain ⟨g, hg, hnd, hfind⟩ := bucketsOf_total field ctx.world
      simp only [hg, finishComparison_eq]
      refine ⟨_, rfl, Or.inr ⟨a, b, g, _, rfl, rfl, ⟨hnd, hfind⟩, rfl, rfl, results_perm arch rt g,
        sortSlice_by_id rt _, (sortSlice_by_id rt _).chain'⟩, ?_⟩
      intro returned hret
      obtain ⟨heq, _⟩ := (marshalResponse_cases _).2.2.1 returned hret
      rw [heq]
      exact ⟨sortSlice_by_id rt _, (sortSlice_by_id rt _).chain'⟩

/-- C6: both reconcile operations return, and the results of a returned
document are sorted in ascending order of `incrementId`: every earlier entry
has an `incrementId` no greater than every later one, in particular every pair
of adjacent entries is in order.  The order is the one `sort.Slice` gives for
the comparison of the `incrementId`s.  When a bulk read fails the document is
the failure response, with an empty list; when both succeed the response the
operation marshals has success, and its results are sorted and a permutation of
the entries of the violating buckets. -/
theorem C6_results_sorted (arch : Arch) (rt : Runtime) (ctx : Stub) (deleteViolations : String) :
    (∃ out, CompareWeightsByPressIncrement arch rt ctx deleteViolations = some out ∧
      ((∃ err, out.1 = Reply.document (comparisonFailure err) ∧
          (bulkRead ctx proofSelector = Except.error err ∨
            ((∃ a, bulkRead ctx proofSelector = Except.ok a) ∧
              bulkRead ctx ticketSelector = Except.error err))) ∨
        (∃ a b g response, bulkRead ctx proofSelector = Except.ok a ∧
          bulkRead ctx ticketSelector = Except.ok b ∧
          IsBucketMap "press_increment" ctx.world g ∧
          out.1 = marshalResponse response ∧
          response.Success = true ∧
          response.Results.Perm (g.filterMap (violationOf arch)) ∧
          response.Results.Sorted (fun a b => a.IncrementID ≤ b.IncrementID) ∧
          response.Results.Chain' (fun a b => a.IncrementID ≤ b.IncrementID))) ∧
      (∀ returned, out.1 = Reply.document returned →
        returned.Results.Sorted (fun a b => a.IncrementID ≤ b.IncrementID) ∧
        returned.Results.Chain' (fun a b => a.IncrementID ≤ b.IncrementID))) ∧
    (∃ out, CompareWeightsByStoreIncrement arch rt ctx deleteViolations = some out ∧
      ((∃ err, out.1 = Reply.document (comparisonFailure err) ∧
          (bulkRead ctx proofSelector = Except.error err ∨
            ((∃ a, bulkRead ctx proofSelector = Except.ok a) ∧
              bulkRead ctx ticketSelector = Except.error err))) ∨
        (∃ a b g response, bulkRead ctx proofSelector = Except.ok a ∧
          bulkRead ctx ticketSelector = Except.ok b ∧
          IsBucketMap "store_increment" ctx.world g ∧
          out.1 = marshalResponse response ∧
          response.Success = true ∧
          response.Results.Perm (g.filterMap (violationOf arch)) ∧
          response.Results.Sorted (fun a b => a.IncrementID ≤ b.IncrementID) ∧
          response.Results.Chain' (fun a b => a.IncrementID ≤ b.IncrementID))) ∧
      (∀ returned, out.1 = Reply.document returned →
        returned.Results.Sorted (fun a b => a.IncrementID ≤ b.IncrementID) ∧
        returned.Results.Chain' (fun a b => a.IncrementID ≤ b.IncrementID))) := by
  rw [CompareWeightsByPressIncrement_eq, CompareWeightsByStoreIncrement_eq]
  exact ⟨Reconcile_sorted _ arch rt ctx deleteViolations, Reconcile_sorted _ arch rt ctx deleteViolations⟩

theorem mem_keysToDelete (l : Groups) (key : String) :
    key ∈ keysToDelete l ↔ ∃ e ∈ l, Violating e.2 ∧ key ∈ e.2.RecordIDs := by
  unfold keysToDelete
  rw [List.mem_flatMap]
  constructor
  · rintro ⟨e, he, hk⟩
    rw [List.mem_filter] at he
    exact ⟨e, he.1, (isViolation_iff _).1 he.2, hk⟩
  · rintro ⟨e, he, hv, hk⟩
    exact ⟨e, List.mem_filter.2 ⟨he, (isViolation_iff _).2 hv⟩, hk⟩

theorem mem_contributionsTo (kf vf : String) (k : ℚ) (items : List (String × JVal))
    (key : String) (w : ℚ) :
    (key, w) ∈ contributionsTo kf vf k items ↔
      ∃ item ∈ items, item.1 = key ∧ numericPair kf vf item.2 = some (k, w) := by
  unfold contributionsTo
  rw [List.mem_filterMap]
  constructor
  · rintro ⟨item, hitem, h⟩
    refine ⟨item, hitem, ?_⟩
    cases hp : numericPair kf vf item.2 with
    | none => rw [hp] at h; simp at h
    | some pr =>
      obtain ⟨inc, v⟩ := pr
      rw [hp] at h
      simp only at h
      by_cases hk : inc = k
      · rw [if_pos hk] at h
        simp only [Option.some.injEq, Prod.mk.injEq] at h
        rw [hk, h.2]
        exact ⟨h.1, rfl⟩
      · rw [if_neg hk] at h
        cases h
  · rintro ⟨item, hitem, hkey, hp⟩
    refine ⟨item, hitem, ?_⟩
    rw [hp]
    simp [hkey]

theorem recordIDs_of_bucket (field : String) (world : List (String × JVal)) (g : Groups)
    (hg : IsBucketMap field world g) (e : ℚ × GroupData) (he : e ∈ g) (key : String) :
    key ∈ e.2.RecordIDs ↔
      ∃ item ∈ scan world proofSelector, item.1 = key ∧
        ∃ w, numericPair field "chained_weight" item.2 = some (e.1, w) := by
  obtain ⟨hnd, hfind⟩ := hg
  have hb := (Groups.mem_iff_find g hnd e.1 e.2).1 he
  rw [hfind e.1] at hb
  unfold bucketOf at hb
  split at hb
  · cases hb
  · simp only [Option.some.injEq] at hb
    rw [← hb]
    show key ∈ List.map Prod.fst
      (contributionsTo field "chained_weight" e.1 (scan world proofSelector)) ↔ _
    rw [List.mem_map]
    constructor
    · rintro ⟨⟨key', w⟩, hw, hk⟩
      simp only at hk
      subst hk
      obtain ⟨item, hitem, hkey, hp⟩ := (mem_contributionsTo _ _ _ _ _ _).1 hw
      exact ⟨item, hitem, hkey, w, hp⟩
    · rintro ⟨item, hitem, hkey, w, hp⟩
      exact ⟨(key, w), (mem_contributionsTo _ _ _ _ _ _).2 ⟨item, hitem, hkey, hp⟩, rfl⟩

theorem lookup_filter_none (world : List (String × JVal)) (p : String × JVal → Bool)
    (key : String) (h : ∀ kv ∈ world, kv.1 = key → p kv = false) :
    (world.filter p).lookup key = none := by
  induction world with
  | nil => rfl
  | cons kv t ih =>
    have ht : ∀ kv ∈ t, kv.1 = key → p kv = false :=
      fun kv hkv => h kv (List.mem_cons_of_mem _ hkv)
    rw [List.filter_cons]
    by_cases hp : p kv = true
    · rw [if_pos hp]
      obtain ⟨a, v⟩ := kv
      rw [List.lookup_cons]
      have hne : ¬ a = key := by
        intro ha
        have := h (a, v) (List.mem_cons_self _ _) ha
        rw [this] at hp
        cases hp
      have : (key == a) = false := by simpa using (fun h' : key = a => hne h'.symm)
      rw [this]
      exact ih ht
    · rw [if_neg hp]
      exact ih ht

theorem selectors_disjoint (v : JVal) (h1 : matchesSelector proofSelector v = true)
    (h2 : matchesSelector ticketSelector v = true) : False := by
  cases v with
  | obj fields =>
    simp only [matchesSelector, proofSelector, ticketSelector, List.all_cons, List.all_nil,
      Bool.and_true, decide_eq_true_eq] at h1 h2
    rw [h1] at h2
    simp at h2
  | null => simp [matchesSelector] at h1
  | bool b => simp [matchesSelector] at h1
  | num q => simp [matchesSelector] at h1
  | str s => simp [matchesSelector] at h1
  | arr a => simp [matchesSelector] at h1
theorem Reconcile_deletes (field : String) (arch : Arch) (rt : Runtime) (ctx : Stub)
    (proofRecords tickets : List (String × JVal))
    (hp : bulkRead ctx proofSelector = Except.ok proofRecords)
    (ht : bulkRead ctx ticketSelector = Except.ok tickets)
    (hkeys : (ctx.world.map Prod.fst).Nodup) :
    ∃ (g : Groups) (out : Reply × Stub) (dels : List String) (response : ComparisonResponse),
      IsBucketMap field ctx.world g ∧
      Reconcile field arch rt ctx "true" = some out ∧
      out.1 = marshalResponse response ∧
      response.Success = true ∧
      out.2.calls = ctx.calls ++
        [StubCall.GetQueryResult proofSelector, StubCall.GetQueryResult ticketSelector] ++
        dels.map StubCall.DelState ∧
      (∀ key, key ∈ dels ↔
        ∃ e ∈ g, (F64.lt (F64.finite 0) e.2.ChainedWeightSum ∧ 0 < e.2.TicketCount ∧
          ∃ m, e.2.ReceivedWeightMax = some m ∧ F64.lt (F64.finite m) e.2.ChainedWeightSum) ∧
          key ∈ e.2.RecordIDs) ∧
      response.DeletedRecords = dels.filter (fun key => (ctx.delFault key).isNone) ∧
      out.2.world = ctx.world.filter (fun kv => decide (kv.1 ∉ response.DeletedRecords)) ∧
      (∀ key ∈ response.DeletedRecords, (out.2.GetState key).1 = none) ∧
      (∀ e ∈ g, ¬ (F64.lt (F64.finite 0) e.2.ChainedWeightSum ∧ 0 < e.2.TicketCount ∧
          ∃ m, e.2.ReceivedWeightMax = some m ∧ F64.lt (F64.finite m) e.2.ChainedWeightSum) →
        ∀ key ∈ e.2.RecordIDs, key ∉ dels) ∧
      (∀ kv ∈ scan ctx.world ticketSelector, kv.1 ∉ dels) ∧
      ((∀ r ∈ response.Results, entryFinite r = true) → out.1 = Reply.document response) ∧
      ((∃ r ∈ response.Results, entryFinite r = false) → out.1 = Reply.emptyString) := by
  obtain ⟨g, hg, hrec⟩ := Reconcile_results field arch rt ctx "true" proofRecords tickets hp ht
  have hmem : ∀ key, key ∈ keysToDelete (rt.mapRange g) ↔
      ∃ e ∈ g, Violating e.2 ∧ key ∈ e.2.RecordIDs := by
    intro key
    rw [mem_keysToDelete]
    constructor
    · rintro ⟨e, he, h⟩; exact ⟨e, (rt.mapRange_perm g).mem_iff.1 he, h⟩
    · rintro ⟨e, he, h⟩; exact ⟨e, (rt.mapRange_perm g).mem_iff.2 he, h⟩
  have hinj : ∀ x ∈ ctx.world, ∀ y ∈ ctx.world, x.1 = y.1 → x = y :=
    List.inj_on_of_nodup_map hkeys
  have hsub : ∀ sel, ∀ x ∈ scan ctx.world sel, x ∈ ctx.world ∧ matchesSelector sel x.2 = true := by
    intro sel x hx
    unfold scan at hx
    exact List.mem_filter.1 hx
  have hworld : (applyDeletes
      { ctx with calls := ctx.calls ++
          [StubCall.GetQueryResult proofSelector, StubCall.GetQueryResult ticketSelector] }
      (keysToDelete (rt.mapRange g))).world =
      ctx.world.filter (fun kv => decide (kv.1 ∉
        (keysToDelete (rt.mapRange g)).filter (fun key => (ctx.delFault key).isNone))) := by
    simp only [applyDeletes]
    apply List.filter_congr
    intro kv _
    by_cases h1 : kv.1 ∈ keysToDelete (rt.mapRange g) <;>
      cases h2 : ctx.delFault kv.1 <;> simp [List.mem_filter, h1, h2]
  refine ⟨g, _, keysToDelete (rt.mapRange g), _, hg, hrec, rfl, rfl, ?_, hmem, ?_, ?_, ?_, ?_, ?_,
    (marshalResponse_cases _).1, (marshalResponse_cases _).2.1⟩
  · simp [applyDeletes]
  · simp
  · simp only [decide_True, if_true]
    exact hworld
  · intro key hkey
    simp only [decide_True, if_true] at hkey ⊢
    simp only [Stub.GetState]
    rw [hworld]
    apply lookup_filter_none
    intro kv _ hk
    rw [hk]
    simpa using hkey
  · intro e he hnot key hkey hdel
    obtain ⟨e', he', hv', hkey'⟩ := (hmem key).1 hdel
    obtain ⟨item, hitem, hik, w, hw⟩ := (recordIDs_of_bucket field ctx.world g hg e he key).1 hkey
    obtain ⟨item', hitem', hik', w', hw'⟩ :=
      (recordIDs_of_bucket field ctx.world g hg e' he' key).1 hkey'
    have heq : item = item' :=
      hinj item (hsub _ item hitem).1 item' (hsub _ item' hitem').1 (by rw [hik, hik'])
    subst heq
    rw [hw] at hw'
    simp only [Option.some.injEq, Prod.mk.injEq] at hw'
    have hee : e = e' := by
      have h1 := (Groups.mem_iff_find g hg.1 e.1 e.2).1 he
      have h2 := (Groups.mem_iff_find g hg.1 e'.1 e'.2).1 he'
      rw [← hw'.1, h1] at h2
      simp only [Option.some.injEq] at h2
      exact Prod.ext hw'.1 h2
    subst hee
    exact hnot hv'
  · intro kv hkv hdel
    obtain ⟨e, he, _, hkey⟩ := (hmem kv.1).1 hdel
    obtain ⟨item, hitem, hik, _⟩ :=
      (recordIDs_of_bucket field ctx.world g hg e he kv.1).1 hkey
    have heq : item = kv := hinj item (hsub _ item hitem).1 kv (hsub _ kv hkv).1 hik
    subst heq
    exact selectors_disjoint item.2 (hsub _ item hitem).2 (hsub _ item hkv).2

/-- C4 (counterexample): on a world state whose bulk reads succeed and whose
bucket 5 is a violation with chained weight 1e307,
`CompareWeightsByPressIncrement` with `deleteViolations = "true"` deletes the
key of the proof record and then returns the empty string: the caller receives
no `deletedRecords` although a key was deleted. -/
theorem C4_counterexample :
    bulkRead (Stub.healthy overflowWorld) proofSelector =
      Except.ok [("PROOF_A", pressRecord 5 (nearestDouble 1e307))] ∧
    bulkRead (Stub.healthy overflowWorld) ticketSelector =
      Except.ok [("TICKET_T1", ticketRecord "T1" 5 1)] ∧
    (CompareWeightsByPressIncrement Arch.amd64 Runtime.inOrder (Stub.healthy overflowWorld) "true").map
        (fun out => (out.1, out.2.world, out.2.calls)) =
      some (Reply.emptyString,
        [("TICKET_T1", ticketRecord "T1" 5 1)],
        [StubCall.GetQueryResult proofSelector, StubCall.GetQueryResult ticketSelector,
         StubCall.DelState "PROOF_A"]) := by
  refine ⟨rfl, rfl, ?_⟩
  decide!

/-- C4 (amended): with `deleteViolations = "true"`, on a world state with
distinct keys whose two bulk reads succeed, each reconcile operation returns
and, after the two scans, calls `DelState` on exactly the record keys of the
violating buckets (`dels`) and issues no other call: no key of a non-violating
bucket and no key of a ticket is among them.  The `deletedRecords` of the
response it builds are exactly the keys of `dels` whose `DelState` did not
fail; a failed delete only leaves its key out.  The world state afterwards is
the one before without these keys, and a point lookup of one of them finds
nothing.  The response is returned as a document when the rounded weights of
all its entries are finite; when one is not, the deletions have still taken
place and the operation returns the empty string. -/
theorem C4_delete_violations (arch : Arch) (rt : Runtime) (ctx : Stub)
    (proofRecords tickets : List (String × JVal))
    (hp : bulkRead ctx proofSelector = Except.ok proofRecords)
    (ht : bulkRead ctx ticketSelector = Except.ok tickets)
    (hkeys : (ctx.world.map Prod.fst).Nodup) :
    (∃ (g : Groups) (out : Reply × Stub) (dels : List String) (response : ComparisonResponse),
      IsBucketMap "press_increment" ctx.world g ∧
      CompareWeightsByPressIncrement arch rt ctx "true" = some out ∧
      out.1 = marshalResponse response ∧
      response.Success = true ∧
      out.2.calls = ctx.calls ++
        [StubCall.GetQueryResult proofSelector, StubCall.GetQueryResult ticketSelector] ++
        dels.map StubCall.DelState ∧
      (∀ key, key ∈ dels ↔
        ∃ e ∈ g, (F64.lt (F64.finite 0) e.2.ChainedWeightSum ∧ 0 < e.2.TicketCount ∧
          ∃ m, e.2.ReceivedWeightMax = some m ∧ F64.lt (F64.finite m) e.2.ChainedWeightSum) ∧
          key ∈ e.2.RecordIDs) ∧
      response.DeletedRecords = dels.filter (fun key => (ctx.delFault key).isNone) ∧
      out.2.world = ctx.world.filter (fun kv => decide (kv.1 ∉ response.DeletedRecords)) ∧
      (∀ key ∈ response.DeletedRecords, (out.2.GetState key).1 = none) ∧
      (∀ e ∈ g, ¬ (F64.lt (F64.finite 0) e.2.ChainedWeightSum ∧ 0 < e.2.TicketCount ∧
          ∃ m, e.2.ReceivedWeightMax = some m ∧ F64.lt (F64.finite m) e.2.ChainedWeightSum) →
        ∀ key ∈ e.2.RecordIDs, key ∉ dels) ∧
      (∀ kv ∈ scan ctx.world ticketSelector, kv.1 ∉ dels) ∧
      ((∀ r ∈ response.Results, entryFinite r = true) → out.1 = Reply.document response) ∧
      ((∃ r ∈ response.Results, entryFinite r = false) → out.1 = Reply.emptyString)) ∧
    (∃ (g : Groups) (out : Reply × Stub) (dels : List String) (response : ComparisonResponse),
      IsBucketMap "store_increment" ctx.world g ∧
      CompareWeightsByStoreIncrement arch rt ctx "true" = some out ∧
      out.1 = marshalResponse response ∧
      response.Success = true ∧
      out.2.calls = ctx.calls ++
        [StubCall.GetQueryResult proofSelector, StubCall.GetQueryResult ticketSelector] ++
        dels.map StubCall.DelState ∧
      (∀ key, key ∈ dels ↔
        ∃ e ∈ g, (F64.lt (F64.finite 0) e.2.ChainedWeightSum ∧ 0 < e.2.TicketCount ∧
          ∃ m, e.2.ReceivedWeightMax = some m ∧ F64.lt (F64.finite m) e.2.ChainedWeightSum) ∧
          key ∈ e.2.RecordIDs) ∧
      response.DeletedRecords = dels.filter (fun key => (ctx.delFault key).isNone) ∧
      out.2.world = ctx.world.filter (fun kv => decide (kv.1 ∉ response.DeletedRecords)) ∧
      (∀ key ∈ response.DeletedRecords, (out.2.GetState key).1 = none) ∧
      (∀ e ∈ g, ¬ (F64.lt (F64.finite 0) e.2.ChainedWeightSum ∧ 0 < e.2.TicketCount ∧
          ∃ m, e.2.ReceivedWeightMax = some m ∧ F64.lt (F64.finite m) e.2.ChainedWeightSum) →
        ∀ key ∈ e.2.RecordIDs, key ∉ dels) ∧
      (∀ kv ∈ scan ctx.world ticketSelector, kv.1 ∉ dels) ∧
      ((∀ r ∈ response.Results, entryFinite r = true) → out.1 = Reply.document response) ∧
      ((∃ r ∈ response.Results, entryFinite r = false) → out.1 = Reply.emptyString)) := by
  rw [CompareWeightsByPressIncrement_eq, CompareWeightsByStoreIncrement_eq]
  exact ⟨Reconcile_deletes _ arch rt ctx proofRecords tickets hp ht hkeys,
    Reconcile_deletes _ arch rt ctx proofRecords tickets hp ht hkeys⟩

/-- Witness of C4 (amended): in the scenario of the specification both keys of A
and B are deleted and returned, only the ticket is left, and a later lookup of
either key finds nothing; when the delete of B fails, the operation still
succeeds and returns the key of A alone. -/
theorem C4_delete_violations_witness :
    (∃ (out : Reply × Stub) (dels : List String) (response : ComparisonResponse),
      CompareWeightsByPressIncrement Arch.amd64 Runtime.inOrder (Stub.healthy sampleWorld) "true"
        = some out ∧
      out.1 = marshalResponse response ∧
      response.DeletedRecords = dels.filter (fun _ => true) ∧
      (∀ key ∈ response.DeletedRecords, (out.2.GetState key).1 = none)) ∧
    (CompareWeightsByPressIncrement Arch.amd64 Runtime.inOrder (Stub.healthy sampleWorld) "true").map
        (fun out => (out.1, out.2.world, out.2.calls)) =
      some (Reply.document
          { Success := true, Results := [⟨5, F64.finite 18, F64.finite 15⟩],
            DeletedRecords := ["PROOF_A", "PROOF_B"], Message := "" },
        [("TICKET_T1", ticketRecord "T1" 5 15)],
        [StubCall.GetQueryResult proofSelector, StubCall.GetQueryResult ticketSelector,
         StubCall.DelState "PROOF_A", StubCall.DelState "PROOF_B"]) ∧
    (CompareWeightsByPressIncrement Arch.amd64 Runtime.inOrder (Stub.healthy sampleWorld) "true").map
        (fun out => ((out.2.GetState "PROOF_A").1, (out.2.GetState "PROOF_B").1)) =
      some (none, none) ∧
    (CompareWeightsByPressIncrement Arch.amd64 Runtime.inOrder
        { Stub.healthy sampleWorld with
          delFault := fun key => if key = "PROOF_B" then some "MVCC conflict" else none }
        "true").map (fun out => (out.1, out.2.world.map Prod.fst)) =
      some (Reply.document
          { Success := true, Results := [⟨5, F64.finite 18, F64.finite 15⟩],
            DeletedRecords := ["PROOF_A"], Message := "" },
        ["PROOF_B", "TICKET_T1"]) := by
  refine ⟨?_, by decide!, by decide!, by decide!⟩
  obtain ⟨⟨g, out, dels, response, _, h1, hm, _, _, _, h2, _, h3, _⟩, _⟩ :=
    C4_delete_violations Arch.amd64 Runtime.inOrder (Stub.healthy sampleWorld)
      [("PROOF_A", pressRecord 5 10), ("PROOF_B", pressRecord 5 8)]
      [("TICKET_T1", ticketRecord "T1" 5 15)] rfl rfl (by decide)
  exact ⟨out, dels, response, h1, hm, h2, h3⟩

theorem mathRound_isInt (x : ℚ) : ∃ n : Int, mathRound x = (n : ℚ) := by
  unfold mathRound
  by_cases h : 0 ≤ x
  · rw [if_pos h]; exact ⟨_, rfl⟩
  · rw [if_neg h]; exact ⟨-⌊-x + 1 / 2⌋, by push_cast; ring⟩

theorem mathRound_bounds (x : ℚ) : x - 1 / 2 ≤ mathRound x ∧ mathRound x ≤ x + 1 / 2 := by
  unfold mathRound
  by_cases h : 0 ≤ x
  · rw [if_pos h]
    have h1 := Int.floor_le (x + 1 / 2)
    have h2 := Int.lt_floor_add_one (x + 1 / 2)
    constructor <;> linarith
  · rw [if_neg h]
    have h1 := Int.floor_le (-x + 1 / 2)
    have h2 := Int.lt_floor_add_one (-x + 1 / 2)
    constructor <;> linarith

theorem mathRound_tie_away (x : ℚ) (h : |mathRound x - x| = 1 / 2) : |x| < |mathRound x| := by
  unfold mathRound at h ⊢
  by_cases hx : 0 ≤ x
  · rw [if_pos hx] at h ⊢
    have h1 := Int.floor_le (x + 1 / 2)
    have h2 := Int.lt_floor_add_one (x + 1 / 2)
    have h3 : ((⌊x + 1 / 2⌋ : Int) : ℚ) - x = 1 / 2 := by
      rcases abs_eq (by norm_num : (0 : ℚ) ≤ 1 / 2) |>.1 h with h' | h'
      · exact h'
      · linarith
    rw [abs_of_nonneg hx, abs_of_nonneg (by linarith)]
    linarith
  · rw [if_neg hx] at h ⊢
    have hx' : x < 0 := lt_of_not_ge hx
    have h1 := Int.floor_le (-x + 1 / 2)
    have h2 := Int.lt_floor_add_one (-x + 1 / 2)
    have h3 : -((⌊-x + 1 / 2⌋ : Int) : ℚ) - x = -(1 / 2) := by
      rcases abs_eq (by norm_num : (0 : ℚ) ≤ 1 / 2) |>.1 h with h' | h'
      · linarith
      · exact h'
    rw [abs_of_neg hx', abs_of_nonpos (by linarith)]
    linarith

theorem roundToCents_facts (s w : ℚ) (h : roundToCents (F64.finite s) = F64.finite w) :
    (∃ n : Int, F64.round ((n : ℚ) / 100) = F64.finite w) ∧
    |w - s| ≤ 1 / 200 + (|s| + 1) * pow2 (-51) := by
  refine ⟨?_, roundToCents_err s w h⟩
  obtain ⟨p, _, hw, _⟩ := roundToCents_finite s w h
  obtain ⟨n, hn⟩ := mathRound_isInt p
  exact ⟨n, by rw [← hn]; exact hw⟩

theorem goInt_truncates (arch : Arch) (k : ℚ) (hlow : -9223372036854775808 ≤ k)
    (hup : k < 9223372036854775808) :
    (0 ≤ k → ((goInt arch k : Int) : ℚ) ≤ k ∧ k < (goInt arch k : ℚ) + 1) ∧
    (k < 0 → k ≤ ((goInt arch k : Int) : ℚ) ∧ (goInt arch k : ℚ) - 1 < k) := by
  unfold goInt
  constructor
  · intro h
    have h1 : ⌊k⌋ < 9223372036854775808 := Int.floor_lt.2 (by exact_mod_cast hup)
    have h2 : (0 : Int) ≤ ⌊k⌋ := Int.floor_nonneg.2 h
    simp only [if_pos h]
    rw [if_pos ⟨by omega, by omega⟩]
    exact ⟨Int.floor_le k, Int.lt_floor_add_one k⟩
  · intro h
    have h1 : ⌈k⌉ ≤ 0 := Int.ceil_le.2 (by exact_mod_cast le_of_lt h)
    have h2 : (-9223372036854775808 : Int) ≤ ⌈k⌉ := by
      have : ((-9223372036854775808 : Int) : ℚ) ≤ (⌈k⌉ : ℚ) :=
        le_trans (by exact_mod_cast hlow) (Int.le_ceil k)
      exact_mod_cast this
    simp only [if_neg (not_le.2 h)]
    rw [if_pos ⟨h2, by omega⟩]
    have := Int.ceil_lt_add_one k
    exact ⟨Int.le_ceil k, by linarith⟩

theorem Reconcile_entries (field : String) (arch : Arch) (rt : Runtime) (ctx : Stub) (dv : String)
    (proofRecords tickets : List (String × JVal))
    (hp : bulkRead ctx proofSelector = Except.ok proofRecords)
    (ht : bulkRead ctx ticketSelector = Except.ok tickets) :
    ∃ (g : Groups) (out : Reply × Stub) (response : ComparisonResponse),
      IsBucketMap field ctx.world g ∧
      Reconcile field arch rt ctx dv = some out ∧
      out.1 = marshalResponse response ∧
      (∀ e ∈ g, ∀ m, F64.lt (F64.finite 0) e.2.ChainedWeightSum → 0 < e.2.TicketCount →
        e.2.ReceivedWeightMax = some m → F64.lt (F64.finite m) e.2.ChainedWeightSum →
        resultEntry arch e.1 e.2.ChainedWeightSum m ∈ response.Results) ∧
      (∀ r ∈ response.Results, ∃ e ∈ g, ∃ m,
        (F64.lt (F64.finite 0) e.2.ChainedWeightSum ∧ 0 < e.2.TicketCount ∧
          F64.lt (F64.finite m) e.2.ChainedWeightSum) ∧
        e.2.ReceivedWeightMax = some m ∧
        r.IncrementID = goInt arch e.1 ∧
        (-9223372036854775808 ≤ e.1 → e.1 < 9223372036854775808 →
          (0 ≤ e.1 → (r.IncrementID : ℚ) ≤ e.1 ∧ e.1 < (r.IncrementID : ℚ) + 1) ∧
          (e.1 < 0 → e.1 ≤ (r.IncrementID : ℚ) ∧ (r.IncrementID : ℚ) - 1 < e.1)) ∧
        r.ChainedWeight = roundToCents e.2.ChainedWeightSum ∧
        r.ReceivedWeight = roundToCents (F64.finite m) ∧
        (∀ s w, e.2.ChainedWeightSum = F64.finite s → r.ChainedWeight = F64.finite w →
          (∃ n : Int, F64.round ((n : ℚ) / 100) = F64.finite w) ∧
          |w - s| ≤ 1 / 200 + (|s| + 1) * pow2 (-51)) ∧
        (∀ w, r.ReceivedWeight = F64.finite w →
          (∃ n : Int, F64.round ((n : ℚ) / 100) = F64.finite w) ∧
          |w - m| ≤ 1 / 200 + (|m| + 1) * pow2 (-51))) := by
  obtain ⟨g, hg, hrec⟩ := Reconcile_results field arch rt ctx dv proofRecords tickets hp ht
  have hmem : ∀ r, r ∈ rt.sortSlice lessByIncrementID
      ((rt.mapRange g).filterMap (violationOf arch)) ↔
      ∃ e ∈ g, violationOf arch e = some r := by
    intro r
    rw [(results_perm arch rt g).mem_iff, List.mem_filterMap]
  refine ⟨g, _, _, hg, hrec, rfl, fun e he m h1 h2 hm h3 => ?_, fun r hr => ?_⟩
  · exact (hmem _).2 ⟨e, he, (violationOf_eq_some_iff arch e _).2 ⟨⟨h1, h2, m, hm, h3⟩, m, hm, rfl⟩⟩
  · obtain ⟨e, he, hv⟩ := (hmem r).1 hr
    obtain ⟨⟨h1, h2, m', hm', h3⟩, m, hm, hr'⟩ := (violationOf_eq_some_iff arch e r).1 hv
    rw [hm] at hm'
    simp only [Option.some.injEq] at hm'
    subst hm'
    subst hr'
    refine ⟨e, he, m, ⟨h1, h2, h3⟩, hm, rfl, fun hlow hup => goInt_truncates arch e.1 hlow hup,
      rfl, rfl, ?_, ?_⟩
    · intro s w hs hw
      simp only [resultEntry] at hw
      rw [hs] at hw
      exact roundToCents_facts s w hw
    · intro w hw
      exact roundToCents_facts m w hw

/-- C7 (counterexample): the weight 1.005 is emitted as 1, where rounding
half away from zero of 1.005 times 100, divided by 100, is 1.01.  The `float64`
nearest to 17.005 lies below 17.005, so that rounding it to two decimals gives
17; its product by 100 is rounded to 1700.5, and the code emits the `float64`
nearest to 17.01.  That emitted weight differs from the sum by more than 0.005,
and 100 times the emitted weight is not an integer. -/
theorem C7_counterexample :
    roundToCents (F64.finite (nearestDouble (1005 / 1000))) = F64.finite 1 ∧
    mathRound ((1005 / 1000 : ℚ) * 100) / 100 = 101 / 100 ∧
    nearestDouble (17005 / 1000) < 17005 / 1000 ∧
    mathRound (nearestDouble (17005 / 1000) * 100) / 100 = 17 ∧
    F64.mul (F64.finite (nearestDouble (17005 / 1000))) (F64.finite 100) =
      F64.finite (34010 / 20) ∧
    roundToCents (F64.finite (nearestDouble (17005 / 1000))) =
      F64.finite (nearestDouble (1701 / 100)) ∧
    1 / 200 < |nearestDouble (1701 / 100) - nearestDouble (17005 / 1000)| ∧
    (¬ ∃ n : Int, nearestDouble (1701 / 100) * 100 = (n : ℚ)) ∧
    (CompareWeightsByPressIncrement Arch.amd64 Runtime.inOrder (Stub.healthy boundaryWorld) "false").map
        (fun out => out.1) =
      some (Reply.document
        { Success := true
          Results := [⟨5, F64.finite (nearestDouble (1701 / 100)),
            F64.finite (nearestDouble (1234 / 100))⟩]
          DeletedRecords := []
          Message := "" }) := by
  refine ⟨by decide!, by decide!, by decide!, by decide!, by decide!, by decide!, by decide!,
    ?_, by decide!⟩
  rintro ⟨n, hn⟩
  have hden : (nearestDouble (1701 / 100) * 100).den = 1 := by
    rw [hn]
    exact Rat.den_intCast n
  revert hden
  decide!

/-- C7 (amended): when the bulk reads succeed, the results of the response each
reconcile operation builds hold the entry of every violating bucket, and every
entry comes from a violating bucket with increment value `k`, sum `s` and
maximum `m`.  Its `incrementId` is `int(k)`: `k` truncated toward zero when `k`
lies within the 64-bit range.  Its `chainedWeight` is the `float64` expression
`math.Round(s*100)/100` and its `receivedWeight` is `math.Round(m*100)/100`,
each operation rounded to `float64`: a finite emitted weight is the `float64`
nearest to `n/100` for an integer `n`, and differs from the exact value `v` by
at most `0.005 + (|v| + 1) * 2^-51`.  `math.Round` yields an integer nearest to
its argument and, on a tie, the one away from zero; the `float64` nearest to
17.005 is emitted as the one nearest to 17.01. -/
theorem C7_entry_rounding (arch : Arch) (rt : Runtime) (ctx : Stub) (deleteViolations : String)
    (proofRecords tickets : List (String × JVal))
    (hp : bulkRead ctx proofSelector = Except.ok proofRecords)
    (ht : bulkRead ctx ticketSelector = Except.ok tickets) :
    (∃ (g : Groups) (out : Reply × Stub) (response : ComparisonResponse),
      IsBucketMap "press_increment" ctx.world g ∧
      CompareWeightsByPressIncrement arch rt ctx deleteViolations = some out ∧
      out.1 = marshalResponse response ∧
      (∀ e ∈ g, ∀ m, F64.lt (F64.finite 0) e.2.ChainedWeightSum → 0 < e.2.TicketCount →
        e.2.ReceivedWeightMax = some m → F64.lt (F64.finite m) e.2.ChainedWeightSum →
        resultEntry arch e.1 e.2.ChainedWeightSum m ∈ response.Results) ∧
      (∀ r ∈ response.Results, ∃ e ∈ g, ∃ m,
        (F64.lt (F64.finite 0) e.2.ChainedWeightSum ∧ 0 < e.2.TicketCount ∧
          F64.lt (F64.finite m) e.2.ChainedWeightSum) ∧
        e.2.ReceivedWeightMax = some m ∧
        r.IncrementID = goInt arch e.1 ∧
        (-9223372036854775808 ≤ e.1 → e.1 < 9223372036854775808 →
          (0 ≤ e.1 → (r.IncrementID : ℚ) ≤ e.1 ∧ e.1 < (r.IncrementID : ℚ) + 1) ∧
          (e.1 < 0 → e.1 ≤ (r.IncrementID : ℚ) ∧ (r.IncrementID : ℚ) - 1 < e.1)) ∧
        r.ChainedWeight = roundToCents e.2.ChainedWeightSum ∧
        r.ReceivedWeight = roundToCents (F64.finite m) ∧
        (∀ s w, e.2.ChainedWeightSum = F64.finite s → r.ChainedWeight = F64.finite w →
          (∃ n : Int, F64.round ((n : ℚ) / 100) = F64.finite w) ∧
          |w - s| ≤ 1 / 200 + (|s| + 1) * pow2 (-51)) ∧
        (∀ w, r.ReceivedWeight = F64.finite w →
          (∃ n : Int, F64.round ((n : ℚ) / 100) = F64.finite w) ∧
          |w - m| ≤ 1 / 200 + (|m| + 1) * pow2 (-51)))) ∧
    (∃ (g : Groups) (out : Reply × Stub) (response : ComparisonResponse),
      IsBucketMap "store_increment" ctx.world g ∧
      CompareWeightsByStoreIncrement arch rt ctx deleteViolations = some out ∧
      out.1 = marshalResponse response ∧
      (∀ e ∈ g, ∀ m, F64.lt (F64.finite 0) e.2.ChainedWeightSum → 0 < e.2.TicketCount →
        e.2.ReceivedWeightMax = some m → F64.lt (F64.finite m) e.2.ChainedWeightSum →
        resultEntry arch e.1 e.2.ChainedWeightSum m ∈ response.Results) ∧
      (∀ r ∈ response.Results, ∃ e ∈ g, ∃ m,
        (F64.lt (F64.finite 0) e.2.ChainedWeightSum ∧ 0 < e.2.TicketCount ∧
          F64.lt (F64.finite m) e.2.ChainedWeightSum) ∧
        e.2.ReceivedWeightMax = some m ∧
        r.IncrementID = goInt arch e.1 ∧
        (-9223372036854775808 ≤ e.1 → e.1 < 9223372036854775808 →
          (0 ≤ e.1 → (r.IncrementID : ℚ) ≤ e.1 ∧ e.1 < (r.IncrementID : ℚ) + 1) ∧
          (e.1 < 0 → e.1 ≤ (r.IncrementID : ℚ) ∧ (r.IncrementID : ℚ) - 1 < e.1)) ∧
        r.ChainedWeight = roundToCents e.2.ChainedWeightSum ∧
        r.ReceivedWeight = roundToCents (F64.finite m) ∧
        (∀ s w, e.2.ChainedWeightSum = F64.finite s → r.ChainedWeight = F64.finite w →
          (∃ n : Int, F64.round ((n : ℚ) / 100) = F64.finite w) ∧
          |w - s| ≤ 1 / 200 + (|s| + 1) * pow2 (-51)) ∧
        (∀ w, r.ReceivedWeight = F64.finite w →
          (∃ n : Int, F64.round ((n : ℚ) / 100) = F64.finite w) ∧
          |w - m| ≤ 1 / 200 + (|m| + 1) * pow2 (-51)))) ∧
    (∀ x : F64, roundToCents x =
      F64.div (F64.mathRound (F64.mul x (F64.finite 100))) (F64.finite 100)) ∧
    (∀ x : ℚ, F64.mathRound (F64.finite x) = F64.finite (mathRound x) ∧
      (∃ n : Int, mathRound x = (n : ℚ)) ∧ |mathRound x - x| ≤ 1 / 2 ∧
      (|mathRound x - x| = 1 / 2 → |x| < |mathRound x|)) ∧
    pow2 (-51) = 1 / 2251799813685248 ∧
    roundToCents (F64.finite (nearestDouble (17005 / 1000))) =
      F64.finite (nearestDouble (1701 / 100)) := by
  rw [CompareWeightsByPressIncrement_eq, CompareWeightsByStoreIncrement_eq]
  exact ⟨Reconcile_entries _ arch rt ctx deleteViolations proofRecords tickets hp ht,
    Reconcile_entries _ arch rt ctx deleteViolations proofRecords tickets hp ht,
    fun _ => rfl,
    fun x => ⟨rfl, mathRound_isInt x, mathRound_near x, mathRound_tie_away x⟩,
    by decide!, by decide!⟩

/-- Witness of C7 (amended): one proof record of increment 5.9 and chained
weight 17.005 against a ticket of received weight 12.344 is reported as
increment 5 with the `float64` weights nearest to 17.01 and 12.34. -/
theorem C7_entry_rounding_witness :
    (∃ out response,
      CompareWeightsByPressIncrement Arch.amd64 Runtime.inOrder (Stub.healthy boundaryWorld) "false"
        = some out ∧
      out.1 = marshalResponse response ∧
      ∀ r ∈ response.Results, ∀ w, r.ReceivedWeight = F64.finite w →
        ∃ n : Int, F64.round ((n : ℚ) / 100) = F64.finite w) ∧
    (CompareWeightsByPressIncrement Arch.amd64 Runtime.inOrder (Stub.healthy boundaryWorld) "false").map
        (fun out => out.1) =
      some (Reply.document
        { Success := true
          Results := [⟨5, F64.finite (nearestDouble (1701 / 100)),
            F64.finite (nearestDouble (1234 / 100))⟩]
          DeletedRecords := []
          Message := "" }) := by
  refine ⟨?_, by decide!⟩
  obtain ⟨⟨g, out, response, _, h1, hm, _, h2⟩, _⟩ :=
    C7_entry_rounding Arch.amd64 Runtime.inOrder (Stub.healthy boundaryWorld) "false"
      [("PROOF_A", pressRecord (nearestDouble (59 / 10)) (nearestDouble (17005 / 1000)))]
      [("TICKET_T1", ticketRecord "T1" (nearestDouble (59 / 10)) (nearestDouble (12344 / 1000)))]
      rfl rfl
  refine ⟨out, response, h1, hm, fun r hr w hw => ?_⟩
  obtain ⟨e, _, m, _, _, _, _, _, _, _, hn⟩ := h2 r hr
  exact (hn w hw).1

theorem sorted_perm_unique (l1 l2 : List ComparisonResult) (hperm : l1.Perm l2)
    (h1 : l1.Sorted (fun a b => a.IncrementID ≤ b.IncrementID))
    (h2 : l2.Sorted (fun a b => a.IncrementID ≤ b.IncrementID))
    (hnd : (l1.map (fun r => r.IncrementID)).Nodup) : l1 = l2 := by
  refine List.Perm.eq_of_sorted (fun a b ha hb hab hba => ?_) h1 h2 hperm
  exact List.inj_on_of_nodup_map hnd ha (hperm.mem_iff.2 hb) (le_antisymm hab hba)

theorem marshalResponse_perm (response1 response2 : ComparisonResponse)
    (h : response1.Results.Perm response2.Results) :
    (marshalResponse response1 = Reply.emptyString ↔
      marshalResponse response2 = Reply.emptyString) := by
  unfold marshalResponse
  rw [all_perm entryFinite _ _ h]
  split_ifs <;> simp

theorem Reconcile_twice (field : String) (arch : Arch) (rt1 rt2 : Runtime) (ctx : Stub)
    (dv : String) (hdv : dv ≠ "true") :
    ∃ (out1 out2 : Reply × Stub) (response1 response2 : ComparisonResponse),
      Reconcile field arch rt1 ctx dv = some out1 ∧
      Reconcile field arch rt2 out1.2 dv = some out2 ∧
      out2.2.world = ctx.world ∧
      out1.1 = marshalResponse response1 ∧ out2.1 = marshalResponse response2 ∧
      response1.Success = response2.Success ∧ response1.Message = response2.Message ∧
      response1.DeletedRecords = [] ∧ response2.DeletedRecords = [] ∧
      response1.Results.Perm response2.Results ∧
      response1.Results.Sorted (fun a b => a.IncrementID ≤ b.IncrementID) ∧
      response2.Results.Sorted (fun a b => a.IncrementID ≤ b.IncrementID) ∧
      (out1.1 = Reply.emptyString ↔ out2.1 = Reply.emptyString) ∧
      ((response1.Results.map (fun r => r.IncrementID)).Nodup →
        response1 = response2 ∧ out1.1 = out2.1) := by
  have hd : decide (dv = "true") = false := by simpa using hdv
  have key : ∀ (rt : Runtime) (c : List StubCall),
      Reconcile field arch rt { ctx with calls := c } dv =
        match bulkRead ctx proofSelector with
        | Except.error err =>
          some (Reply.document (comparisonFailure err),
            { ctx with calls := c ++ [StubCall.GetQueryResult proofSelector] })
        | Except.ok _ =>
          match bulkRead ctx ticketSelector with
          | Except.error err =>
            some (Reply.document (comparisonFailure err),
              { ctx with calls := c ++
                  [StubCall.GetQueryResult proofSelector,
                   StubCall.GetQueryResult ticketSelector] })
          | Except.ok _ =>
            match bucketsOf field ctx.world with
            | none => none
            | some g =>
              some (finishComparison arch rt (decide (dv = "true"))
                { ctx with calls := c ++
                    [StubCall.GetQueryResult proofSelector,
                     StubCall.GetQueryResult ticketSelector] } g) := by
    intro rt c
    rw [Reconcile_cases]
    rfl
  have key0 : Reconcile field arch rt1 ctx dv =
      Reconcile field arch rt1 { ctx with calls := ctx.calls } dv := rfl
  rw [key0, key rt1]
  cases hA : bulkRead ctx proofSelector with
  | error e =>
    refine ⟨(Reply.document (comparisonFailure e),
        { ctx with calls := ctx.calls ++ [StubCall.GetQueryResult proofSelector] }),
      (Reply.document (comparisonFailure e),
        { ctx with calls := ctx.calls ++ [StubCall.GetQueryResult proofSelector] ++
            [StubCall.GetQueryResult proofSelector] }),
      comparisonFailure e, comparisonFailure e,
      rfl, ?_, rfl, rfl, rfl, rfl, rfl, rfl, rfl, List.Perm.refl _, List.sorted_nil,
      List.sorted_nil, Iff.rfl, fun _ => ⟨rfl, rfl⟩⟩
    simp only []
    rw [key rt2, hA]
  | ok a =>
    cases hB : bulkRead ctx ticketSelector with
    | error e =>
      refine ⟨(Reply.document (comparisonFailure e),
          { ctx with calls := ctx.calls ++
              [StubCall.GetQueryResult proofSelector, StubCall.GetQueryResult ticketSelector] }),
        (Reply.document (comparisonFailure e),
          { ctx with calls := ctx.calls ++
              [StubCall.GetQueryResult proofSelector, StubCall.GetQueryResult ticketSelector] ++
              [StubCall.GetQueryResult proofSelector, StubCall.GetQueryResult ticketSelector] }),
        comparisonFailure e, comparisonFailure e,
        rfl, ?_, rfl, rfl, rfl, rfl, rfl, rfl, rfl, List.Perm.refl _, List.sorted_nil,
        List.sorted_nil, Iff.rfl, fun _ => ⟨rfl, rfl⟩⟩
      simp only []
      rw [key rt2, hA]
      simp only []
      rw [hB]
    | ok b =>
      obtain ⟨g, hg, _⟩ := bucketsOf_total field ctx.world
      simp only [hg, finishComparison_eq, hd]
      have hperm : (rt1.sortSlice lessByIncrementID
          ((rt1.mapRange g).filterMap (violationOf arch))).Perm
          (rt2.sortSlice lessByIncrementID ((rt2.mapRange g).filterMap (violationOf arch))) :=
        (results_perm arch rt1 g).trans (results_perm arch rt2 g).symm
      refine ⟨(marshalResponse
               { Success := true
                 Results := rt1.sortSlice lessByIncrementID
                   ((rt1.mapRange g).filterMap (violationOf arch))
                 DeletedRecords := []
                 Message := "" },
          { ctx with calls := ctx.calls ++
              [StubCall.GetQueryResult proofSelector, StubCall.GetQueryResult ticketSelector] }),
        (marshalResponse
             { Success := true
               Results := rt2.sortSlice lessByIncrementID
                 ((rt2.mapRange g).filterMap (violationOf arch))
               DeletedRecords := []
               Message := "" },
          { ctx with calls := ctx.calls ++
              [StubCall.GetQueryResult proofSelector, StubCall.GetQueryResult ticketSelector] ++
              [StubCall.GetQueryResult proofSelector, StubCall.GetQueryResult ticketSelector] }),
        _, _, rfl, ?_, rfl, rfl, rfl, rfl, rfl, rfl, rfl, hperm,
        sortSlice_by_id rt1 _, sortSlice_by_id rt2 _,
        marshalResponse_perm _ _ hperm, fun hnd => ?_⟩
      · simp only []
        rw [key rt2, hA]
        simp only []
        rw [hB]
        simp only [hg, finishComparison_eq, hd]
        rfl
      · have := sorted_perm_unique _ _ hperm
          (sortSlice_by_id rt1 _) (sortSlice_by_id rt2 _) hnd
        simp only [] at this ⊢
        rw [this]
        exact ⟨rfl, rfl⟩

/-- C8 (as amended): without deletion a reconcile operation is read-only, and
two calls in a row, whatever order the runtime visits the buckets in, both
return and build responses that agree on the success flag and the message, hold
no deleted keys, and hold violation lists that are sorted by `incrementId` and
are permutations of each other; one call returns the empty string exactly when
the other does, and the two responses, and what the calls return, are identical
whenever no two entries share an `incrementId`. -/
theorem C8_repeatable_up_to_ties (arch : Arch) (rt1 rt2 : Runtime) (ctx : Stub)
    (deleteViolations : String) (hdv : deleteViolations ≠ "true") :
    (∃ (out1 out2 : Reply × Stub) (response1 response2 : ComparisonResponse),
      CompareWeightsByPressIncrement arch rt1 ctx deleteViolations = some out1 ∧
      CompareWeightsByPressIncrement arch rt2 out1.2 deleteViolations = some out2 ∧
      out2.2.world = ctx.world ∧
      out1.1 = marshalResponse response1 ∧ out2.1 = marshalResponse response2 ∧
      response1.Success = response2.Success ∧ response1.Message = response2.Message ∧
      response1.DeletedRecords = [] ∧ response2.DeletedRecords = [] ∧
      response1.Results.Perm response2.Results ∧
      response1.Results.Sorted (fun a b => a.IncrementID ≤ b.IncrementID) ∧
      response2.Results.Sorted (fun a b => a.IncrementID ≤ b.IncrementID) ∧
      (out1.1 = Reply.emptyString ↔ out2.1 = Reply.emptyString) ∧
      ((response1.Results.map (fun r => r.IncrementID)).Nodup →
        response1 = response2 ∧ out1.1 = out2.1)) ∧
    (∃ (out1 out2 : Reply × Stub) (response1 response2 : ComparisonResponse),
      CompareWeightsByStoreIncrement arch rt1 ctx deleteViolations = some out1 ∧
      CompareWeightsByStoreIncrement arch rt2 out1.2 deleteViolations = some out2 ∧
      out2.2.world = ctx.world ∧
      out1.1 = marshalResponse response1 ∧ out2.1 = marshalResponse response2 ∧
      response1.Success = response2.Success ∧ response1.Message = response2.Message ∧
      response1.DeletedRecords = [] ∧ response2.DeletedRecords = [] ∧
      response1.Results.Perm response2.Results ∧
      response1.Results.Sorted (fun a b => a.IncrementID ≤ b.IncrementID) ∧
      response2.Results.Sorted (fun a b => a.IncrementID ≤ b.IncrementID) ∧
      (out1.1 = Reply.emptyString ↔ out2.1 = Reply.emptyString) ∧
      ((response1.Results.map (fun r => r.IncrementID)).Nodup →
        response1 = response2 ∧ out1.1 = out2.1)) := by
  rw [CompareWeightsByPressIncrement_eq, CompareWeightsByStoreIncrement_eq]
  exact ⟨Reconcile_twice _ arch rt1 rt2 ctx deleteViolations hdv,
    Reconcile_twice _ arch rt1 rt2 ctx deleteViolations hdv⟩

/-- Witness of C8 (as amended): two calls on the scenario of the specification,
the second with the buckets visited in the reverse order, return the same
response. -/
theorem C8_repeatable_up_to_ties_witness :
    ∃ (out1 out2 : Reply × Stub),
      CompareWeightsByPressIncrement Arch.amd64 Runtime.inOrder (Stub.healthy sampleWorld) "false"
        = some out1 ∧
      CompareWeightsByPressIncrement Arch.amd64 Runtime.reversed out1.2 "false" = some out2 ∧
      (out1.1 = Reply.emptyString ↔ out2.1 = Reply.emptyString) ∧
      out2.2.world = sampleWorld := by
  obtain ⟨⟨out1, out2, _, _, h1, h2, h3, _, _, _, _, _, _, _, _, _, h4, _⟩, _⟩ :=
    C8_repeatable_up_to_ties Arch.amd64 Runtime.inOrder Runtime.reversed
      (Stub.healthy sampleWorld) "false" (by decide)
  exact ⟨out1, out2, h1, h2, h4, h3⟩

/-- Counterexample to C8 as stated: two buckets of increment values 5.2 and 5.7
are both reported with `incrementId` 5.  A first call that visits the buckets in
order of creation and a second call, on the unchanged store, that visits them
in the reverse order return the two entries in different orders. -/
theorem C8_counterexample :
    (CompareWeightsByPressIncrement Arch.amd64 Runtime.inOrder (Stub.healthy tiedWorld)
        "false").map (fun out => (out.1, out.2.world)) =
      some (Reply.document
        { Success := true
          Results := [⟨5, F64.finite 10, F64.finite 1⟩, ⟨5, F64.finite 20, F64.finite 2⟩]
          DeletedRecords := []
          Message := "" }, tiedWorld) ∧
    ((CompareWeightsByPressIncrement Arch.amd64 Runtime.inOrder (Stub.healthy tiedWorld)
        "false").bind
        (fun out => CompareWeightsByPressIncrement Arch.amd64 Runtime.reversed out.2
          "false")).map (fun out => (out.1, out.2.world)) =
      some (Reply.document
        { Success := true
          Results := [⟨5, F64.finite 20, F64.finite 2⟩, ⟨5, F64.finite 10, F64.finite 1⟩]
          DeletedRecords := []
          Message := "" }, tiedWorld) ∧
    ¬ ∀ (arch : Arch) (rt1 rt2 : Runtime) (ctx : Stub) (out1 out2 : Reply × Stub),
      CompareWeightsByPressIncrement arch rt1 ctx "false" = some out1 →
      CompareWeightsByPressIncrement arch rt2 out1.2 "false" = some out2 →
      out1.1 = out2.1 := by
  have e1 : (CompareWeightsByPressIncrement Arch.amd64 Runtime.inOrder (Stub.healthy tiedWorld)
      "false").map (fun out => (out.1, out.2.world)) =
      some (Reply.document
        { Success := true
          Results := [⟨5, F64.finite 10, F64.finite 1⟩, ⟨5, F64.finite 20, F64.finite 2⟩]
          DeletedRecords := []
          Message := "" }, tiedWorld) := by
    decide!
  have e2 : ((CompareWeightsByPressIncrement Arch.amd64 Runtime.inOrder (Stub.healthy tiedWorld)
      "false").bind
        (fun out => CompareWeightsByPressIncrement Arch.amd64 Runtime.reversed out.2
          "false")).map (fun out => (out.1, out.2.world)) =
      some (Reply.document
        { Success := true
          Results := [⟨5, F64.finite 20, F64.finite 2⟩, ⟨5, F64.finite 10, F64.finite 1⟩]
          DeletedRecords := []
          Message := "" }, tiedWorld) := by
    decide!
  refine ⟨e1, e2, fun hall => ?_⟩
  cases h1 : CompareWeightsByPressIncrement Arch.amd64 Runtime.inOrder (Stub.healthy tiedWorld)
      "false" with
  | none => rw [h1] at e1; cases e1
  | some out1 =>
    rw [h1] at e1 e2
    simp only [Option.map_some', Option.some.injEq, Prod.mk.injEq, Option.some_bind] at e1 e2
    cases h2 : CompareWeightsByPressIncrement Arch.amd64 Runtime.reversed out1.2 "false" with
    | none => rw [h2] at e2; cases e2
    | some out2 =>
      rw [h2] at e2
      simp only [Option.map_some', Option.some.injEq, Prod.mk.injEq] at e2
      have := hall Arch.amd64 Runtime.inOrder Runtime.reversed (Stub.healthy tiedWorld)
        out1 out2 h1 h2
      rw [e1.1, e2.1] at this
      exact absurd this (by decide)

theorem swapName_swapName (n : String) : swapName (swapName n) = n := by
  unfold swapName
  by_cases h1 : n = "store_increment"
  · subst h1; decide
  · by_cases h2 : n = "press_increment"
    · subst h2; decide
    · simp [h1, h2]

theorem getField_swap (fields : List (String × JVal)) (n : String) :
    getField (fields.map (fun f => (swapName f.1, f.2))) n = getField fields (swapName n) := by
  unfold getField
  induction fields with
  | nil => rfl
  | cons f t ih =>
    obtain ⟨a, v⟩ := f
    rw [List.map_cons, List.lookup_cons, List.lookup_cons, ih]
    have : (n == swapName a) = (swapName n == a) := by
      by_cases h : n = swapName a
      · have h' : swapName n = a := by rw [h, swapName_swapName]
        simp [h, swapName_swapName]
      · have h' : ¬ swapName n = a := by
          intro hh; apply h; rw [← hh, swapName_swapName]
        simp [h, h']
    rw [this]

theorem matchesSelector_docType_swap (t : String) (v : JVal) :
    matchesSelector [("docType", JVal.str t)] (swapIncrementFields v) =
      matchesSelector [("docType", JVal.str t)] v := by
  cases v with
  | obj fields =>
    simp only [swapIncrementFields]
    by_cases hp : matchesSelector proofSelector (JVal.obj fields) = true
    · rw [if_pos hp]
      simp only [matchesSelector, List.all_cons, List.all_nil, Bool.and_true, getField_swap]
      have : swapName "docType" = "docType" := by decide
      rw [this]
    · rw [if_neg hp]
  | null => rfl
  | bool b => rfl
  | num q => rfl
  | str s => rfl
  | arr a => rfl

theorem scan_swapWorld (t : String) (world : List (String × JVal)) :
    scan (swapWorld world) [("docType", JVal.str t)] =
      (scan world [("docType", JVal.str t)]).map (fun kv => (kv.1, swapIncrementFields kv.2)) := by
  unfold scan swapWorld
  rw [List.filter_map]
  congr 1
  apply List.filter_congr
  intro kv _
  simp [matchesSelector_docType_swap]

theorem swapIncrementFields_ticket (v : JVal)
    (h : matchesSelector ticketSelector v = true) : swapIncrementFields v = v := by
  cases v with
  | obj fields =>
    simp only [swapIncrementFields]
    by_cases hp : matchesSelector proofSelector (JVal.obj fields) = true
    · exact absurd (selectors_disjoint _ hp h) id
    · rw [if_neg hp]
  | null => rfl
  | bool b => rfl
  | num q => rfl
  | str s => rfl
  | arr a => rfl

theorem scan_swapWorld_ticket (world : List (String × JVal)) :
    scan (swapWorld world) ticketSelector = scan world ticketSelector := by
  have h := scan_swapWorld "ticket" world
  simp only [ticketSelector] at *
  rw [h]
  conv_rhs => rw [← List.map_id (scan world [("docType", JVal.str "ticket")])]
  apply List.map_congr_left
  intro kv hkv
  have hm : matchesSelector ticketSelector kv.2 = true := by
    unfold scan at hkv
    exact (List.mem_filter.1 hkv).2
  rw [swapIncrementFields_ticket kv.2 hm]
  rfl

theorem proofStepOn_swap (g : Groups) (kv : String × JVal)
    (h : matchesSelector proofSelector kv.2 = true) :
    proofStepOn "press_increment" g (kv.1, swapIncrementFields kv.2) =
      proofStepOn "store_increment" g kv := by
  obtain ⟨key, v⟩ := kv
  cases v with
  | obj fields =>
    simp only at h
    simp only [swapIncrementFields, h, if_true]
    rw [proofStepOn_obj, proofStepOn_obj]
    simp only [numericPair, getField_swap]
    have h1 : swapName "press_increment" = "store_increment" := by decide
    have h2 : swapName "chained_weight" = "chained_weight" := by decide
    rw [h1, h2]
  | null => simp [matchesSelector] at h
  | bool b => simp [matchesSelector] at h
  | num q => simp [matchesSelector] at h
  | str s => simp [matchesSelector] at h
  | arr a => simp [matchesSelector] at h

theorem foldlM_proofStepOn_swap (items : List (String × JVal))
    (h : ∀ kv ∈ items, matchesSelector proofSelector kv.2 = true) (g : Groups) :
    (items.map (fun kv => (kv.1, swapIncrementFields kv.2))).foldlM
        (proofStepOn "press_increment") g =
      items.foldlM (proofStepOn "store_increment") g := by
  induction items generalizing g with
  | nil => rfl
  | cons kv t ih =>
    rw [List.map_cons, List.foldlM_cons, List.foldlM_cons,
      proofStepOn_swap g kv (h kv (List.mem_cons_self _ _))]
    cases proofStepOn "store_increment" g kv with
    | none => rfl
    | some g1 =>
      exact ih (fun kv hkv => h kv (List.mem_cons_of_mem _ hkv)) g1

theorem bucketsOf_swapWorld (world : List (String × JVal)) :
    bucketsOf "press_increment" (swapWorld world) = bucketsOf "store_increment" world := by
  unfold bucketsOf
  rw [scan_swapWorld_ticket]
  have h := scan_swapWorld "proofRecord" world
  simp only [proofSelector] at *
  rw [h, foldlM_proofStepOn_swap]
  intro kv hkv
  unfold scan at hkv
  exact (List.mem_filter.1 hkv).2
theorem bulkRead_eq (ctx : Stub) (sel : Selector) :
    bulkRead ctx sel =
      match ctx.queryFault sel with
      | QueryFault.none => Except.ok (scan ctx.world sel)
      | QueryFault.onOpen err => Except.error err
      | QueryFault.onNext n err =>
        if n < (scan ctx.world sel).length then Except.error err
        else Except.ok (scan ctx.world sel) := by
  unfold bulkRead Stub.GetQueryResult scan
  simp only []
  cases ctx.queryFault sel with
  | none => simp only [getAllResults_map_ok]
  | onOpen err => rfl
  | onNext n err =>
    simp only []
    by_cases hn : n < (List.filter (fun kv => matchesSelector sel kv.2) ctx.world).length
    · rw [if_pos hn, if_pos hn]
      simp only [getAllResults_map_ok_error]
    · rw [if_neg hn, if_neg hn]
      simp only [getAllResults_map_ok]

theorem bulkRead_swapWorld (ctx : Stub) (t : String) :
    bulkRead { ctx with world := swapWorld ctx.world } [("docType", JVal.str t)] =
      match bulkRead ctx [("docType", JVal.str t)] with
      | Except.ok items =>
        Except.ok (items.map (fun kv => (kv.1, swapIncrementFields kv.2)))
      | Except.error err => Except.error err := by
  rw [bulkRead_eq, bulkRead_eq]
  simp only [scan_swapWorld, List.length_map]
  cases ctx.queryFault [("docType", JVal.str t)] with
  | none => rfl
  | onOpen err => rfl
  | onNext n err =>
    simp only []
    by_cases hn : n < (scan ctx.world [("docType", JVal.str t)]).length
    · simp only [if_pos hn]
    · simp only [if_neg hn]

theorem swapWorld_applyDeletes (ctx : Stub) (keys : List String) :
    (applyDeletes { ctx with world := swapWorld ctx.world } keys).world =
      swapWorld (applyDeletes ctx keys).world := by
  simp only [applyDeletes, swapWorld]
  rw [List.filter_map]
  rfl

theorem Reconcile_swap (arch : Arch) (rt : Runtime) (ctx : Stub) (dv : String) :
    (Reconcile "store_increment" arch rt ctx dv).map
        (fun out => (out.1, out.2.calls, swapWorld out.2.world)) =
      (Reconcile "press_increment" arch rt { ctx with world := swapWorld ctx.world } dv).map
        (fun out => (out.1, out.2.calls, out.2.world)) := by
  rw [Reconcile_cases, Reconcile_cases]
  have hP := bulkRead_swapWorld ctx "proofRecord"
  have hT := bulkRead_swapWorld ctx "ticket"
  simp only [proofSelector, ticketSelector] at *
  rw [hP, hT]
  cases bulkRead ctx [("docType", JVal.str "proofRecord")] with
  | error e => rfl
  | ok a =>
    cases bulkRead ctx [("docType", JVal.str "ticket")] with
    | error e => rfl
    | ok b =>
      simp only []
      rw [bucketsOf_swapWorld]
      cases bucketsOf "store_increment" ctx.world with
      | none => rfl
      | some g =>
        simp only [Option.map_some', finishComparison_eq]
        cases decide (dv = "true")
        · rfl
        · simp only [if_true, Option.some.injEq, Prod.mk.injEq, true_and]
          exact ⟨rfl, (swapWorld_applyDeletes _ _).symm⟩

/-- C9: the two reconcile operations are one algorithm parameterised by the
proof-record field that supplies the increment key: each is `Reconcile` at its
field, and `CompareWeightsByStoreIncrement` on a store returns the same text
(the same success flag, results, deleted keys and message) and issues the same calls, hence
the same deletes, as `CompareWeightsByPressIncrement` on the store in which
`store_increment` and `press_increment` are exchanged in every proof record;
the final world states correspond under the same exchange.  Neither call
panics. -/
theorem C9_press_store_same_algorithm (arch : Arch) (rt : Runtime) (ctx : Stub)
    (deleteViolations : String) :
    CompareWeightsByPressIncrement = Reconcile "press_increment" ∧
    CompareWeightsByStoreIncrement = Reconcile "store_increment" ∧
    (∃ out, CompareWeightsByStoreIncrement arch rt ctx deleteViolations = some out) ∧
    (CompareWeightsByStoreIncrement arch rt ctx deleteViolations).map
        (fun out => (out.1, out.2.calls, swapWorld out.2.world)) =
      (CompareWeightsByPressIncrement arch rt { ctx with world := swapWorld ctx.world }
        deleteViolations).map (fun out => (out.1, out.2.calls, out.2.world)) :=
  ⟨CompareWeightsByPressIncrement_eq, CompareWeightsByStoreIncrement_eq,
    by rw [CompareWeightsByStoreIncrement_eq]; exact Reconcile_total _ arch rt ctx deleteViolations,
    by
      rw [CompareWeightsByPressIncrement_eq, CompareWeightsByStoreIncrement_eq]
      exact Reconcile_swap arch rt ctx deleteViolations⟩

/-! ### Ingestion and the typed response -/

theorem all_present_iff (record : List (String × JVal)) (fields : List String) :
    (fields.all (fun field =>
      match getField record field with
      | some value => decide (value ≠ JVal.null)
      | none => false)) = true ↔
    ∀ field ∈ fields, ∃ value, getField record field = some value ∧ value ≠ JVal.null := by
  rw [List.all_eq_true]
  constructor
  · intro h field hf
    have := h field hf
    cases hg : getField record field with
    | none => rw [hg] at this; cases this
    | some value =>
      rw [hg] at this
      exact ⟨value, rfl, by simpa using this⟩
  · intro h field hf
    obtain ⟨value, hv, hne⟩ := h field hf
    rw [hv]
    simpa using hne

theorem validateRecord_iff (record : List (String × JVal)) :
    validateRecord record = true ↔
      ∀ field ∈ requiredRecordFields, ∃ value,
        getField record field = some value ∧ value ≠ JVal.null :=
  all_present_iff record requiredRecordFields

theorem validateTicket_iff (ticket : List (String × JVal)) :
    validateTicket ticket = true ↔
      ∀ field ∈ requiredTicketFields, ∃ value,
        getField ticket field = some value ∧ value ≠ JVal.null :=
  all_present_iff ticket requiredTicketFields

theorem not_all_present (record : List (String × JVal)) (fields : List String)
    (h : ∃ field ∈ fields,
      getField record field = none ∨ getField record field = some JVal.null) :
    ¬ ∀ field ∈ fields, ∃ value, getField record field = some value ∧ value ≠ JVal.null := by
  intro hall
  obtain ⟨field, hf, hmiss⟩ := h
  obtain ⟨value, hv, hne⟩ := hall field hf
  rcases hmiss with h1 | h1
  · rw [h1] at hv; cases hv
  · rw [h1] at hv
    simp only [Option.some.injEq] at hv
    exact hne hv.symm

/-- C10: `validateRecord` (resp. `validateTicket`) returns true exactly when
every one of the 8 (resp. 3) required fields is present with a non-null value.
For a payload in which a required field is absent or null, `CreateProofRecord`
(resp. `CreateTicket`) returns the failure response with the "Missing required
fields" message and leaves the stub as it was: no call is issued on it (no
query, no write) and the world state is unchanged. -/
theorem C10_missing_required_fields (env : Env) (ctx : Stub)
    (record ticket : List (String × JVal)) :
    (validateRecord record = true ↔
      ∀ field ∈ ["sponsor_id", "proof_short_id", "collector_name", "bulk_name",
          "parent_increment", "chained_weight", "traceChainType", "bulk_short_id"],
        ∃ value, getField record field = some value ∧ value ≠ JVal.null) ∧
    (validateTicket ticket = true ↔
      ∀ field ∈ ["id", "receivedWeight", "incrementId"],
        ∃ value, getField ticket field = some value ∧ value ≠ JVal.null) ∧
    ((∃ field ∈ ["sponsor_id", "proof_short_id", "collector_name", "bulk_name",
          "parent_increment", "chained_weight", "traceChainType", "bulk_short_id"],
        getField record field = none ∨ getField record field = some JVal.null) →
      CreateProofRecord env ctx (Payload.object record) =
        ({ Success := false
           Message := "Error creating proof record: Invalid record data. Missing required fields."
           RecordID := "", Record := none, DuplicateFields := [], ExistingRecords := [] },
         ctx) ∧
      (CreateProofRecord env ctx (Payload.object record)).2.calls = ctx.calls ∧
      (CreateProofRecord env ctx (Payload.object record)).2.world = ctx.world) ∧
    ((∃ field ∈ ["id", "receivedWeight", "incrementId"],
        getField ticket field = none ∨ getField ticket field = some JVal.null) →
      CreateTicket env ctx (Payload.object ticket) =
        some ({ Success := false
                Message := "Error creating ticket: Invalid ticket data. Missing required fields."
                TicketKey := "", Ticket := none, DuplicateFields := [], ExistingTickets := [] },
              ctx)) := by
  refine ⟨validateRecord_iff record, validateTicket_iff ticket, fun h => ?_, fun h => ?_⟩
  · have hv : validateRecord record = false := by
      cases hb : validateRecord record with
      | false => rfl
      | true => exact absurd ((validateRecord_iff record).1 hb) (not_all_present record _ h)
    have he : CreateProofRecord env ctx (Payload.object record) =
        (proofRecordFailure
          "Error creating proof record: Invalid record data. Missing required fields.", ctx) := by
      simp only [CreateProofRecord, hv, Bool.not_false, if_true]
    rw [he]
    exact ⟨rfl, rfl, rfl⟩
  · have hv : validateTicket ticket = false := by
      cases hb : validateTicket ticket with
      | false => rfl
      | true => exact absurd ((validateTicket_iff ticket).1 hb) (not_all_present ticket _ h)
    simp only [CreateTicket, hv, Bool.not_false, if_true]
    rfl

/-- Witness of C10: a proof record whose `proof_short_id` is null and a ticket
without `incrementId` are both refused, on a stub that is left untouched. -/
theorem C10_missing_required_fields_witness :
    CreateProofRecord Env.sample (Stub.healthy sampleWorld)
        (Payload.object [("sponsor_id", JVal.str "s"), ("proof_short_id", JVal.null),
          ("collector_name", JVal.str "c"), ("bulk_name", JVal.str "b"),
          ("parent_increment", JVal.num 1), ("chained_weight", JVal.num 2),
          ("traceChainType", JVal.str "t"), ("bulk_short_id", JVal.str "b")]) =
      ({ Success := false
         Message := "Error creating proof record: Invalid record data. Missing required fields."
         RecordID := "", Record := none, DuplicateFields := [], ExistingRecords := [] },
       Stub.healthy sampleWorld) ∧
    CreateTicket Env.sample (Stub.healthy sampleWorld)
        (Payload.object [("id", JVal.str "T9"), ("receivedWeight", JVal.num 3)]) =
      some ({ Success := false
              Message := "Error creating ticket: Invalid ticket data. Missing required fields."
              TicketKey := "", Ticket := none, DuplicateFields := [], ExistingTickets := [] },
            Stub.healthy sampleWorld) :=
  ⟨((C10_missing_required_fields Env.sample (Stub.healthy sampleWorld)
      [("sponsor_id", JVal.str "s"), ("proof_short_id", JVal.null),
        ("collector_name", JVal.str "c"), ("bulk_name", JVal.str "b"),
        ("parent_increment", JVal.num 1), ("chained_weight", JVal.num 2),
        ("traceChainType", JVal.str "t"), ("bulk_short_id", JVal.str "b")]
      [("id", JVal.str "T9"), ("receivedWeight", JVal.num 3)]).2.2.1
      ⟨"proof_short_id", by decide, Or.inr (by decide)⟩).1,
   (C10_missing_required_fields Env.sample (Stub.healthy sampleWorld)
      [("sponsor_id", JVal.str "s"), ("proof_short_id", JVal.null),
        ("collector_name", JVal.str "c"), ("bulk_name", JVal.str "b"),
        ("parent_increment", JVal.num 1), ("chained_weight", JVal.num 2),
        ("traceChainType", JVal.str "t"), ("bulk_short_id", JVal.str "b")]
      [("id", JVal.str "T9"), ("receivedWeight", JVal.num 3)]).2.2.2
      ⟨"incrementId", by decide, Or.inl (by decide)⟩⟩
theorem queryAnswer_calls (ctx : Stub) (calls : List StubCall) (sel : Selector) :
    queryAnswer { ctx with calls := calls } sel = queryAnswer ctx sel := rfl

theorem findDuplicatesByFields_eq (ctx : Stub) (record : List (String × JVal))
    (fields : List String) :
    findDuplicatesByFields ctx record fields =
      (Except.ok { IsDuplicate := decide ((queryAnswer ctx (groupSelector record fields)).length > 0)
                   DuplicateFields := []
                   ExistingRecords := queryAnswer ctx (groupSelector record fields) },
       { ctx with calls := ctx.calls ++
           [StubCall.GetQueryResult (groupSelector record fields)] }) := by
  unfold findDuplicatesByFields queryAnswer bulkRead groupSelector
  rw [GetQueryResult_eta]
  cases h1 : (ctx.GetQueryResult (marshalSelector (buildSelector "proofRecord" record fields))).1 with
  | error e => rfl
  | ok it =>
    simp only []
    have h2 : (∃ e, getAllResults it = Except.error e) ∨ ∃ l, getAllResults it = Except.ok l := by
      cases getAllResults it with
      | error e => exact Or.inl ⟨e, rfl⟩
      | ok l => exact Or.inr ⟨l, rfl⟩
    rcases h2 with ⟨e, h2⟩ | ⟨l, h2⟩
    · simp only [h2]
      rfl
    · simp only [h2]

theorem findTicketDuplicatesByFields_eq (ctx : Stub) (ticket : List (String × JVal))
    (fields : List String) :
    findTicketDuplicatesByFields ctx ticket fields =
      (Except.ok { IsDuplicate := decide ((queryAnswer ctx
                     (marshalSelector (buildSelector "ticket" ticket fields))).length > 0)
                   DuplicateFields := []
                   ExistingRecords := queryAnswer ctx
                     (marshalSelector (buildSelector "ticket" ticket fields)) },
       { ctx with calls := ctx.calls ++
           [StubCall.GetQueryResult (marshalSelector (buildSelector "ticket" ticket fields))] }) := by
  unfold findTicketDuplicatesByFields queryAnswer bulkRead
  rw [GetQueryResult_eta]
  cases h1 : (ctx.GetQueryResult (marshalSelector (buildSelector "ticket" ticket fields))).1 with
  | error e => rfl
  | ok it =>
    simp only []
    have h2 : (∃ e, getAllResults it = Except.error e) ∨ ∃ l, getAllResults it = Except.ok l := by
      cases getAllResults it with
      | error e => exact Or.inl ⟨e, rfl⟩
      | ok l => exact Or.inr ⟨l, rfl⟩
    rcases h2 with ⟨e, h2⟩ | ⟨l, h2⟩
    · simp only [h2]
      rfl
    · simp only [h2]
theorem checkConditions_none (ctx : Stub) (record : List (String × JVal))
    (conds : List (Bool × List String)) (c : List StubCall)
    (h : ∀ g ∈ (conds.filter (fun x => x.1)).map (fun x => x.2),
      queryAnswer ctx (groupSelector record g) = []) :
    checkConditions { ctx with calls := c } record conds =
      (Except.ok { IsDuplicate := false, DuplicateFields := [], ExistingRecords := [] },
       { ctx with
         calls := c ++ List.map (fun g => StubCall.GetQueryResult (groupSelector record g))
                    ((conds.filter (fun x => x.1)).map (fun x => x.2)) }) := by
  induction conds generalizing c with
  | nil => simp [checkConditions]
  | cons x rest ih =>
    obtain ⟨b, fields⟩ := x
    cases b with
    | false =>
      simp only [checkConditions, Bool.false_eq_true, if_false, List.filter_cons]
      exact ih c (by simpa [List.filter_cons] using h)
    | true =>
      have h0 : queryAnswer ctx (groupSelector record fields) = [] :=
        h fields (by simp [List.filter_cons])
      have hrest : ∀ g ∈ (rest.filter (fun x => x.1)).map (fun x => x.2),
          queryAnswer ctx (groupSelector record g) = [] := by
        intro g hg
        exact h g (by simp only [List.filter_cons, if_true, List.map_cons, List.mem_cons]
                      exact Or.inr hg)
      simp only [checkConditions, if_true, findDuplicatesByFields_eq, queryAnswer_calls, h0,
        List.length_nil, gt_iff_lt, lt_self_iff_false, decide_False, Bool.false_eq_true,
        if_false, List.filter_cons, List.map_cons]
      rw [ih _ hrest]
      simp

theorem checkConditions_hit (ctx : Stub) (record : List (String × JVal))
    (conds : List (Bool × List String)) (c : List StubCall)
    (pre : List (List String)) (g : List String) (post : List (List String))
    (hsplit : (conds.filter (fun x => x.1)).map (fun x => x.2) = pre ++ g :: post)
    (hpre : ∀ x ∈ pre, queryAnswer ctx (groupSelector record x) = [])
    (hg : queryAnswer ctx (groupSelector record g) ≠ []) :
    checkConditions { ctx with calls := c } record conds =
      (Except.ok { IsDuplicate := true, DuplicateFields := g,
                   ExistingRecords := queryAnswer ctx (groupSelector record g) },
       { ctx with
         calls := c ++ List.map (fun g => StubCall.GetQueryResult (groupSelector record g))
                    (pre ++ [g]) }) := by
  induction conds generalizing c pre with
  | nil => simp at hsplit
  | cons x rest ih =>
    obtain ⟨b, fields⟩ := x
    cases b with
    | false =>
      simp only [checkConditions, Bool.false_eq_true, if_false]
      exact ih c pre (by simpa [List.filter_cons] using hsplit) hpre
    | true =>
      simp only [List.filter_cons, if_true, List.map_cons] at hsplit
      cases pre with
      | nil =>
        simp only [List.nil_append, List.cons.injEq] at hsplit
        obtain ⟨hf, _⟩ := hsplit
        subst hf
        have hlen : decide ((queryAnswer ctx (groupSelector record fields)).length > 0) = true := by
          simpa [List.length_pos] using hg
        simp only [checkConditions, if_true, findDuplicatesByFields_eq, queryAnswer_calls, hlen]
        simp
      | cons p pre' =>
        simp only [List.cons_append, List.cons.injEq] at hsplit
        obtain ⟨hf, hrest⟩ := hsplit
        subst hf
        have h0 : queryAnswer ctx (groupSelector record fields) = [] :=
          hpre fields (List.mem_cons_self _ _)
        simp only [checkConditions, if_true, findDuplicatesByFields_eq, queryAnswer_calls, h0,
          List.length_nil, gt_iff_lt, lt_self_iff_false, decide_False, Bool.false_eq_true,
          if_false]
        rw [ih _ pre' hrest (fun x hx => hpre x (List.mem_cons_of_mem _ hx))]
        simp

theorem checkForDuplicates_eq (ctx : Stub) (record : List (String × JVal)) :
    checkForDuplicates ctx record =
      checkConditions ctx record
        [(hasValue record "store_increment",
            ["store_increment", "press_increment", "parent_increment"]),
         (!hasValue record "store_increment", ["press_increment", "parent_increment"]),
         (!hasValue record "press_increment", ["parent_increment", "store_increment"]),
         (!hasValue record "press_increment" && !hasValue record "store_increment",
            ["parent_increment"])] := by
  unfold checkForDuplicates hasValue
  cases getField record "store_increment" with
  | none => cases getField record "press_increment" with
    | none => rfl
    | some p => by_cases hp : p = JVal.null <;> simp [hp]
  | some s => cases getField record "press_increment" with
    | none => by_cases hs : s = JVal.null <;> simp [hs]
    | some p => by_cases hs : s = JVal.null <;> by_cases hp : p = JVal.null <;> simp [hs, hp]

theorem eligibleGroups_eq (record : List (String × JVal)) :
    ([(hasValue record "store_increment",
            ["store_increment", "press_increment", "parent_increment"]),
         (!hasValue record "store_increment", ["press_increment", "parent_increment"]),
         (!hasValue record "press_increment", ["parent_increment", "store_increment"]),
         (!hasValue record "press_increment" && !hasValue record "store_increment",
            ["parent_increment"])].filter (fun x => x.1)).map (fun x => x.2) =
      eligibleGroups record := by
  unfold eligibleGroups
  cases hasValue record "store_increment" <;> cases hasValue record "press_increment" <;> rfl

theorem lookup_isSome_iff (m : List (String × JVal)) (f : String) :
    (m.lookup f).isSome = true ↔ ∃ e ∈ m, e.1 = f := by
  induction m with
  | nil => simp
  | cons a t ih =>
    obtain ⟨k, v⟩ := a
    rw [List.lookup_cons]
    by_cases h : f = k
    · subst h; simp
    · have h' : (f == k) = false := by simpa using h
      rw [h']
      simp only [ih, List.mem_cons, exists_eq_or_imp]
      constructor
      · intro hx; exact Or.inr hx
      · rintro (hx | hx)
        · exact absurd hx.symm h
        · exact hx

theorem mem_setField (m : List (String × JVal)) (f : String) (val : JVal)
    (e : String × JVal) :
    e ∈ setField m f val ↔ e = (f, val) ∨ (e ∈ m ∧ e.1 ≠ f) := by
  unfold setField
  by_cases h : (m.lookup f).isSome = true
  · rw [if_pos h]
    obtain ⟨x, hx, hxf⟩ := (lookup_isSome_iff m f).1 h
    rw [List.mem_map]
    constructor
    · rintro ⟨a, ha, rfl⟩
      by_cases hk : a.1 = f
      · left; simp [hk]
      · right; simp [hk, ha]
    · rintro (he | ⟨he, hne⟩)
      · exact ⟨x, hx, by simp [hxf, he]⟩
      · exact ⟨e, he, by simp [hne]⟩
  · rw [if_neg h]
    have hno : ∀ a ∈ m, a.1 ≠ f := by
      intro a ha hk
      exact h ((lookup_isSome_iff m f).2 ⟨a, ha, hk⟩)
    simp only [List.mem_append, List.mem_singleton]
    constructor
    · rintro (he | he)
      · exact Or.inr ⟨he, hno e he⟩
      · exact Or.inl he
    · rintro (he | ⟨he, _⟩)
      · exact Or.inr he
      · exact Or.inl he

theorem mem_buildSelector_fold (record : List (String × JVal)) (fields : List String)
    (sel : Selector) (e : String × JVal) :
    e ∈ fields.foldl (fun selector field =>
        match getField record field with
        | some value => if value = JVal.null then selector else setField selector field value
        | none => selector) sel ↔
      (e.1 ∈ fields ∧ getField record e.1 = some e.2 ∧ e.2 ≠ JVal.null) ∨
      (e ∈ sel ∧ ¬ (e.1 ∈ fields ∧ hasValue record e.1 = true)) := by
  induction fields generalizing sel with
  | nil => simp
  | cons f rest ih =>
    rw [List.foldl_cons, ih]
    have hv : ∀ k, hasValue record k = true ↔
        ∃ val, getField record k = some val ∧ val ≠ JVal.null := by
      intro k
      unfold hasValue
      cases getField record k <;> simp
    cases hf : getField record f with
    | none =>
      have hnot : ¬ hasValue record f = true := by
        rw [hv]; rintro ⟨val, h1, _⟩; rw [hf] at h1; cases h1
      simp only [List.mem_cons]
      constructor
      · rintro (⟨h1, h2, h3⟩ | ⟨h1, h2⟩)
        · exact Or.inl ⟨Or.inr h1, h2, h3⟩
        · refine Or.inr ⟨h1, ?_⟩
          rintro ⟨h3 | h3, h4⟩
          · rw [h3] at h4; exact hnot h4
          · exact h2 ⟨h3, h4⟩
      · rintro (⟨h1 | h1, h2, h3⟩ | ⟨h1, h2⟩)
        · rw [h1, hf] at h2; cases h2
        · exact Or.inl ⟨h1, h2, h3⟩
        · exact Or.inr ⟨h1, fun h => h2 ⟨Or.inr h.1, h.2⟩⟩
    | some val =>
      by_cases hnull : val = JVal.null
      · have hnot : ¬ hasValue record f = true := by
          rw [hv]; rintro ⟨val', h1, h2⟩; rw [hf] at h1
          simp only [Option.some.injEq] at h1
          exact h2 (h1 ▸ hnull)
        simp only [hnull, if_true, List.mem_cons]
        constructor
        · rintro (⟨h1, h2, h3⟩ | ⟨h1, h2⟩)
          · exact Or.inl ⟨Or.inr h1, h2, h3⟩
          · refine Or.inr ⟨h1, ?_⟩
            rintro ⟨h3 | h3, h4⟩
            · rw [h3] at h4; exact hnot h4
            · exact h2 ⟨h3, h4⟩
        · rintro (⟨h1 | h1, h2, h3⟩ | ⟨h1, h2⟩)
          · rw [h1, hf] at h2
            simp only [Option.some.injEq] at h2
            exact absurd (h2 ▸ hnull) h3
          · exact Or.inl ⟨h1, h2, h3⟩
          · exact Or.inr ⟨h1, fun h => h2 ⟨Or.inr h.1, h.2⟩⟩
      · have hyes : hasValue record f = true := (hv f).2 ⟨val, hf, hnull⟩
        simp only [hnull, if_false, mem_setField, List.mem_cons]
        constructor
        · rintro (⟨h1, h2, h3⟩ | ⟨h1 | ⟨h1, h1'⟩, h2⟩)
          · exact Or.inl ⟨Or.inr h1, h2, h3⟩
          · by_cases hin : e.1 ∈ rest ∧ hasValue record e.1 = true
            · exact absurd hin h2
            · left
              rw [h1]
              exact ⟨Or.inl rfl, hf, hnull⟩
          · refine Or.inr ⟨h1, ?_⟩
            rintro ⟨h3 | h3, h4⟩
            · exact h1' h3
            · exact h2 ⟨h3, h4⟩
        · rintro (⟨h1 | h1, h2, h3⟩ | ⟨h1, h2⟩)
          · by_cases hin : e.1 ∈ rest
            · exact Or.inl ⟨hin, h2, h3⟩
            · refine Or.inr ⟨Or.inl ?_, fun h => hin h.1⟩
              rw [h1, hf] at h2
              simp only [Option.some.injEq] at h2
              exact Prod.ext h1 h2.symm
          · exact Or.inl ⟨h1, h2, h3⟩
          · refine Or.inr ⟨Or.inr ⟨h1, ?_⟩, fun h => h2 ⟨Or.inr h.1, h.2⟩⟩
            intro hk
            exact h2 ⟨Or.inl hk, hk ▸ hyes⟩

theorem matchesSelector_iff (sel : Selector) (v : JVal) :
    matchesSelector sel v = true ↔
      ∃ flds, v = JVal.obj flds ∧ ∀ e ∈ sel, getField flds e.1 = some e.2 := by
  cases v with
  | obj flds => simp [matchesSelector, List.all_eq_true]
  | null => simp [matchesSelector]
  | bool b => simp [matchesSelector]
  | num q => simp [matchesSelector]
  | str s => simp [matchesSelector]
  | arr a => simp [matchesSelector]

theorem matchesSelector_marshal (sel : Selector) (v : JVal) :
    matchesSelector (marshalSelector sel) v = matchesSelector sel v := by
  have hp : (marshalSelector sel).Perm sel := List.perm_insertionSort _ sel
  have h : matchesSelector (marshalSelector sel) v = true ↔ matchesSelector sel v = true := by
    rw [matchesSelector_iff, matchesSelector_iff]
    constructor
    · rintro ⟨flds, hv, hall⟩
      exact ⟨flds, hv, fun e he => hall e (hp.mem_iff.2 he)⟩
    · rintro ⟨flds, hv, hall⟩
      exact ⟨flds, hv, fun e he => hall e (hp.mem_iff.1 he)⟩
  cases h1 : matchesSelector (marshalSelector sel) v <;>
    cases h2 : matchesSelector sel v <;> simp_all

theorem matches_groupSelector (docType : String) (record : List (String × JVal))
    (fields : List String) (hdoc : "docType" ∉ fields) (v : JVal) :
    matchesSelector (marshalSelector (buildSelector docType record fields)) v = true ↔
      ∃ flds, v = JVal.obj flds ∧ getField flds "docType" = some (JVal.str docType) ∧
        ∀ f ∈ fields, ∀ val, getField record f = some val → val ≠ JVal.null →
          getField flds f = some val := by
  rw [matchesSelector_marshal, matchesSelector_iff]
  unfold buildSelector
  constructor
  · rintro ⟨flds, hv, hall⟩
    refine ⟨flds, hv, ?_, fun f hf val h1 h2 => ?_⟩
    · exact hall ("docType", JVal.str docType)
        ((mem_buildSelector_fold record fields _ _).2
          (Or.inr ⟨List.mem_singleton.2 rfl, fun h => hdoc h.1⟩))
    · exact hall (f, val) ((mem_buildSelector_fold record fields _ _).2 (Or.inl ⟨hf, h1, h2⟩))
  · rintro ⟨flds, hv, hdocv, hall⟩
    refine ⟨flds, hv, fun e he => ?_⟩
    rcases (mem_buildSelector_fold record fields _ e).1 he with ⟨h1, h2, h3⟩ | ⟨h1, _⟩
    · exact hall e.1 h1 e.2 h2 h3
    · rw [List.mem_singleton] at h1
      rw [h1]
      exact hdocv

theorem first_hit_split {α : Type} (P : α → Prop) (G : List α) :
    (∀ g ∈ G, P g) ∨
    ∃ pre g post, G = pre ++ g :: post ∧ (∀ x ∈ pre, P x) ∧ ¬ P g := by
  induction G with
  | nil => left; simp
  | cons a t ih =>
    by_cases ha : P a
    · rcases ih with h | ⟨pre, g, post, h1, h2, h3⟩
      · left
        intro g hg
        rcases List.mem_cons.1 hg with h' | h'
        · rw [h']; exact ha
        · exact h g h'
      · right
        refine ⟨a :: pre, g, post, by rw [h1]; rfl, ?_, h3⟩
        intro x hx
        rcases List.mem_cons.1 hx with h' | h'
        · rw [h']; exact ha
        · exact h2 x h'
    · right
      exact ⟨[], a, t, rfl, by simp, ha⟩

theorem queryAnswer_of_ok (ctx : Stub) (sel : Selector) (items : List (String × JVal))
    (h : bulkRead ctx sel = Except.ok items) : queryAnswer ctx sel = scan ctx.world sel := by
  unfold queryAnswer
  rw [h]
  exact (bulkRead_ok ctx sel items h).1

theorem queryAnswer_of_error (ctx : Stub) (sel : Selector) (err : String)
    (h : bulkRead ctx sel = Except.error err) : queryAnswer ctx sel = [] := by
  unfold queryAnswer
  rw [h]

theorem docType_not_in_group (record : List (String × JVal)) :
    ∀ g ∈ eligibleGroups record, "docType" ∉ g := by
  intro g hg
  have hall : g ∈ [["store_increment", "press_increment", "parent_increment"],
      ["press_increment", "parent_increment"], ["parent_increment", "store_increment"],
      ["parent_increment"]] := by
    cases h1 : hasValue record "store_increment" <;>
      cases h2 : hasValue record "press_increment" <;>
      simp [eligibleGroups, h1, h2] at hg <;>
      simp only [List.mem_cons, List.mem_singleton, List.not_mem_nil, or_false] <;> tauto
  simp only [List.mem_cons, List.mem_singleton, List.not_mem_nil, or_false] at hall
  rcases hall with h | h | h | h <;> subst h <;> decide

theorem checkForDuplicates_spec (ctx : Stub) (record : List (String × JVal)) :
    ∃ res ctx', checkForDuplicates ctx record = (Except.ok res, ctx') ∧
      ctx'.world = ctx.world ∧
      ((∀ g ∈ eligibleGroups record, queryAnswer ctx (groupSelector record g) = []) →
        res = { IsDuplicate := false, DuplicateFields := [], ExistingRecords := [] } ∧
        ctx'.calls = ctx.calls ++ (eligibleGroups record).map
          (fun g => StubCall.GetQueryResult (groupSelector record g))) ∧
      (∀ pre g post, eligibleGroups record = pre ++ g :: post →
        (∀ x ∈ pre, queryAnswer ctx (groupSelector record x) = []) →
        queryAnswer ctx (groupSelector record g) ≠ [] →
        res = { IsDuplicate := true, DuplicateFields := g,
                ExistingRecords := queryAnswer ctx (groupSelector record g) } ∧
        ctx'.calls = ctx.calls ++ (pre ++ [g]).map
          (fun g => StubCall.GetQueryResult (groupSelector record g))) ∧
      (res.IsDuplicate = false ↔
        ∀ g ∈ eligibleGroups record, queryAnswer ctx (groupSelector record g) = []) := by
  have hctx : checkForDuplicates ctx record =
      checkConditions { ctx with calls := ctx.calls } record
        [(hasValue record "store_increment",
            ["store_increment", "press_increment", "parent_increment"]),
         (!hasValue record "store_increment", ["press_increment", "parent_increment"]),
         (!hasValue record "press_increment", ["parent_increment", "store_increment"]),
         (!hasValue record "press_increment" && !hasValue record "store_increment",
            ["parent_increment"])] := checkForDuplicates_eq ctx record
  have unique : ∀ (pre pre' : List (List String)) (g g' : List String)
      (post post' : List (List String)),
      pre ++ g :: post = pre' ++ g' :: post' →
      (∀ x ∈ pre, queryAnswer ctx (groupSelector record x) = []) →
      (∀ x ∈ pre', queryAnswer ctx (groupSelector record x) = []) →
      queryAnswer ctx (groupSelector record g) ≠ [] →
      queryAnswer ctx (groupSelector record g') ≠ [] → pre = pre' ∧ g = g' := by
    intro pre
    induction pre with
    | nil =>
      intro pre' g g' post post' h _ h2 hg _
      cases pre' with
      | nil => simp at h; exact ⟨rfl, h.1⟩
      | cons p t =>
        simp at h
        exact absurd (h2 p (List.mem_cons_self _ _)) (h.1 ▸ hg)
    | cons a t ih =>
      intro pre' g g' post post' h h1 h2 hg hg'
      cases pre' with
      | nil =>
        simp at h
        exact absurd (h1 a (List.mem_cons_self _ _)) (h.1 ▸ hg')
      | cons p t' =>
        simp only [List.cons_append, List.cons.injEq] at h
        obtain ⟨r1, r2⟩ := ih t' g g' post post' h.2
          (fun x hx => h1 x (List.mem_cons_of_mem _ hx))
          (fun x hx => h2 x (List.mem_cons_of_mem _ hx)) hg hg'
        exact ⟨by rw [h.1, r1], r2⟩
  rcases first_hit_split (fun g => queryAnswer ctx (groupSelector record g) = [])
      (eligibleGroups record) with hnone | ⟨pre, g, post, hsplit, hpre, hg⟩
  · have h := checkConditions_none ctx record _ ctx.calls
      (by rw [eligibleGroups_eq]; exact hnone)
    rw [eligibleGroups_eq] at h
    refine ⟨_, _, hctx.trans h, rfl, fun _ => ⟨rfl, rfl⟩, ?_, ?_⟩
    · intro pre g post hs _ hg
      exact absurd (hnone g (by rw [hs]; simp)) hg
    · simp only [true_iff]
      exact hnone
  · have h := checkConditions_hit ctx record _ ctx.calls pre g post
      (by rw [eligibleGroups_eq]; exact hsplit) hpre hg
    refine ⟨_, _, hctx.trans h, rfl, ?_, ?_, ?_⟩
    · intro hall
      exact absurd (hall g (by rw [hsplit]; simp)) hg
    · intro pre' g' post' hs hpre' hg'
      obtain ⟨r1, r2⟩ := unique pre pre' g g' post post' (hsplit.symm.trans hs) hpre hpre' hg hg'
      subst r1 r2
      exact ⟨rfl, rfl⟩
    · simp only [Bool.true_eq_false, false_iff]
      intro hall
      exact hg (hall g (by rw [hsplit]; simp))

theorem eligibleGroups_facts (record : List (String × JVal)) :
    (eligibleGroups record).Sublist
      [["store_increment", "press_increment", "parent_increment"],
       ["press_increment", "parent_increment"],
       ["parent_increment", "store_increment"],
       ["parent_increment"]] ∧
    (["store_increment", "press_increment", "parent_increment"] ∈ eligibleGroups record ↔
      hasValue record "store_increment" = true) ∧
    (["press_increment", "parent_increment"] ∈ eligibleGroups record ↔
      hasValue record "store_increment" = false) ∧
    (["parent_increment", "store_increment"] ∈ eligibleGroups record ↔
      hasValue record "press_increment" = false) ∧
    (["parent_increment"] ∈ eligibleGroups record ↔
      (hasValue record "press_increment" = false ∧
        hasValue record "store_increment" = false)) := by
  cases h1 : hasValue record "store_increment" <;>
    cases h2 : hasValue record "press_increment" <;>
    simp [eligibleGroups, h1, h2]

/-- C11: `checkForDuplicates` never returns an error and leaves the world state
as it is.  The eligible field groups are taken from the four groups in their
fixed order (group 1 iff the store increment is non-null on the candidate, group
2 iff it is not, group 3 iff the press increment is not, group 4 iff neither
is); the query of a group matches exactly the stored objects with
`docType = "proofRecord"` that carry every field of the group that is non-null
on the candidate with the candidate's value.  The result is the duplicate of the
first eligible group whose query returns an entity, with that group as field
list and the returned entities, and the queries issued are those of the groups
up to that one and no later; no duplicate is reported exactly when the query of
every eligible group returns nothing, after all of them were issued. -/
theorem C11_first_eligible_group_wins (ctx : Stub) (record : List (String × JVal)) :
    ((eligibleGroups record).Sublist
      [["store_increment", "press_increment", "parent_increment"],
       ["press_increment", "parent_increment"],
       ["parent_increment", "store_increment"],
       ["parent_increment"]] ∧
     (["store_increment", "press_increment", "parent_increment"] ∈ eligibleGroups record ↔
       hasValue record "store_increment" = true) ∧
     (["press_increment", "parent_increment"] ∈ eligibleGroups record ↔
       hasValue record "store_increment" = false) ∧
     (["parent_increment", "store_increment"] ∈ eligibleGroups record ↔
       hasValue record "press_increment" = false) ∧
     (["parent_increment"] ∈ eligibleGroups record ↔
       (hasValue record "press_increment" = false ∧
         hasValue record "store_increment" = false))) ∧
    (∀ g ∈ eligibleGroups record, ∀ v,
      matchesSelector (groupSelector record g) v = true ↔
        ∃ flds, v = JVal.obj flds ∧ getField flds "docType" = some (JVal.str "proofRecord") ∧
          ∀ f ∈ g, ∀ val, getField record f = some val → val ≠ JVal.null →
            getField flds f = some val) ∧
    (∀ g items, bulkRead ctx (groupSelector record g) = Except.ok items →
      queryAnswer ctx (groupSelector record g) = scan ctx.world (groupSelector record g)) ∧
    (∀ g err, bulkRead ctx (groupSelector record g) = Except.error err →
      queryAnswer ctx (groupSelector record g) = []) ∧
    ∃ res ctx', checkForDuplicates ctx record = (Except.ok res, ctx') ∧
      ctx'.world = ctx.world ∧
      ((∀ g ∈ eligibleGroups record, queryAnswer ctx (groupSelector record g) = []) →
        res = { IsDuplicate := false, DuplicateFields := [], ExistingRecords := [] } ∧
        ctx'.calls = ctx.calls ++ (eligibleGroups record).map
          (fun g => StubCall.GetQueryResult (groupSelector record g))) ∧
      (∀ pre g post, eligibleGroups record = pre ++ g :: post →
        (∀ x ∈ pre, queryAnswer ctx (groupSelector record x) = []) →
        queryAnswer ctx (groupSelector record g) ≠ [] →
        res = { IsDuplicate := true, DuplicateFields := g,
                ExistingRecords := queryAnswer ctx (groupSelector record g) } ∧
        ctx'.calls = ctx.calls ++ (pre ++ [g]).map
          (fun g => StubCall.GetQueryResult (groupSelector record g))) ∧
      (res.IsDuplicate = false ↔
        ∀ g ∈ eligibleGroups record, queryAnswer ctx (groupSelector record g) = []) :=
  ⟨eligibleGroups_facts record,
   fun g hg v => matches_groupSelector "proofRecord" record g (docType_not_in_group record g hg) v,
   fun _ items h => queryAnswer_of_ok ctx _ items h,
   fun _ err h => queryAnswer_of_error ctx _ err h,
   checkForDuplicates_spec ctx record⟩

/-- C12, the code at the failing input: a valid candidate with parent increment
7 and neither increment, against a stored proof record with parent increment 7
and neither increment.  The candidate is rejected as a duplicate and nothing is
written, after a single query; the reported field group is that of group 2,
`["press_increment", "parent_increment"]`, not `["parent_increment"]`. -/
theorem C12_duplicate_reported_as_group_two :
    (CreateProofRecord Env.sample (Stub.healthy [("PROOF_1_a", parentOnlyStored)])
        (Payload.object parentOnlyCandidate)).1 =
      { Success := false
        Message := "Duplicate record found"
        RecordID := ""
        Record := none
        DuplicateFields := ["press_increment", "parent_increment"]
        ExistingRecords := [("PROOF_1_a", parentOnlyStored)] } ∧
    (CreateProofRecord Env.sample (Stub.healthy [("PROOF_1_a", parentOnlyStored)])
        (Payload.object parentOnlyCandidate)).2.world = [("PROOF_1_a", parentOnlyStored)] ∧
    (CreateProofRecord Env.sample (Stub.healthy [("PROOF_1_a", parentOnlyStored)])
        (Payload.object parentOnlyCandidate)).2.calls =
      [StubCall.GetQueryResult
        [("docType", JVal.str "proofRecord"), ("parent_increment", JVal.num 7)]] ∧
    (CreateProofRecord Env.sample (Stub.healthy [("PROOF_1_a", parentOnlyStored)])
        (Payload.object parentOnlyCandidate)).1.DuplicateFields ≠ ["parent_increment"] := by
  refine ⟨by decide!, by decide!, by decide!, by decide!⟩

theorem lookup_put_self (world : List (String × JVal)) (key : String) (value : JVal) :
    (if (world.lookup key).isSome then
        world.map (fun kv => if kv.1 = key then (kv.1, value) else kv)
      else world ++ [(key, value)]).lookup key = some value := by
  by_cases h : (world.lookup key).isSome = true
  · rw [if_pos h]
    induction world with
    | nil => simp at h
    | cons a t ih =>
      obtain ⟨k, v⟩ := a
      rw [List.map_cons]
      by_cases hk : k = key
      · subst hk; simp
      · have hk' : (key == k) = false := by simpa using (fun h' : key = k => hk h'.symm)
        rw [List.lookup_cons, hk'] at h
        simp only [hk, if_false]
        rw [List.lookup_cons, hk']
        exact ih h
  · rw [if_neg h]
    induction world with
    | nil => simp
    | cons a t ih =>
      obtain ⟨k, v⟩ := a
      by_cases hk : key = k
      · subst hk; simp at h
      · have hk' : (key == k) = false := by simpa using hk
        rw [List.lookup_cons, hk'] at h
        rw [List.cons_append, List.lookup_cons, hk']
        exact ih h

theorem mem_put_same_key (world : List (String × JVal)) (key : String) (value : JVal) :
    ∀ kv ∈ (if (world.lookup key).isSome then
        world.map (fun kv => if kv.1 = key then (kv.1, value) else kv)
      else world ++ [(key, value)]), kv.1 = key → kv.2 = value := by
  intro kv hkv hk
  by_cases h : (world.lookup key).isSome = true
  · rw [if_pos h, List.mem_map] at hkv
    obtain ⟨a, _, rfl⟩ := hkv
    by_cases ha : a.1 = key
    · simp [ha]
    · simp only [ha, if_false] at hk
  · rw [if_neg h, List.mem_append, List.mem_singleton] at hkv
    rcases hkv with hkv | hkv
    · exact absurd ((lookup_isSome_iff world key).2 ⟨kv, hkv, hk⟩) h
    · rw [hkv]

theorem PutState_ok (ctx : Stub) (key : String) (value : JVal)
    (h : ctx.putFault key = none) :
    ∃ ctx', ctx.PutState key value = (none, ctx') ∧
      ctx'.calls = ctx.calls ++ [StubCall.PutState key value] ∧
      ctx'.world.lookup key = some value ∧
      (∀ kv ∈ ctx'.world, kv.1 = key → kv.2 = value) ∧
      ctx'.world = (if (ctx.world.lookup key).isSome then
        ctx.world.map (fun kv => if kv.1 = key then (kv.1, value) else kv)
      else ctx.world ++ [(key, value)]) := by
  unfold Stub.PutState
  simp only [h]
  exact ⟨_, rfl, rfl, lookup_put_self _ _ _, mem_put_same_key _ _ _, rfl⟩

theorem mem_queryAnswer (ctx : Stub) (sel : Selector) :
    ∀ kv ∈ queryAnswer ctx sel, kv ∈ ctx.world ∧ matchesSelector sel kv.2 = true := by
  intro kv hkv
  unfold queryAnswer at hkv
  cases h : bulkRead ctx sel with
  | error e => rw [h] at hkv; simp at hkv
  | ok items =>
    rw [h] at hkv
    simp only at hkv
    rw [(bulkRead_ok ctx sel items h).1] at hkv
    unfold scan at hkv
    exact List.mem_filter.1 hkv

theorem checkTicketForDuplicates_eq (ctx : Stub) (ticket : List (String × JVal)) :
    checkTicketForDuplicates ctx ticket =
      (Except.ok
        (if queryAnswer ctx (ticketSelectorOf ticket) = [] then
          { IsDuplicate := false, DuplicateFields := [], ExistingRecords := [] }
        else
          { IsDuplicate := true, DuplicateFields := ["incrementId", "id"],
            ExistingRecords := queryAnswer ctx (ticketSelectorOf ticket) }),
       { ctx with calls := ctx.calls ++
           [StubCall.GetQueryResult (ticketSelectorOf ticket)] }) := by
  unfold checkTicketForDuplicates ticketSelectorOf
  simp only [findTicketDuplicatesByFields_eq]
  by_cases h : queryAnswer ctx
      (marshalSelector (buildSelector "ticket" ticket ["incrementId", "id"])) = []
  · simp [h]
  · have hlen : decide ((queryAnswer ctx
        (marshalSelector (buildSelector "ticket" ticket ["incrementId", "id"]))).length > 0)
        = true := by simpa [List.length_pos] using h
    simp [h, hlen]

theorem getField_setField (m : List (String × JVal)) (f : String) (v : JVal) (k : String) :
    getField (setField m f v) k = if k = f then some v else getField m k := by
  unfold getField setField
  by_cases hk : k = f
  · subst hk
    rw [if_pos rfl]
    exact lookup_put_self m k v
  · rw [if_neg hk]
    by_cases h : (m.lookup f).isSome = true
    · rw [if_pos h]
      clear h
      induction m with
      | nil => rfl
      | cons a t ih =>
        obtain ⟨a1, a2⟩ := a
        rw [List.map_cons]
        by_cases ha : a1 = f
        · subst ha
          have hk' : (k == a1) = false := by simpa using hk
          simp only [if_true, List.lookup_cons, hk']
          exact ih
        · simp only [ha, if_false, List.lookup_cons]
          rw [ih]
    · rw [if_neg h]
      clear h
      induction m with
      | nil =>
        have hk' : (k == f) = false := by simpa using hk
        simp [List.lookup_cons, hk']
      | cons a t ih =>
        obtain ⟨a1, a2⟩ := a
        rw [List.cons_append, List.lookup_cons, List.lookup_cons, ih]

theorem CreateTicket_eq (env : Env) (ctx : Stub) (ticket : List (String × JVal))
    (hvalid : validateTicket ticket = true) :
    CreateTicket env ctx (Payload.object ticket) =
      if queryAnswer ctx (ticketSelectorOf ticket) = [] then
        match getField ticket "id" with
        | some (JVal.str ticketID) =>
          match Stub.PutState
              { ctx with calls := ctx.calls ++
                  [StubCall.GetQueryResult (ticketSelectorOf ticket)] }
              ("TICKET_" ++ ticketID) (JVal.obj (stampTicket env ticket)) with
          | (some err, ctx2) => some (ticketFailure ("Error creating ticket: " ++ err), ctx2)
          | (none, ctx2) =>
            some ({ Success := true
                    Message := "Ticket saved successfully"
                    TicketKey := "TICKET_" ++ ticketID
                    Ticket := some (decodeTicket (marshalObject (stampTicket env ticket)))
                    DuplicateFields := []
                    ExistingTickets := [] }, ctx2)
        | _ => none
      else
        some ({ Success := false
                Message := "Duplicate ticket found"
                TicketKey := ""
                Ticket := none
                DuplicateFields := ["incrementId", "id"]
                ExistingTickets := queryAnswer ctx (ticketSelectorOf ticket) },
              { ctx with calls := ctx.calls ++
                  [StubCall.GetQueryResult (ticketSelectorOf ticket)] }) := by
  unfold CreateTicket
  simp only [hvalid, Bool.not_true, Bool.false_eq_true, if_false, checkTicketForDuplicates_eq]
  by_cases h : queryAnswer ctx (ticketSelectorOf ticket) = []
  · simp only [h, if_true, Bool.false_eq_true, if_false]
    rfl
  · simp only [h, if_false, if_true]

theorem validateTicket_fields (ticket : List (String × JVal))
    (hvalid : validateTicket ticket = true) :
    (∃ v, getField ticket "incrementId" = some v ∧ v ≠ JVal.null) ∧
    (∃ v, getField ticket "id" = some v ∧ v ≠ JVal.null) := by
  have h := (validateTicket_iff ticket).1 hvalid
  exact ⟨h "incrementId" (by decide), h "id" (by decide)⟩

theorem ticket_answer_shares_both (ctx : Stub) (ticket : List (String × JVal))
    (hvalid : validateTicket ticket = true) :
    ∀ kv ∈ queryAnswer ctx (ticketSelectorOf ticket),
      kv ∈ ctx.world ∧ ∃ flds, kv.2 = JVal.obj flds ∧
        getField flds "docType" = some (JVal.str "ticket") ∧
        getField flds "incrementId" = getField ticket "incrementId" ∧
        getField flds "id" = getField ticket "id" := by
  intro kv hkv
  obtain ⟨hw, hm⟩ := mem_queryAnswer ctx _ kv hkv
  obtain ⟨⟨v1, h1, n1⟩, ⟨v2, h2, n2⟩⟩ := validateTicket_fields ticket hvalid
  unfold ticketSelectorOf at hm
  obtain ⟨flds, hv, hdoc, hall⟩ :=
    (matches_groupSelector "ticket" ticket ["incrementId", "id"] (by decide) kv.2).1 hm
  refine ⟨hw, flds, hv, hdoc, ?_, ?_⟩
  · rw [h1]; exact hall "incrementId" (by decide) v1 h1 n1
  · rw [h2]; exact hall "id" (by decide) v2 h2 n2

/-- C13: a ticket is rejected as a duplicate only when a stored ticket shares
both its `incrementId` and its `id`.  Given a ticket `t1` stored under
`TICKET_<id>` and a valid ticket with the same string `id` and another
`incrementId`, on a store where no ticket with that `id` has the candidate's
`incrementId` and the write does not fail, `CreateTicket` is not stopped by the
duplicate check: it succeeds with ticket key `TICKET_<id>` and no duplicate
flag, and afterwards the value stored under that key is the candidate's entity
(its fields and the three stamps), not `t1`. -/
theorem C13_same_id_overwrites (env : Env) (ctx : Stub) (ticket t1 : List (String × JVal))
    (id : String)
    (hvalid : validateTicket ticket = true)
    (hid : getField ticket "id" = some (JVal.str id))
    (ht1 : ctx.world.lookup ("TICKET_" ++ id) = some (JVal.obj t1))
    (ht1inc : getField t1 "incrementId" ≠ getField ticket "incrementId")
    (hdiff : ∀ kv ∈ ctx.world, ∀ flds, kv.2 = JVal.obj flds →
      getField flds "docType" = some (JVal.str "ticket") →
      getField flds "id" = some (JVal.str id) →
      getField flds "incrementId" ≠ getField ticket "incrementId")
    (hput : ctx.putFault ("TICKET_" ++ id) = none) :
    (∃ resp ctx', CreateTicket env ctx (Payload.object ticket) = some (resp, ctx') ∧
      resp.Success = true ∧ resp.Message = "Ticket saved successfully" ∧
      resp.TicketKey = "TICKET_" ++ id ∧
      resp.DuplicateFields = [] ∧ resp.ExistingTickets = [] ∧
      (ctx'.GetState ("TICKET_" ++ id)).1 = some (JVal.obj (stampTicket env ticket)) ∧
      (∀ kv ∈ ctx'.world, kv.1 = "TICKET_" ++ id → kv.2 = JVal.obj (stampTicket env ticket)) ∧
      (ctx'.GetState ("TICKET_" ++ id)).1 ≠ (ctx.GetState ("TICKET_" ++ id)).1 ∧
      (∀ f, f ≠ "createdAt" → f ≠ "createdBy" → f ≠ "docType" →
        getField (stampTicket env ticket) f = getField ticket f) ∧
      getField (stampTicket env ticket) "docType" = some (JVal.str "ticket")) ∧
    (∀ (env' : Env) (ctx0 : Stub) (candidate : List (String × JVal))
        (resp : CreateTicketResponse) (ctx' : Stub),
      validateTicket candidate = true →
      CreateTicket env' ctx0 (Payload.object candidate) = some (resp, ctx') →
      resp.Message = "Duplicate ticket found" →
      ∃ kv ∈ ctx0.world, ∃ flds, kv.2 = JVal.obj flds ∧
        getField flds "docType" = some (JVal.str "ticket") ∧
        getField flds "incrementId" = getField candidate "incrementId" ∧
        getField flds "id" = getField candidate "id") := by
  constructor
  · have hempty : queryAnswer ctx (ticketSelectorOf ticket) = [] := by
      cases hq : queryAnswer ctx (ticketSelectorOf ticket) with
      | nil => rfl
      | cons kv rest =>
        have hkv : kv ∈ queryAnswer ctx (ticketSelectorOf ticket) := by rw [hq]; simp
        obtain ⟨hw, flds, hv, hdoc, hinc, hid'⟩ := ticket_answer_shares_both ctx ticket hvalid kv hkv
        exact absurd hinc (hdiff kv hw flds hv hdoc (by rw [hid', hid]))
    obtain ⟨ctx2, hp, _, hlook, hall, _⟩ :=
      PutState_ok { ctx with calls := ctx.calls ++
          [StubCall.GetQueryResult (ticketSelectorOf ticket)] }
        ("TICKET_" ++ id) (JVal.obj (stampTicket env ticket)) hput
    have hstamp : ∀ f, f ≠ "createdAt" → f ≠ "createdBy" → f ≠ "docType" →
        getField (stampTicket env ticket) f = getField ticket f := by
      intro f h1 h2 h3
      unfold stampTicket
      simp only [getField_setField, h1, h2, h3, if_false]
    refine ⟨CreateTicketResponse.mk true "Ticket saved successfully" ("TICKET_" ++ id)
        (some (decodeTicket (marshalObject (stampTicket env ticket)))) [] [],
      ctx2, ?_, rfl, rfl, rfl, rfl, rfl, hlook, hall, ?_, hstamp, ?_⟩
    · rw [CreateTicket_eq env ctx ticket hvalid, if_pos hempty]
      simp only [hid, hp]
    · intro heq
      have heq2 : some (JVal.obj (stampTicket env ticket)) = some (JVal.obj t1) :=
        hlook.symm.trans (heq.trans ht1)
      simp only [Option.some.injEq, JVal.obj.injEq] at heq2
      apply ht1inc
      rw [← heq2]
      exact hstamp "incrementId" (by decide) (by decide) (by decide)
    · unfold stampTicket
      simp [getField_setField]
  · intro env' ctx0 candidate resp ctx' hv hc hmsg
    rw [CreateTicket_eq env' ctx0 candidate hv] at hc
    by_cases hq : queryAnswer ctx0 (ticketSelectorOf candidate) = []
    · rw [if_pos hq] at hc
      exfalso
      cases hg : getField candidate "id" with
      | none => rw [hg] at hc; simp at hc
      | some v =>
        cases v with
        | str s =>
          rw [hg] at hc
          simp only at hc
          cases hput' : Stub.PutState
              { ctx0 with calls := ctx0.calls ++
                  [StubCall.GetQueryResult (ticketSelectorOf candidate)] }
              ("TICKET_" ++ s) (JVal.obj (stampTicket env' candidate)) with
          | mk e c2 =>
            rw [hput'] at hc
            cases e with
            | none =>
              simp only [Option.some.injEq, Prod.mk.injEq] at hc
              rw [← hc.1] at hmsg
              simp at hmsg
            | some err =>
              simp only [Option.some.injEq, Prod.mk.injEq] at hc
              rw [← hc.1] at hmsg
              simp only [ticketFailure] at hmsg
              have : ("Error creating ticket: " ++ err).length = "Duplicate ticket found".length := by
                rw [hmsg]
              simp [String.length_append] at this
              have h22 : "Duplicate ticket found".length = 22 := by decide
              have h23 : "Error creating ticket: ".length = 23 := by decide
              omega
        | null => rw [hg] at hc; simp at hc
        | bool b => rw [hg] at hc; simp at hc
        | num q => rw [hg] at hc; simp at hc
        | arr a => rw [hg] at hc; simp at hc
        | obj o => rw [hg] at hc; simp at hc
    · rw [if_neg hq] at hc
      cases hq' : queryAnswer ctx0 (ticketSelectorOf candidate) with
      | nil => exact absurd hq' hq
      | cons kv rest =>
        have hkv : kv ∈ queryAnswer ctx0 (ticketSelectorOf candidate) := by rw [hq']; simp
        obtain ⟨hw, h⟩ := ticket_answer_shares_both ctx0 candidate hv kv hkv
        exact ⟨kv, hw, h⟩

theorem C13_same_id_overwrites_witness :
    (∃ resp ctx', CreateTicket Env.sample (Stub.healthy [("TICKET_T1", ticketRecord "T1" 5 15)])
        (Payload.object [("id", JVal.str "T1"), ("receivedWeight", JVal.num 9),
          ("incrementId", JVal.num 6)]) = some (resp, ctx') ∧
      resp.Success = true ∧ resp.TicketKey = "TICKET_T1" ∧
      (ctx'.GetState "TICKET_T1").1 = some (JVal.obj (stampTicket Env.sample
        [("id", JVal.str "T1"), ("receivedWeight", JVal.num 9),
          ("incrementId", JVal.num 6)]))) := by
  obtain ⟨⟨resp, ctx', h1, h2, _, h4, _, _, h7, _⟩, _⟩ :=
    C13_same_id_overwrites Env.sample (Stub.healthy [("TICKET_T1", ticketRecord "T1" 5 15)])
      [("id", JVal.str "T1"), ("receivedWeight", JVal.num 9), ("incrementId", JVal.num 6)]
      [("docType", JVal.str "ticket"), ("id", JVal.str "T1"), ("incrementId", JVal.num 5),
        ("receivedWeight", JVal.num 15)]
      "T1" (by decide) (by decide) (by decide!) (by decide!)
      (by
        intro kv hkv flds hv _ _
        simp only [Stub.healthy, List.mem_singleton] at hkv
        subst hkv
        simp only [ticketRecord, JVal.obj.injEq] at hv
        subst hv
        decide!)
      rfl
  exact ⟨resp, ctx', h1, h2, h4, h7⟩

theorem checkForDuplicates_frame (ctx : Stub) (record : List (String × JVal)) :
    ∃ res c, checkForDuplicates ctx record = (Except.ok res, { ctx with calls := c }) ∧
      ((∀ g ∈ eligibleGroups record, queryAnswer ctx (groupSelector record g) = []) →
        res = { IsDuplicate := false, DuplicateFields := [], ExistingRecords := [] }) ∧
      (res.IsDuplicate = false ↔
        ∀ g ∈ eligibleGroups record, queryAnswer ctx (groupSelector record g) = []) ∧
      (res.IsDuplicate = true → res.DuplicateFields ∈ eligibleGroups record ∧
        res.ExistingRecords = queryAnswer ctx (groupSelector record res.DuplicateFields) ∧
        res.ExistingRecords ≠ []) := by
  have hctx : checkForDuplicates ctx record =
      checkConditions { ctx with calls := ctx.calls } record
        [(hasValue record "store_increment",
            ["store_increment", "press_increment", "parent_increment"]),
         (!hasValue record "store_increment", ["press_increment", "parent_increment"]),
         (!hasValue record "press_increment", ["parent_increment", "store_increment"]),
         (!hasValue record "press_increment" && !hasValue record "store_increment",
            ["parent_increment"])] := checkForDuplicates_eq ctx record
  rcases first_hit_split (fun g => queryAnswer ctx (groupSelector record g) = [])
      (eligibleGroups record) with hnone | ⟨pre, g, post, hsplit, hpre, hg⟩
  · have h := checkConditions_none ctx record _ ctx.calls
      (by rw [eligibleGroups_eq]; exact hnone)
    rw [eligibleGroups_eq] at h
    refine ⟨_, _, hctx.trans h, fun _ => rfl, ?_, ?_⟩
    · simp only [true_iff]
      exact hnone
    · intro hd
      simp at hd
  · have h := checkConditions_hit ctx record _ ctx.calls pre g post
      (by rw [eligibleGroups_eq]; exact hsplit) hpre hg
    refine ⟨_, _, hctx.trans h, ?_, ?_, ?_⟩
    · intro hall
      exact absurd (hall g (by rw [hsplit]; simp)) hg
    · simp only [Bool.true_eq_false, false_iff]
      intro hall
      exact hg (hall g (by rw [hsplit]; simp))
    · intro _
      exact ⟨by rw [hsplit]; simp, rfl, hg⟩

theorem CreateProofRecord_eq (env : Env) (ctx : Stub) (record : List (String × JVal))
    (hvalid : validateRecord record = true) (res : DuplicateCheckResult) (ctx1 : Stub)
    (hc : checkForDuplicates ctx record = (Except.ok res, ctx1)) :
    CreateProofRecord env ctx (Payload.object record) =
      if res.IsDuplicate then
        (CreateProofRecordResponse.mk false "Duplicate record found" "" none
          res.DuplicateFields res.ExistingRecords, ctx1)
      else
        match ctx1.PutState (GenerateRecordKey env record) (JVal.obj (stampRecord env record)) with
        | (some err, ctx2) => (proofRecordFailure ("Error creating proof record: " ++ err), ctx2)
        | (none, ctx2) =>
          (CreateProofRecordResponse.mk true "Record saved successfully"
            (GenerateRecordKey env record)
            (some (decodeProofRecord (marshalObject (stampRecord env record)))) [] [], ctx2) := by
  unfold CreateProofRecord
  simp only [hvalid, Bool.not_true, Bool.false_eq_true, if_false, hc]
  rfl

theorem CreateProofRecord_fresh (env : Env) (ctx : Stub) (record : List (String × JVal))
    (hvalid : validateRecord record = true)
    (hnone : ∀ g ∈ eligibleGroups record, queryAnswer ctx (groupSelector record g) = [])
    (hput : ctx.putFault (GenerateRecordKey env record) = none) :
    ∃ ctx', CreateProofRecord env ctx (Payload.object record) =
        (CreateProofRecordResponse.mk true "Record saved successfully"
          (GenerateRecordKey env record)
          (some (decodeProofRecord (marshalObject (stampRecord env record)))) [] [], ctx') ∧
      ctx'.world.lookup (GenerateRecordKey env record) = some (JVal.obj (stampRecord env record)) ∧
      (∀ kv ∈ ctx'.world, kv.1 = GenerateRecordKey env record →
        kv.2 = JVal.obj (stampRecord env record)) ∧
      ctx'.world = (if (ctx.world.lookup (GenerateRecordKey env record)).isSome then
        ctx.world.map (fun kv => if kv.1 = GenerateRecordKey env record then
          (kv.1, JVal.obj (stampRecord env record)) else kv)
      else ctx.world ++ [(GenerateRecordKey env record, JVal.obj (stampRecord env record))]) := by
  obtain ⟨res, c, hc, hres, _, _⟩ := checkForDuplicates_frame ctx record
  have hr := hres hnone
  subst hr
  obtain ⟨ctx2, hp, _, hlook, hall, hw⟩ :=
    PutState_ok { ctx with calls := c } (GenerateRecordKey env record)
      (JVal.obj (stampRecord env record)) hput
  refine ⟨ctx2, ?_, hlook, hall, hw⟩
  rw [CreateProofRecord_eq env ctx record hvalid _ _ hc]
  simp only [Bool.false_eq_true, if_false, hp]

/-- C14: duplicate detection fails open.  A duplicate query that fails, when
it is opened or while it is drained, is answered as "no duplicate" without an
error, for proof records and for tickets; `checkForDuplicates` and
`checkTicketForDuplicates` never return an error; and on a ledger where every
query fails, a valid payload whose write succeeds (and, for a ticket, whose
`id` is a string) is persisted and answered with success. -/
theorem C14_detection_fails_open (env : Env) (ctx : Stub)
    (hfail : ∀ sel, ∃ err, bulkRead ctx sel = Except.error err) :
    (∀ (ctx0 : Stub) (record : List (String × JVal)) (fields : List String) (err : String),
      bulkRead ctx0 (marshalSelector (buildSelector "proofRecord" record fields)) =
        Except.error err →
      (findDuplicatesByFields ctx0 record fields).1 =
        Except.ok { IsDuplicate := false, DuplicateFields := [], ExistingRecords := [] }) ∧
    (∀ (ctx0 : Stub) (ticket : List (String × JVal)) (fields : List String) (err : String),
      bulkRead ctx0 (marshalSelector (buildSelector "ticket" ticket fields)) =
        Except.error err →
      (findTicketDuplicatesByFields ctx0 ticket fields).1 =
        Except.ok { IsDuplicate := false, DuplicateFields := [], ExistingRecords := [] }) ∧
    (∀ (ctx0 : Stub) (record : List (String × JVal)),
      ∃ res ctx', checkForDuplicates ctx0 record = (Except.ok res, ctx')) ∧
    (∀ (ctx0 : Stub) (ticket : List (String × JVal)),
      ∃ res ctx', checkTicketForDuplicates ctx0 ticket = (Except.ok res, ctx')) ∧
    (∀ record : List (String × JVal),
      (checkForDuplicates ctx record).1 =
        Except.ok { IsDuplicate := false, DuplicateFields := [], ExistingRecords := [] }) ∧
    (∀ ticket : List (String × JVal),
      (checkTicketForDuplicates ctx ticket).1 =
        Except.ok { IsDuplicate := false, DuplicateFields := [], ExistingRecords := [] }) ∧
    (∀ record : List (String × JVal), validateRecord record = true →
      ctx.putFault (GenerateRecordKey env record) = none →
      ∃ resp ctx', CreateProofRecord env ctx (Payload.object record) = (resp, ctx') ∧
        resp.Success = true ∧ resp.RecordID = GenerateRecordKey env record ∧
        ctx'.world.lookup (GenerateRecordKey env record) =
          some (JVal.obj (stampRecord env record))) ∧
    (∀ (ticket : List (String × JVal)) (id : String), validateTicket ticket = true →
      getField ticket "id" = some (JVal.str id) →
      ctx.putFault ("TICKET_" ++ id) = none →
      ∃ resp ctx', CreateTicket env ctx (Payload.object ticket) = some (resp, ctx') ∧
        resp.Success = true ∧ resp.TicketKey = "TICKET_" ++ id ∧
        ctx'.world.lookup ("TICKET_" ++ id) = some (JVal.obj (stampTicket env ticket))) := by
  have hq : ∀ sel, queryAnswer ctx sel = [] := by
    intro sel
    obtain ⟨err, he⟩ := hfail sel
    exact queryAnswer_of_error ctx sel err he
  refine ⟨?_, ?_, ?_, ?_, ?_, ?_, ?_, ?_⟩
  · intro ctx0 record fields err he
    have h0 : queryAnswer ctx0 (groupSelector record fields) = [] :=
      queryAnswer_of_error ctx0 _ err he
    rw [findDuplicatesByFields_eq, h0]
    rfl
  · intro ctx0 ticket fields err he
    have h0 := queryAnswer_of_error ctx0 _ err he
    rw [findTicketDuplicatesByFields_eq, h0]
    rfl
  · intro ctx0 record
    obtain ⟨res, c, hc, _⟩ := checkForDuplicates_frame ctx0 record
    exact ⟨res, _, hc⟩
  · intro ctx0 ticket
    exact ⟨_, _, checkTicketForDuplicates_eq ctx0 ticket⟩
  · intro record
    obtain ⟨res, c, hc, hres, _⟩ := checkForDuplicates_frame ctx record
    rw [hc, hres (fun g _ => hq _)]
  · intro ticket
    rw [checkTicketForDuplicates_eq, if_pos (hq _)]
  · intro record hvalid hput
    obtain ⟨ctx', h, hlook, _⟩ :=
      CreateProofRecord_fresh env ctx record hvalid (fun g _ => hq _) hput
    exact ⟨_, ctx', h, rfl, rfl, hlook⟩
  · intro ticket id hvalid hid hput
    obtain ⟨ctx2, hp, _, hlook, _⟩ :=
      PutState_ok { ctx with calls := ctx.calls ++
          [StubCall.GetQueryResult (ticketSelectorOf ticket)] }
        ("TICKET_" ++ id) (JVal.obj (stampTicket env ticket)) hput
    refine ⟨CreateTicketResponse.mk true "Ticket saved successfully" ("TICKET_" ++ id)
        (some (decodeTicket (marshalObject (stampTicket env ticket)))) [] [], ctx2, ?_, rfl, rfl, hlook⟩
    rw [CreateTicket_eq env ctx ticket hvalid, if_pos (hq _)]
    simp only [hid, hp]

theorem C14_detection_fails_open_witness :
    ∃ resp ctx', CreateProofRecord Env.sample (Stub.queriesDown [("PROOF_1_a", parentOnlyStored)])
        (Payload.object parentOnlyCandidate) = (resp, ctx') ∧
      resp.Success = true ∧
      ctx'.world.lookup (GenerateRecordKey Env.sample parentOnlyCandidate) =
        some (JVal.obj (stampRecord Env.sample parentOnlyCandidate)) := by
  obtain ⟨resp, ctx', h1, h2, _, h4⟩ :=
    (C14_detection_fails_open Env.sample (Stub.queriesDown [("PROOF_1_a", parentOnlyStored)])
      (fun _ => ⟨"query failed", rfl⟩)).2.2.2.2.2.2.1 parentOnlyCandidate (by decide!) rfl
  exact ⟨resp, ctx', h1, h2, h4⟩

/-- C15: the uniform-response contract does not hold for `CreateTicket`.  On
the payload `{"id": 7, "receivedWeight": 1, "incrementId": 1}` and an empty
ledger the invocation panics (the model's `none`), and so does every valid
ticket whose `id` is not a string once the duplicate check finds nothing.
`CreateProofRecord` always answers.  The two reconcilers do not panic on a
ledger whose queries return the matching documents (each of their passes
panics on a scanned item that is not an object), and what they return is what
`json.Marshal` makes of the response with its error dropped: the document when
every emitted weight is finite, and otherwise the empty string, which is no
JSON document, as on a bucket whose chained weight is 1e307. -/
theorem C15_ticket_id_not_a_string_panics :
    CreateTicket Env.sample (Stub.healthy []) (Payload.object numericIdTicket) = none ∧
    validateTicket numericIdTicket = true ∧
    (∀ (env : Env) (ctx : Stub) (ticket : List (String × JVal)),
      validateTicket ticket = true →
      queryAnswer ctx (ticketSelectorOf ticket) = [] →
      (∀ s, getField ticket "id" ≠ some (JVal.str s)) →
      CreateTicket env ctx (Payload.object ticket) = none) ∧
    (∀ (env : Env) (ctx : Stub) (ticket : List (String × JVal)) (s : String),
      getField ticket "id" = some (JVal.str s) →
      ∃ out, CreateTicket env ctx (Payload.object ticket) = some out) ∧
    (∀ (env : Env) (ctx : Stub) (err : String),
      ∃ out, CreateTicket env ctx (Payload.invalid err) = some out ∧ out.1.Success = false) ∧
    (∀ (env : Env) (ctx : Stub) (recordData : Payload),
      ∃ resp ctx', CreateProofRecord env ctx recordData = (resp, ctx')) ∧
    (∀ (arch : Arch) (rt : Runtime) (ctx : Stub) (dv : String),
      ∃ out response, CompareWeightsByPressIncrement arch rt ctx dv = some out ∧
        out.1 = marshalResponse response) ∧
    (∀ (arch : Arch) (rt : Runtime) (ctx : Stub) (dv : String),
      ∃ out response, CompareWeightsByStoreIncrement arch rt ctx dv = some out ∧
        out.1 = marshalResponse response) ∧
    (∀ response : ComparisonResponse,
      ((∀ r ∈ response.Results, entryFinite r = true) →
        marshalResponse response = Reply.document response) ∧
      ((∃ r ∈ response.Results, entryFinite r = false) →
        marshalResponse response = Reply.emptyString)) ∧
    (CompareWeightsByPressIncrement Arch.amd64 Runtime.inOrder (Stub.healthy overflowWorld)
        "false").map (fun out => out.1) = some Reply.emptyString ∧
    (∀ (g : Groups) (key text : String),
      pressProofStep g (key, JVal.str text) = none ∧
      storeProofStep g (key, JVal.str text) = none ∧
      ticketStep g (key, JVal.str text) = none) := by
  have panics : ∀ (env : Env) (ctx : Stub) (ticket : List (String × JVal)),
      validateTicket ticket = true →
      queryAnswer ctx (ticketSelectorOf ticket) = [] →
      (∀ s, getField ticket "id" ≠ some (JVal.str s)) →
      CreateTicket env ctx (Payload.object ticket) = none := by
    intro env ctx ticket hvalid hq hid
    rw [CreateTicket_eq env ctx ticket hvalid, if_pos hq]
    cases hg : getField ticket "id" with
    | none => rfl
    | some v =>
      cases v with
      | str s => exact absurd hg (hid s)
      | null => rfl
      | bool b => rfl
      | num q => rfl
      | arr a => rfl
      | obj o => rfl
  refine ⟨panics _ _ _ (by decide) (by decide!) (by intro s h; simp [numericIdTicket, getField] at h), by decide, panics,
    ?_, ?_, ?_, ?_, ?_, ?_, ?_, ?_⟩
  · intro env ctx ticket s hid
    by_cases hvalid : validateTicket ticket = true
    · rw [CreateTicket_eq env ctx ticket hvalid]
      by_cases hq : queryAnswer ctx (ticketSelectorOf ticket) = []
      · rw [if_pos hq]
        simp only [hid]
        cases Stub.PutState
            { ctx with calls := ctx.calls ++
                [StubCall.GetQueryResult (ticketSelectorOf ticket)] }
            ("TICKET_" ++ s) (JVal.obj (stampTicket env ticket)) with
        | mk e c2 =>
          cases e with
          | none => exact ⟨_, rfl⟩
          | some err => exact ⟨_, rfl⟩
      · rw [if_neg hq]
        exact ⟨_, rfl⟩
    · unfold CreateTicket
      simp only [hvalid, Bool.not_false, if_true]
      exact ⟨_, rfl⟩
  · intro env ctx err
    exact ⟨_, rfl, rfl⟩
  · intro env ctx recordData
    exact ⟨_, _, rfl⟩
  · intro arch rt ctx dv
    rw [CompareWeightsByPressIncrement_eq]
    exact Reconcile_marshals _ arch rt ctx dv
  · intro arch rt ctx dv
    rw [CompareWeightsByStoreIncrement_eq]
    exact Reconcile_marshals _ arch rt ctx dv
  · intro response
    exact ⟨(marshalResponse_cases response).1, (marshalResponse_cases response).2.1⟩
  · decide!
  · intro g key text
    exact ⟨rfl, rfl, rfl⟩

theorem stampRecord_fields (env : Env) (record : List (String × JVal)) :
    (∀ f, f ∉ recordStamps → getField (stampRecord env record) f = getField record f) ∧
    getField (stampRecord env record) "recordId" =
      some (JVal.str (GenerateRecordKey env record)) ∧
    getField (stampRecord env record) "createdAt" = some (JVal.str env.nowRFC3339) ∧
    getField (stampRecord env record) "createdBy" =
      some (JVal.str (match env.clientID with | Except.ok id => id | Except.error _ => "")) ∧
    getField (stampRecord env record) "docType" = some (JVal.str "proofRecord") := by
  refine ⟨?_, ?_, ?_, ?_, ?_⟩
  · intro f hf
    simp only [recordStamps, List.mem_cons, List.mem_singleton, List.not_mem_nil, or_false,
      not_or] at hf
    unfold stampRecord
    simp only [getField_setField, hf.1, hf.2.1, hf.2.2.1, hf.2.2.2, if_false]
  · unfold stampRecord
    simp [getField_setField]
  · unfold stampRecord
    simp [getField_setField]
  · unfold stampRecord
    simp [getField_setField]
  · unfold stampRecord
    simp [getField_setField]

theorem GenerateRecordKey_starts (env : Env) (record : List (String × JVal)) :
    ∃ rest, GenerateRecordKey env record = "PROOF_" ++ rest := by
  refine ⟨toString env.nowMillis ++ "_" ++ env.simpleHash record, ?_⟩
  unfold GenerateRecordKey
  simp only [String.append_assoc]

/-- C16 (counterexample): a valid payload with all eight required fields on
which `CreateProofRecord` does not succeed, because a stored record is a
duplicate of it; nothing is written and no record key is returned.  And a
valid payload on an empty ledger on which it does not succeed because the write
fails. -/
theorem C16_counterexample :
    validateRecord parentOnlyCandidate = true ∧
    (CreateProofRecord Env.sample (Stub.healthy [("PROOF_1_a", parentOnlyStored)])
      (Payload.object parentOnlyCandidate)).1.Success = false ∧
    (CreateProofRecord Env.sample (Stub.healthy [("PROOF_1_a", parentOnlyStored)])
      (Payload.object parentOnlyCandidate)).1.RecordID = "" ∧
    (CreateProofRecord Env.sample (Stub.healthy [("PROOF_1_a", parentOnlyStored)])
      (Payload.object parentOnlyCandidate)).2.world = [("PROOF_1_a", parentOnlyStored)] ∧
    validateRecord extraFieldCandidate = true ∧
    (CreateProofRecord Env.sample
      { Stub.healthy [] with putFault := fun _ => some "write failed" }
      (Payload.object extraFieldCandidate)).1.Success = false ∧
    (CreateProofRecord Env.sample
      { Stub.healthy [] with putFault := fun _ => some "write failed" }
      (Payload.object extraFieldCandidate)).2.world = [] := by
  decide!

/-- C16 (amended): for a valid payload on which no duplicate query returns an
entity and whose write succeeds, `CreateProofRecord` succeeds with a record key
that starts with `PROOF_`, and a point lookup of that key that does not fail
returns the stored entity: every field of the payload other than the four stamp
names with its value, extra fields included, and the stamps `recordId` (the
key), `createdAt`, `createdBy` and `docType` = `proofRecord`, which replace
whatever the payload supplied under those names; the entity has no other
field. -/
theorem C16_roundtrip_when_fresh (env : Env) (ctx : Stub) (record : List (String × JVal))
    (hvalid : validateRecord record = true)
    (hnone : ∀ g ∈ eligibleGroups record, queryAnswer ctx (groupSelector record g) = [])
    (hput : ctx.putFault (GenerateRecordKey env record) = none) :
    ∃ resp ctx', CreateProofRecord env ctx (Payload.object record) = (resp, ctx') ∧
      resp.Success = true ∧
      resp.RecordID = GenerateRecordKey env record ∧
      (∃ rest, resp.RecordID = "PROOF_" ++ rest) ∧
      (QueryProofRecord ctx' none resp.RecordID).1 =
        Except.ok (JVal.obj (stampRecord env record)) ∧
      (∀ f, f ∉ recordStamps → getField (stampRecord env record) f = getField record f) ∧
      (∀ f, (getField (stampRecord env record) f).isSome ↔
        ((getField record f).isSome ∨ f ∈ recordStamps)) ∧
      getField (stampRecord env record) "recordId" = some (JVal.str resp.RecordID) ∧
      getField (stampRecord env record) "createdAt" = some (JVal.str env.nowRFC3339) ∧
      getField (stampRecord env record) "createdBy" =
        some (JVal.str (match env.clientID with | Except.ok id => id | Except.error _ => "")) ∧
      getField (stampRecord env record) "docType" = some (JVal.str "proofRecord") := by
  obtain ⟨ctx', h, hlook, _⟩ := CreateProofRecord_fresh env ctx record hvalid hnone hput
  obtain ⟨h1, h2, h3, h4, h5⟩ := stampRecord_fields env record
  refine ⟨_, ctx', h, rfl, rfl, GenerateRecordKey_starts env record, ?_, h1, ?_, h2, h3, h4, h5⟩
  · show (QueryProofRecord ctx' none (GenerateRecordKey env record)).1 = _
    unfold QueryProofRecord Stub.GetState
    simp only [hlook]
  · intro f
    by_cases hf : f ∈ recordStamps
    · simp only [hf, or_true, iff_true]
      simp only [recordStamps, List.mem_cons, List.mem_singleton, List.not_mem_nil,
        or_false] at hf
      rcases hf with hf | hf | hf | hf <;> subst hf
      · rw [h2]; rfl
      · rw [h3]; rfl
      · rw [h4]; rfl
      · rw [h5]; rfl
    · rw [h1 f hf]
      simp only [hf, or_false]

/-- Witness of C16 (amended): a payload with the extra field `color` and its
own `docType`, on a ledger that holds no duplicate of it, is stored and read
back with `color` and with `docType` = `proofRecord`. -/
theorem C16_roundtrip_when_fresh_witness :
    ∃ resp ctx', CreateProofRecord Env.sample (Stub.healthy [("PROOF_1_a", parentOnlyStored)])
        (Payload.object extraFieldCandidate) = (resp, ctx') ∧
      resp.Success = true ∧
      (QueryProofRecord ctx' none resp.RecordID).1 =
        Except.ok (JVal.obj (stampRecord Env.sample extraFieldCandidate)) ∧
      getField (stampRecord Env.sample extraFieldCandidate) "color" =
        some (JVal.str "green") ∧
      getField (stampRecord Env.sample extraFieldCandidate) "docType" =
        some (JVal.str "proofRecord") := by
  obtain ⟨resp, ctx', h1, h2, _, _, h5, h6, _, _, _, _, h11⟩ :=
    C16_roundtrip_when_fresh Env.sample (Stub.healthy [("PROOF_1_a", parentOnlyStored)])
      extraFieldCandidate (by decide) (by decide!) rfl
  exact ⟨resp, ctx', h1, h2, h5, (h6 "color" (by decide)).trans (by decide), h11⟩

theorem PutState_none (ctx : Stub) (key : String) (value : JVal) (ctx2 : Stub)
    (h : ctx.PutState key value = (none, ctx2)) :
    ctx.putFault key = none ∧ ctx2.world.lookup key = some value := by
  cases hf : ctx.putFault key with
  | some err =>
    unfold Stub.PutState at h
    simp only [hf] at h
    simp at h
  | none =>
    obtain ⟨ctx', hp, _, hlook, _⟩ := PutState_ok ctx key value hf
    rw [hp] at h
    simp only [Prod.mk.injEq, true_and] at h
    subst h
    exact ⟨rfl, hlook⟩

theorem CreateProofRecord_success (env : Env) (ctx : Stub) (recordData : Payload)
    (resp : CreateProofRecordResponse) (ctx' : Stub)
    (h : CreateProofRecord env ctx recordData = (resp, ctx'))
    (hs : resp.Success = true) :
    ∃ record, recordData = Payload.object record ∧ validateRecord record = true ∧
      resp = CreateProofRecordResponse.mk true "Record saved successfully"
        (GenerateRecordKey env record)
        (some (decodeProofRecord (marshalObject (stampRecord env record)))) [] [] ∧
      ctx'.world.lookup (GenerateRecordKey env record) =
        some (JVal.obj (stampRecord env record)) := by
  cases recordData with
  | invalid err =>
    simp only [CreateProofRecord, Prod.mk.injEq] at h
    rw [← h.1] at hs
    simp [proofRecordFailure] at hs
  | object record =>
    by_cases hvalid : validateRecord record = true
    · obtain ⟨res, c, hc, _⟩ := checkForDuplicates_frame ctx record
      rw [CreateProofRecord_eq env ctx record hvalid _ _ hc] at h
      cases hd : res.IsDuplicate with
      | true =>
        simp only [hd, if_true, Prod.mk.injEq] at h
        rw [← h.1] at hs
        simp at hs
      | false =>
        simp only [hd, Bool.false_eq_true, if_false] at h
        cases hp : Stub.PutState { ctx with calls := c } (GenerateRecordKey env record)
            (JVal.obj (stampRecord env record)) with
        | mk e ctx2 =>
          rw [hp] at h
          cases e with
          | some err =>
            simp only [Prod.mk.injEq] at h
            rw [← h.1] at hs
            simp [proofRecordFailure] at hs
          | none =>
            simp only [Prod.mk.injEq] at h
            obtain ⟨_, hlook⟩ := PutState_none _ _ _ _ hp
            rw [h.2] at hlook
            exact ⟨record, rfl, hvalid, h.1.symm, hlook⟩
    · unfold CreateProofRecord at h
      simp only [hvalid, Bool.not_false, if_true, Prod.mk.injEq] at h
      rw [← h.1] at hs
      simp [proofRecordFailure] at hs

theorem CreateTicket_success (env : Env) (ctx : Stub) (ticketData : Payload)
    (resp : CreateTicketResponse) (ctx' : Stub)
    (h : CreateTicket env ctx ticketData = some (resp, ctx'))
    (hs : resp.Success = true) :
    ∃ ticket id, ticketData = Payload.object ticket ∧ validateTicket ticket = true ∧
      getField ticket "id" = some (JVal.str id) ∧
      resp = CreateTicketResponse.mk true "Ticket saved successfully" ("TICKET_" ++ id)
        (some (decodeTicket (marshalObject (stampTicket env ticket)))) [] [] ∧
      ctx'.world.lookup ("TICKET_" ++ id) = some (JVal.obj (stampTicket env ticket)) := by
  cases ticketData with
  | invalid err =>
    simp only [CreateTicket, Option.some.injEq, Prod.mk.injEq] at h
    rw [← h.1] at hs
    simp [ticketFailure] at hs
  | object ticket =>
    by_cases hvalid : validateTicket ticket = true
    · rw [CreateTicket_eq env ctx ticket hvalid] at h
      by_cases hq : queryAnswer ctx (ticketSelectorOf ticket) = []
      · rw [if_pos hq] at h
        cases hg : getField ticket "id" with
        | none => rw [hg] at h; simp at h
        | some v =>
          cases v with
          | str s =>
            rw [hg] at h
            simp only at h
            cases hp : Stub.PutState
                { ctx with calls := ctx.calls ++
                    [StubCall.GetQueryResult (ticketSelectorOf ticket)] }
                ("TICKET_" ++ s) (JVal.obj (stampTicket env ticket)) with
            | mk e ctx2 =>
              rw [hp] at h
              cases e with
              | some err =>
                simp only [Option.some.injEq, Prod.mk.injEq] at h
                rw [← h.1] at hs
                simp [ticketFailure] at hs
              | none =>
                simp only [Option.some.injEq, Prod.mk.injEq] at h
                obtain ⟨_, hlook⟩ := PutState_none _ _ _ _ hp
                rw [h.2] at hlook
                exact ⟨ticket, s, rfl, hvalid, hg, h.1.symm, hlook⟩
          | null => rw [hg] at h; simp at h
          | bool b => rw [hg] at h; simp at h
          | num q => rw [hg] at h; simp at h
          | arr a => rw [hg] at h; simp at h
          | obj o => rw [hg] at h; simp at h
      · rw [if_neg hq] at h
        simp only [Option.some.injEq, Prod.mk.injEq] at h
        rw [← h.1] at hs
        simp at hs
    · unfold CreateTicket at h
      simp only [hvalid, Bool.not_false, if_true, Option.some.injEq, Prod.mk.injEq] at h
      rw [← h.1] at hs
      simp [ticketFailure] at hs
theorem getField_none_of_not_key (m : List (String × JVal)) (f : String)
    (h : f ∉ m.map Prod.fst) : getField m f = none := by
  unfold getField
  cases hl : m.lookup f with
  | none => rfl
  | some v =>
    have hs : (m.lookup f).isSome = true := by rw [hl]; rfl
    obtain ⟨e, he, hef⟩ := (lookup_isSome_iff m f).1 hs
    exact absurd (List.mem_map.2 ⟨e, he, hef⟩) h

theorem toJSON_schema (r : ProofRecord) :
    r.toJSON.map Prod.fst = recordSchema ∧
    ∀ f, f ∉ recordSchema → getField r.toJSON f = none := by
  refine ⟨rfl, ?_⟩
  intro f hf
  exact getField_none_of_not_key _ f hf

theorem ticket_toJSON_schema (t : Ticket) :
    t.toJSON.map Prod.fst = ticketSchema ∧
    ∀ f, f ∉ ticketSchema → getField t.toJSON f = none := by
  refine ⟨rfl, ?_⟩
  intro f hf
  exact getField_none_of_not_key _ f hf

theorem dedupKeys_sublist (m : List (String × JVal)) : ∀ kv ∈ dedupKeys m, kv ∈ m := by
  induction m with
  | nil => intro kv h; cases h
  | cons b rest ih =>
    intro kv h
    simp only [dedupKeys, List.mem_cons, List.mem_filter] at h
    rcases h with h | ⟨h, _⟩
    · exact h ▸ List.mem_cons_self _ _
    · exact List.mem_cons_of_mem _ (ih kv h)

theorem lookup_filter_ne (l : List (String × JVal)) (a k : String) (h : k ≠ a) :
    (l.filter (fun other => decide (other.1 ≠ a))).lookup k = l.lookup k := by
  induction l with
  | nil => rfl
  | cons b rest ih =>
    obtain ⟨bk, bv⟩ := b
    by_cases hb : bk = a
    · have : decide ((bk, bv).1 ≠ a) = false := by simp [hb]
      rw [List.filter_cons_of_neg (by simp [hb]), ih, List.lookup_cons]
      have hk : (k == bk) = false := by
        rw [hb]
        simpa using h
      rw [hk]
    · rw [List.filter_cons_of_pos (by simp [hb]), List.lookup_cons, List.lookup_cons, ih]

theorem dedupKeys_lookup (m : List (String × JVal)) (k : String) :
    (dedupKeys m).lookup k = m.lookup k := by
  induction m with
  | nil => rfl
  | cons b rest ih =>
    obtain ⟨bk, bv⟩ := b
    simp only [dedupKeys, List.lookup_cons]
    by_cases hk : k = bk
    · simp [hk]
    · have : (k == bk) = false := by simpa using hk
      rw [this]
      simp only []
      rw [lookup_filter_ne _ _ _ hk, ih]

theorem dedupKeys_nodup (m : List (String × JVal)) : ((dedupKeys m).map Prod.fst).Nodup := by
  induction m with
  | nil => exact List.nodup_nil
  | cons b rest ih =>
    simp only [dedupKeys, List.map_cons, List.nodup_cons]
    constructor
    · intro hmem
      obtain ⟨kv, hkv, hk⟩ := List.mem_map.1 hmem
      have := (List.mem_filter.1 hkv).2
      simp only [ne_eq, decide_not, Bool.not_eq_true', decide_eq_false_iff_not] at this
      exact this hk
    · exact (List.Nodup.sublist (List.Sublist.map _ (List.filter_sublist _)) ih)

theorem filter_key_nodup (l : List (String × JVal)) (hnd : (l.map Prod.fst).Nodup)
    (tag : String) :
    (l.filter (fun kv => decide (kv.1 = tag))).map Prod.snd = (l.lookup tag).toList := by
  induction l with
  | nil => rfl
  | cons b rest ih =>
    obtain ⟨bk, bv⟩ := b
    simp only [List.map_cons, List.nodup_cons] at hnd
    by_cases hb : bk = tag
    · subst hb
      rw [List.filter_cons_of_pos (by simp), List.lookup_cons]
      simp only [beq_self_eq_true, List.map_cons, Option.toList]
      have hnone : rest.filter (fun kv => decide (kv.1 = bk)) = [] := by
        rw [List.filter_eq_nil_iff]
        intro kv hkv hk
        simp only [decide_eq_true_eq] at hk
        exact hnd.1 (List.mem_map.2 ⟨kv, hkv, hk⟩)
      rw [hnone]
      rfl
    · rw [List.filter_cons_of_neg (by simp [hb]), List.lookup_cons, ih hnd.2]
      have : (tag == bk) = false := by simpa using (fun h : tag = bk => hb h.symm)
      rw [this]

theorem fieldFor_self (schema : List String) (tag : String) (h : tag ∈ schema) :
    fieldFor schema tag = some tag := by
  unfold fieldFor
  cases hf : schema.find? (fun t => decide (t = tag)) with
  | none =>
    rw [List.find?_eq_none] at hf
    exact absurd (by simp) (hf tag h)
  | some t =>
    have := List.find?_some hf
    simp only [decide_eq_true_eq] at this
    rw [this]

theorem fieldFor_other (schema : List String) (tag key : String) (hne : key ≠ tag)
    (hfold : equalFold tag key = false) : fieldFor schema key ≠ some tag := by
  unfold fieldFor
  cases hf : schema.find? (fun t => decide (t = key)) with
  | some t =>
    have := List.find?_some hf
    simp only [decide_eq_true_eq] at this
    simp only [ne_eq, Option.some.injEq]
    intro h
    exact hne (by rw [← this, h])
  | none =>
    simp only []
    intro h
    have := List.find?_some h
    rw [hfold] at this
    cases this

theorem valuesFor_eq (schema : List String) (m : List (String × JVal)) (tag : String)
    (htag : tag ∈ schema)
    (h : ∀ key ∈ m.map Prod.fst, key ≠ tag → equalFold tag key = false) :
    valuesFor schema (marshalObject m) tag = (getField m tag).toList := by
  unfold valuesFor
  have hperm : (marshalObject m).Perm (dedupKeys m) := List.perm_insertionSort _ _
  have hcongr : (marshalObject m).filter (fun member => decide (fieldFor schema member.1 = some tag))
      = (marshalObject m).filter (fun kv => decide (kv.1 = tag)) := by
    apply List.filter_congr
    intro kv hkv
    have hmem : kv.1 ∈ m.map Prod.fst :=
      List.mem_map.2 ⟨kv, dedupKeys_sublist m kv (hperm.mem_iff.1 hkv), rfl⟩
    by_cases hk : kv.1 = tag
    · simp [hk, fieldFor_self schema tag htag]
    · have := fieldFor_other schema tag kv.1 hk (h kv.1 hmem hk)
      simp [hk, this]
  rw [hcongr]
  have hp2 : (((marshalObject m).filter (fun kv => decide (kv.1 = tag))).map Prod.snd).Perm
      (((dedupKeys m).filter (fun kv => decide (kv.1 = tag))).map Prod.snd) :=
    (hperm.filter _).map _
  rw [filter_key_nodup _ (dedupKeys_nodup m) tag, dedupKeys_lookup] at hp2
  unfold getField
  cases hl : m.lookup tag with
  | none =>
    rw [hl] at hp2
    exact List.Perm.eq_nil hp2
  | some v =>
    rw [hl] at hp2
    exact List.perm_singleton.1 hp2

theorem foldl_storeString (schema : List String) (m : List (String × JVal)) (tag : String)
    (htag : tag ∈ schema)
    (h : ∀ key ∈ m.map Prod.fst, key ≠ tag → equalFold tag key = false) :
    (valuesFor schema (marshalObject m) tag).foldl storeString "" =
      ((getField m tag).map (storeString "")).getD "" := by
  rw [valuesFor_eq schema m tag htag h]
  cases getField m tag <;> rfl

theorem foldl_storeFloat (schema : List String) (m : List (String × JVal)) (tag : String)
    (htag : tag ∈ schema)
    (h : ∀ key ∈ m.map Prod.fst, key ≠ tag → equalFold tag key = false) :
    (valuesFor schema (marshalObject m) tag).foldl storeFloat 0 =
      ((getField m tag).map (storeFloat 0)).getD 0 := by
  rw [valuesFor_eq schema m tag htag h]
  cases getField m tag <;> rfl

theorem foldl_storeFloatPtr (schema : List String) (m : List (String × JVal)) (tag : String)
    (htag : tag ∈ schema)
    (h : ∀ key ∈ m.map Prod.fst, key ≠ tag → equalFold tag key = false) :
    (valuesFor schema (marshalObject m) tag).foldl storeFloatPtr none =
      (getField m tag).bind (storeFloatPtr none) := by
  rw [valuesFor_eq schema m tag htag h]
  cases getField m tag <;> rfl

theorem toJSON_fields (r : ProofRecord) :
    getField r.toJSON "sponsor_id" = some (JVal.str r.SponsorID) ∧
    getField r.toJSON "proof_short_id" = some (JVal.str r.ProofShortID) ∧
    getField r.toJSON "collector_name" = some (JVal.str r.CollectorName) ∧
    getField r.toJSON "bulk_name" = some (JVal.str r.BulkName) ∧
    getField r.toJSON "traceChainType" = some (JVal.str r.TraceChainType) ∧
    getField r.toJSON "bulk_short_id" = some (JVal.str r.BulkShortID) ∧
    getField r.toJSON "recordId" = some (JVal.str r.RecordID) ∧
    getField r.toJSON "createdAt" = some (JVal.str r.CreatedAt) ∧
    getField r.toJSON "createdBy" = some (JVal.str r.CreatedBy) ∧
    getField r.toJSON "docType" = some (JVal.str r.DocType) ∧
    getField r.toJSON "parent_increment" = some (JVal.num r.ParentIncrement) ∧
    getField r.toJSON "chained_weight" = some (JVal.num r.ChainedWeight) ∧
    getField r.toJSON "store_increment" =
      some ((r.StoreIncrement.map JVal.num).getD JVal.null) ∧
    getField r.toJSON "press_increment" =
      some ((r.PressIncrement.map JVal.num).getD JVal.null) := by
  refine ⟨?_, ?_, ?_, ?_, ?_, ?_, ?_, ?_, ?_, ?_, ?_, ?_, ?_, ?_⟩ <;>
    simp [getField, ProofRecord.toJSON, List.lookup] <;>
    cases r.StoreIncrement <;> cases r.PressIncrement <;> rfl

theorem ticket_toJSON_fields (t : Ticket) :
    getField t.toJSON "id" = some (JVal.str t.ID) ∧
    getField t.toJSON "createdAt" = some (JVal.str t.CreatedAt) ∧
    getField t.toJSON "createdBy" = some (JVal.str t.CreatedBy) ∧
    getField t.toJSON "docType" = some (JVal.str t.DocType) ∧
    getField t.toJSON "receivedWeight" = some (JVal.num t.ReceivedWeight) ∧
    getField t.toJSON "incrementId" = some (JVal.num t.IncrementID) := by
  refine ⟨?_, ?_, ?_, ?_, ?_, ?_⟩ <;> simp [getField, Ticket.toJSON, List.lookup]

theorem decodeProofRecord_strings (m : List (String × JVal)) (tag : String)
    (hf : tag ∈ ["sponsor_id", "proof_short_id", "collector_name", "bulk_name",
      "traceChainType", "bulk_short_id", "recordId", "createdAt", "createdBy", "docType"])
    (h : ∀ key ∈ m.map Prod.fst, key ≠ tag → equalFold tag key = false) :
    getField (decodeProofRecord (marshalObject m)).toJSON tag =
      some (JVal.str (((getField m tag).map (storeString "")).getD "")) := by
  have f := toJSON_fields (decodeProofRecord (marshalObject m))
  simp only [List.mem_cons, List.mem_singleton, List.not_mem_nil, or_false] at hf
  rcases hf with hf | hf | hf | hf | hf | hf | hf | hf | hf | hf <;> subst hf
  · rw [f.1, ← foldl_storeString recordSchema m _ (by decide) h]; rfl
  · rw [f.2.1, ← foldl_storeString recordSchema m _ (by decide) h]; rfl
  · rw [f.2.2.1, ← foldl_storeString recordSchema m _ (by decide) h]; rfl
  · rw [f.2.2.2.1, ← foldl_storeString recordSchema m _ (by decide) h]; rfl
  · rw [f.2.2.2.2.1, ← foldl_storeString recordSchema m _ (by decide) h]; rfl
  · rw [f.2.2.2.2.2.1, ← foldl_storeString recordSchema m _ (by decide) h]; rfl
  · rw [f.2.2.2.2.2.2.1, ← foldl_storeString recordSchema m _ (by decide) h]; rfl
  · rw [f.2.2.2.2.2.2.2.1, ← foldl_storeString recordSchema m _ (by decide) h]; rfl
  · rw [f.2.2.2.2.2.2.2.2.1, ← foldl_storeString recordSchema m _ (by decide) h]; rfl
  · rw [f.2.2.2.2.2.2.2.2.2.1, ← foldl_storeString recordSchema m _ (by decide) h]; rfl

theorem decodeProofRecord_numbers (m : List (String × JVal)) (tag : String)
    (hf : tag ∈ ["parent_increment", "chained_weight"])
    (h : ∀ key ∈ m.map Prod.fst, key ≠ tag → equalFold tag key = false) :
    getField (decodeProofRecord (marshalObject m)).toJSON tag =
      some (JVal.num (((getField m tag).map (storeFloat 0)).getD 0)) := by
  have f := toJSON_fields (decodeProofRecord (marshalObject m))
  simp only [List.mem_cons, List.mem_singleton, List.not_mem_nil, or_false] at hf
  rcases hf with hf | hf <;> subst hf
  · rw [f.2.2.2.2.2.2.2.2.2.2.1, ← foldl_storeFloat recordSchema m _ (by decide) h]; rfl
  · rw [f.2.2.2.2.2.2.2.2.2.2.2.1, ← foldl_storeFloat recordSchema m _ (by decide) h]; rfl

theorem decodeProofRecord_pointers (m : List (String × JVal)) (tag : String)
    (hf : tag ∈ ["store_increment", "press_increment"])
    (h : ∀ key ∈ m.map Prod.fst, key ≠ tag → equalFold tag key = false) :
    getField (decodeProofRecord (marshalObject m)).toJSON tag =
      some ((((getField m tag).bind (storeFloatPtr none)).map JVal.num).getD JVal.null) := by
  have f := toJSON_fields (decodeProofRecord (marshalObject m))
  simp only [List.mem_cons, List.mem_singleton, List.not_mem_nil, or_false] at hf
  rcases hf with hf | hf <;> subst hf
  · rw [f.2.2.2.2.2.2.2.2.2.2.2.2.1, ← foldl_storeFloatPtr recordSchema m _ (by decide) h]; rfl
  · rw [f.2.2.2.2.2.2.2.2.2.2.2.2.2, ← foldl_storeFloatPtr recordSchema m _ (by decide) h]; rfl

theorem decodeTicket_strings (m : List (String × JVal)) (tag : String)
    (hf : tag ∈ ["id", "createdAt", "createdBy", "docType"])
    (h : ∀ key ∈ m.map Prod.fst, key ≠ tag → equalFold tag key = false) :
    getField (decodeTicket (marshalObject m)).toJSON tag =
      some (JVal.str (((getField m tag).map (storeString "")).getD "")) := by
  have f := ticket_toJSON_fields (decodeTicket (marshalObject m))
  simp only [List.mem_cons, List.mem_singleton, List.not_mem_nil, or_false] at hf
  rcases hf with hf | hf | hf | hf <;> subst hf
  · rw [f.1, ← foldl_storeString ticketSchema m _ (by decide) h]; rfl
  · rw [f.2.1, ← foldl_storeString ticketSchema m _ (by decide) h]; rfl
  · rw [f.2.2.1, ← foldl_storeString ticketSchema m _ (by decide) h]; rfl
  · rw [f.2.2.2.1, ← foldl_storeString ticketSchema m _ (by decide) h]; rfl

theorem decodeTicket_numbers (m : List (String × JVal)) (tag : String)
    (hf : tag ∈ ["receivedWeight", "incrementId"])
    (h : ∀ key ∈ m.map Prod.fst, key ≠ tag → equalFold tag key = false) :
    getField (decodeTicket (marshalObject m)).toJSON tag =
      some (JVal.num (((getField m tag).map (storeFloat 0)).getD 0)) := by
  have f := ticket_toJSON_fields (decodeTicket (marshalObject m))
  simp only [List.mem_cons, List.mem_singleton, List.not_mem_nil, or_false] at hf
  rcases hf with hf | hf <;> subst hf
  · rw [f.2.2.2.2.1, ← foldl_storeFloat ticketSchema m _ (by decide) h]; rfl
  · rw [f.2.2.2.2.2, ← foldl_storeFloat ticketSchema m _ (by decide) h]; rfl

theorem typedView_strings (view : Option JVal) (stored : Option JVal)
    (e : view = some (JVal.str ((stored.map (storeString "")).getD ""))) :
    (∀ s, stored = some (JVal.str s) → view = some (JVal.str s)) ∧
    ((∀ s, stored ≠ some (JVal.str s)) → view = some (JVal.str "")) := by
  subst e
  constructor
  · intro s hs
    rw [hs]
    rfl
  · intro hn
    cases stored with
    | none => rfl
    | some v =>
      cases v with
      | str s => exact absurd rfl (hn s)
      | null => rfl
      | bool b => rfl
      | num q => rfl
      | arr a => rfl
      | obj o => rfl

theorem typedView_numbers (view : Option JVal) (stored : Option JVal)
    (e : view = some (JVal.num ((stored.map (storeFloat 0)).getD 0))) :
    (∀ q, stored = some (JVal.num q) → view = some (JVal.num q)) ∧
    ((∀ q, stored ≠ some (JVal.num q)) → view = some (JVal.num 0)) := by
  subst e
  constructor
  · intro q hq
    rw [hq]
    rfl
  · intro hn
    cases stored with
    | none => rfl
    | some v =>
      cases v with
      | num q => exact absurd rfl (hn q)
      | null => rfl
      | bool b => rfl
      | str s => rfl
      | arr a => rfl
      | obj o => rfl

theorem typedView_pointers (view : Option JVal) (stored : Option JVal)
    (e : view = some (((stored.bind (storeFloatPtr none)).map JVal.num).getD JVal.null)) :
    (∀ q, stored = some (JVal.num q) → view = some (JVal.num q)) ∧
    (stored = none ∨ stored = some JVal.null → view = some JVal.null) ∧
    (∀ v, stored = some v → v ≠ JVal.null → (∀ q, v ≠ JVal.num q) →
      view = some (JVal.num 0)) := by
  subst e
  refine ⟨?_, ?_, ?_⟩
  · intro q hq
    rw [hq]
    rfl
  · rintro (h | h) <;> rw [h] <;> rfl
  · intro v hv hnull hnum
    rw [hv]
    cases v with
    | num q => exact absurd rfl (hnum q)
    | null => exact absurd rfl hnull
    | bool b => rfl
    | str s => rfl
    | arr a => rfl
    | obj o => rfl

/-- C17 (counterexample): a payload with a field outside the schema on which
`CreateProofRecord` succeeds.  The entity persisted under the returned key
holds `color`, the record object of the response does not: it has the
fourteen schema fields where the entity has thirteen fields.  The same for a
ticket with the extra field `note`.  On a payload with the key `recordid`, the
entity holds the generated key as its `recordId`, and the record of the
response holds the payload's value there. -/
theorem C17_counterexample :
    (∃ resp ctx' r stored,
      CreateProofRecord Env.sample (Stub.healthy []) (Payload.object extraFieldCandidate) =
        (resp, ctx') ∧
      resp.Success = true ∧ resp.Record = some r ∧
      ctx'.world.lookup resp.RecordID = some (JVal.obj stored) ∧
      getField stored "color" = some (JVal.str "green") ∧
      getField r.toJSON "color" = none ∧
      getField r.toJSON "sponsor_id" = getField stored "sponsor_id" ∧
      stored.length = 13 ∧ r.toJSON.length = 14) ∧
    (∃ resp ctx' t stored,
      CreateTicket Env.sample (Stub.healthy []) (Payload.object extraFieldTicket) =
        some (resp, ctx') ∧
      resp.Success = true ∧ resp.Ticket = some t ∧
      ctx'.world.lookup resp.TicketKey = some (JVal.obj stored) ∧
      getField stored "note" = some (JVal.str "fragile") ∧
      getField t.toJSON "note" = none) ∧
    (∃ resp ctx' r stored,
      CreateProofRecord Env.sample (Stub.healthy []) (Payload.object lowercaseKeyCandidate) =
        (resp, ctx') ∧
      resp.Success = true ∧ resp.Record = some r ∧
      ctx'.world.lookup resp.RecordID = some (JVal.obj stored) ∧
      getField stored "recordId" = some (JVal.str resp.RecordID) ∧
      getField stored "recordid" = some (JVal.str "forged") ∧
      getField r.toJSON "recordId" = some (JVal.str "forged") ∧
      resp.RecordID ≠ "forged") := by
  refine ⟨?_, ?_, ?_⟩
  · refine ⟨(CreateProofRecord Env.sample (Stub.healthy [])
        (Payload.object extraFieldCandidate)).1,
      (CreateProofRecord Env.sample (Stub.healthy [])
        (Payload.object extraFieldCandidate)).2,
      decodeProofRecord (marshalObject (stampRecord Env.sample extraFieldCandidate)),
      stampRecord Env.sample extraFieldCandidate, rfl, ?_, ?_, ?_, ?_, ?_, ?_, ?_, ?_⟩ <;>
      decide!
  · obtain ⟨ctx2, hp, _, hlook, _⟩ :=
      PutState_ok { Stub.healthy [] with calls := (Stub.healthy []).calls ++
          [StubCall.GetQueryResult (ticketSelectorOf extraFieldTicket)] }
        ("TICKET_" ++ "T9") (JVal.obj (stampTicket Env.sample extraFieldTicket)) rfl
    refine ⟨CreateTicketResponse.mk true "Ticket saved successfully" ("TICKET_" ++ "T9")
        (some (decodeTicket (marshalObject (stampTicket Env.sample extraFieldTicket)))) [] [],
      ctx2, decodeTicket (marshalObject (stampTicket Env.sample extraFieldTicket)),
      stampTicket Env.sample extraFieldTicket, ?_, rfl, rfl, hlook, by decide!, by decide!⟩
    rw [CreateTicket_eq Env.sample (Stub.healthy []) extraFieldTicket (by decide),
      if_pos (by decide!)]
    have hid : getField extraFieldTicket "id" = some (JVal.str "T9") := by decide
    simp only [hid, hp]
  · refine ⟨(CreateProofRecord Env.sample (Stub.healthy [])
        (Payload.object lowercaseKeyCandidate)).1,
      (CreateProofRecord Env.sample (Stub.healthy [])
        (Payload.object lowercaseKeyCandidate)).2,
      decodeProofRecord (marshalObject (stampRecord Env.sample lowercaseKeyCandidate)),
      stampRecord Env.sample lowercaseKeyCandidate, rfl, ?_, ?_, ?_, ?_, ?_, ?_, ?_⟩ <;>
      decide!

/-- C17 (amended): for every payload on which `CreateProofRecord` succeeds, the
success result carries the key under which the entity is persisted, and as its
record the typed decoding of the marshalled entity; the JSON of the record has
the fourteen schema fields and no other, so that a caller-supplied field
outside the schema is persisted but not returned.  For a schema field whose tag
no other key of the entity matches case-insensitively: when the entity holds it
with a value of the field's type, the record returns that value; otherwise the
record returns the zero value of the field (the empty string, 0, and for the
two optional increments `null` when absent or `null`, 0 on a value of another
type).  The same holds for `CreateTicket` with the six fields of the ticket
schema. -/
theorem C17_response_is_typed_view (env : Env) (ctx : Stub) (recordData : Payload)
    (resp : CreateProofRecordResponse) (ctx' : Stub)
    (h : CreateProofRecord env ctx recordData = (resp, ctx'))
    (hs : resp.Success = true) :
    (∃ record, recordData = Payload.object record ∧
      resp.RecordID = GenerateRecordKey env record ∧
      ctx'.world.lookup resp.RecordID = some (JVal.obj (stampRecord env record)) ∧
      resp.Record = some (decodeProofRecord (marshalObject (stampRecord env record))) ∧
      (∀ f, f ∉ recordStamps → getField (stampRecord env record) f = getField record f) ∧
      ((decodeProofRecord (marshalObject (stampRecord env record))).toJSON.map Prod.fst =
        recordSchema) ∧
      (∀ f, f ∉ recordSchema →
        getField (decodeProofRecord (marshalObject (stampRecord env record))).toJSON f =
          none)) ∧
    (∀ (m : List (String × JVal)) (tag : String),
      tag ∈ ["sponsor_id", "proof_short_id", "collector_name", "bulk_name",
        "traceChainType", "bulk_short_id", "recordId", "createdAt", "createdBy", "docType"] →
      (∀ key ∈ m.map Prod.fst, key ≠ tag → equalFold tag key = false) →
      (∀ s, getField m tag = some (JVal.str s) →
        getField (decodeProofRecord (marshalObject m)).toJSON tag = some (JVal.str s)) ∧
      ((∀ s, getField m tag ≠ some (JVal.str s)) →
        getField (decodeProofRecord (marshalObject m)).toJSON tag = some (JVal.str ""))) ∧
    (∀ (m : List (String × JVal)) (tag : String),
      tag ∈ ["parent_increment", "chained_weight"] →
      (∀ key ∈ m.map Prod.fst, key ≠ tag → equalFold tag key = false) →
      (∀ q, getField m tag = some (JVal.num q) →
        getField (decodeProofRecord (marshalObject m)).toJSON tag = some (JVal.num q)) ∧
      ((∀ q, getField m tag ≠ some (JVal.num q)) →
        getField (decodeProofRecord (marshalObject m)).toJSON tag = some (JVal.num 0))) ∧
    (∀ (m : List (String × JVal)) (tag : String),
      tag ∈ ["store_increment", "press_increment"] →
      (∀ key ∈ m.map Prod.fst, key ≠ tag → equalFold tag key = false) →
      (∀ q, getField m tag = some (JVal.num q) →
        getField (decodeProofRecord (marshalObject m)).toJSON tag = some (JVal.num q)) ∧
      (getField m tag = none ∨ getField m tag = some JVal.null →
        getField (decodeProofRecord (marshalObject m)).toJSON tag = some JVal.null) ∧
      (∀ v, getField m tag = some v → v ≠ JVal.null → (∀ q, v ≠ JVal.num q) →
        getField (decodeProofRecord (marshalObject m)).toJSON tag = some (JVal.num 0))) ∧
    (∀ (ticketData : Payload) (tresp : CreateTicketResponse) (tctx : Stub),
      CreateTicket env ctx ticketData = some (tresp, tctx) → tresp.Success = true →
      ∃ ticket id, ticketData = Payload.object ticket ∧
        getField ticket "id" = some (JVal.str id) ∧
        tresp.TicketKey = "TICKET_" ++ id ∧
        tctx.world.lookup tresp.TicketKey = some (JVal.obj (stampTicket env ticket)) ∧
        tresp.Ticket = some (decodeTicket (marshalObject (stampTicket env ticket))) ∧
        ((decodeTicket (marshalObject (stampTicket env ticket))).toJSON.map Prod.fst =
          ticketSchema) ∧
        (∀ f, f ∉ ticketSchema →
          getField (decodeTicket (marshalObject (stampTicket env ticket))).toJSON f = none)) ∧
    (∀ (m : List (String × JVal)) (tag : String),
      tag ∈ ["id", "createdAt", "createdBy", "docType"] →
      (∀ key ∈ m.map Prod.fst, key ≠ tag → equalFold tag key = false) →
      (∀ s, getField m tag = some (JVal.str s) →
        getField (decodeTicket (marshalObject m)).toJSON tag = some (JVal.str s)) ∧
      ((∀ s, getField m tag ≠ some (JVal.str s)) →
        getField (decodeTicket (marshalObject m)).toJSON tag = some (JVal.str ""))) ∧
    (∀ (m : List (String × JVal)) (tag : String),
      tag ∈ ["receivedWeight", "incrementId"] →
      (∀ key ∈ m.map Prod.fst, key ≠ tag → equalFold tag key = false) →
      (∀ q, getField m tag = some (JVal.num q) →
        getField (decodeTicket (marshalObject m)).toJSON tag = some (JVal.num q)) ∧
      ((∀ q, getField m tag ≠ some (JVal.num q)) →
        getField (decodeTicket (marshalObject m)).toJSON tag = some (JVal.num 0))) := by
  refine ⟨?_, ?_, ?_, ?_, ?_, ?_, ?_⟩
  · obtain ⟨record, hr, _, hresp, hlook⟩ :=
      CreateProofRecord_success env ctx recordData resp ctx' h hs
    subst hresp
    exact ⟨record, hr, rfl, hlook, rfl, (stampRecord_fields env record).1,
      (toJSON_schema _).1, (toJSON_schema _).2⟩
  · intro m tag hf hno
    exact typedView_strings _ _ (decodeProofRecord_strings m tag hf hno)
  · intro m tag hf hno
    exact typedView_numbers _ _ (decodeProofRecord_numbers m tag hf hno)
  · intro m tag hf hno
    exact typedView_pointers _ _ (decodeProofRecord_pointers m tag hf hno)
  · intro ticketData tresp tctx ht hts
    obtain ⟨ticket, id, hr, _, hid, hresp, hlook⟩ :=
      CreateTicket_success env ctx ticketData tresp tctx ht hts
    subst hresp
    exact ⟨ticket, id, hr, hid, rfl, hlook, rfl, (ticket_toJSON_schema _).1,
      (ticket_toJSON_schema _).2⟩
  · intro m tag hf hno
    exact typedView_strings _ _ (decodeTicket_strings m tag hf hno)
  · intro m tag hf hno
    exact typedView_numbers _ _ (decodeTicket_numbers m tag hf hno)

/-- Witness of C17 (amended): on a payload with the extra field `color` the
record of the response is the typed decoding of the stamped entity, without
`color`. -/
theorem C17_response_is_typed_view_witness :
    ∃ record, Payload.object extraFieldCandidate = Payload.object record ∧
      (CreateProofRecord Env.sample (Stub.healthy [("PROOF_1_a", parentOnlyStored)])
        (Payload.object extraFieldCandidate)).1.Record =
        some (decodeProofRecord (marshalObject (stampRecord Env.sample record))) ∧
      getField (decodeProofRecord (marshalObject (stampRecord Env.sample record))).toJSON
        "color" = none := by
  obtain ⟨⟨record, h1, _, _, h4, _, _, h7⟩, _⟩ :=
    C17_response_is_typed_view Env.sample (Stub.healthy [("PROOF_1_a", parentOnlyStored)])
      (Payload.object extraFieldCandidate)
      (CreateProofRecord Env.sample (Stub.healthy [("PROOF_1_a", parentOnlyStored)])
        (Payload.object extraFieldCandidate)).1
      (CreateProofRecord Env.sample (Stub.healthy [("PROOF_1_a", parentOnlyStored)])
        (Payload.object extraFieldCandidate)).2 rfl (by decide!)
  exact ⟨record, h1, h4, h7 "color" (by decide)⟩

theorem field_cases (record : List (String × JVal)) (f : String) :
    (getField record f = none ∧ hasValue record f = false ∧ presentBinding record f = [] ∧
      (JVal.null = JVal.null) = True) ∨
    (getField record f = some JVal.null ∧ hasValue record f = false ∧
      presentBinding record f = [] ∧ (JVal.null = JVal.null) = True) ∨
    (∃ v, getField record f = some v ∧ hasValue record f = true ∧
      presentBinding record f = [(f, v)] ∧ (v = JVal.null) = False) := by
  unfold hasValue presentBinding
  cases h : getField record f with
  | none => exact Or.inl ⟨rfl, rfl, rfl, eq_self _⟩
  | some v =>
    by_cases hv : v = JVal.null
    · subst hv
      exact Or.inr (Or.inl ⟨rfl, by simp, by simp, eq_self _⟩)
    · exact Or.inr (Or.inr ⟨v, rfl, by simp [hv], by simp [hv], eq_false hv⟩)

theorem groupSelector_collapses (record : List (String × JVal)) :
    groupSelector record ["store_increment", "press_increment", "parent_increment"] =
      collapsedSelector record ∧
    (hasValue record "store_increment" = false →
      groupSelector record ["press_increment", "parent_increment"] =
        collapsedSelector record) ∧
    (hasValue record "press_increment" = false →
      groupSelector record ["parent_increment", "store_increment"] =
        collapsedSelector record) ∧
    (hasValue record "press_increment" = false → hasValue record "store_increment" = false →
      groupSelector record ["parent_increment"] = collapsedSelector record) := by
  have k1 : ("docType" : String) ≤ "parent_increment" := by decide!
  have k2 : ("docType" : String) ≤ "store_increment" := by decide!
  have k3 : ("docType" : String) ≤ "press_increment" := by decide!
  have k4 : ("parent_increment" : String) ≤ "store_increment" := by decide!
  have k5 : ("parent_increment" : String) ≤ "press_increment" := by decide!
  have k6 : ("press_increment" : String) ≤ "store_increment" := by decide!
  have n1 : ¬ ("parent_increment" : String) ≤ "docType" := by decide!
  have n2 : ¬ ("store_increment" : String) ≤ "docType" := by decide!
  have n3 : ¬ ("press_increment" : String) ≤ "docType" := by decide!
  have n4 : ¬ ("store_increment" : String) ≤ "parent_increment" := by decide!
  have n5 : ¬ ("press_increment" : String) ≤ "parent_increment" := by decide!
  have n6 : ¬ ("store_increment" : String) ≤ "press_increment" := by decide!
  unfold groupSelector collapsedSelector marshalSelector buildSelector
  simp only [List.foldl]
  rcases field_cases record "store_increment" with
    ⟨gs, hs, bs, ns⟩ | ⟨gs, hs, bs, ns⟩ | ⟨vs, gs, hs, bs, ns⟩ <;>
  rcases field_cases record "press_increment" with
    ⟨gp, hp, bp, np⟩ | ⟨gp, hp, bp, np⟩ | ⟨vp, gp, hp, bp, np⟩ <;>
  rcases field_cases record "parent_increment" with
    ⟨gq, hq, bq, nq⟩ | ⟨gq, hq, bq, nq⟩ | ⟨vq, gq, hq, bq, nq⟩ <;>
  simp only [gs, gp, gq, bs, bp, bq, hs, hp, hq, ns, np, nq, setField, List.lookup,
    Option.isSome,
    List.nil_append, List.cons_append, List.append_nil, Bool.false_eq_true, Bool.true_eq_false,
    String.reduceBEq, List.map, String.reduceEq, List.insertionSort, List.orderedInsert,
    if_pos k1, if_pos k2, if_pos k3, if_pos k4, if_pos k5, if_pos k6,
    if_neg n1, if_neg n2, if_neg n3, if_neg n4, if_neg n5, if_neg n6,
    if_true, if_false, true_implies, implies_true, and_self, false_implies]

theorem eligibleGroups_head (record : List (String × JVal)) :
    ∃ rest, eligibleGroups record =
      (if hasValue record "store_increment" then
        ["store_increment", "press_increment", "parent_increment"]
      else ["press_increment", "parent_increment"]) :: rest := by
  unfold eligibleGroups
  cases hasValue record "store_increment" <;> cases hasValue record "press_increment" <;>
    simp

theorem eligible_selector_eq (record : List (String × JVal)) :
    ∀ g ∈ eligibleGroups record, groupSelector record g = collapsedSelector record := by
  obtain ⟨c1, c2, c3, c4⟩ := groupSelector_collapses record
  obtain ⟨hsub, m1, m2, m3, m4⟩ := eligibleGroups_facts record
  intro g hg
  have hall : g = ["store_increment", "press_increment", "parent_increment"] ∨
      g = ["press_increment", "parent_increment"] ∨
      g = ["parent_increment", "store_increment"] ∨ g = ["parent_increment"] := by
    have hmem := hsub.subset hg
    simp only [List.mem_cons, List.mem_singleton, List.not_mem_nil, or_false] at hmem
    exact hmem
  rcases hall with h | h | h | h <;> subst h
  · exact c1
  · exact c2 (m2.1 hg)
  · exact c3 (m3.1 hg)
  · exact c4 (m4.1 hg).1 (m4.1 hg).2

/-- C18: the four-group proof-record policy collapses to one query.  Every
eligible group of a candidate has the same selector, the one made of
`docType` = `proofRecord`, `parent_increment` and whichever of
`store_increment` and `press_increment` are non-null on the candidate; so
`checkForDuplicates` reports a duplicate exactly when that one query returns
an entity (when the query does not fail: exactly when a stored entity matches
it), the reported group is group 1 when `store_increment` is present and
group 2 when it is absent, and groups 3 and 4 are never reported. -/
theorem C18_policy_collapses_to_one_query (ctx : Stub) (record : List (String × JVal)) :
    (∀ g ∈ eligibleGroups record, groupSelector record g = collapsedSelector record) ∧
    (∃ res ctx', checkForDuplicates ctx record = (Except.ok res, ctx') ∧
      (res.IsDuplicate = true ↔ queryAnswer ctx (collapsedSelector record) ≠ []) ∧
      (res.IsDuplicate = true →
        res.DuplicateFields =
          (if hasValue record "store_increment" then
            ["store_increment", "press_increment", "parent_increment"]
          else ["press_increment", "parent_increment"]) ∧
        res.ExistingRecords = queryAnswer ctx (collapsedSelector record)) ∧
      res.DuplicateFields ≠ ["parent_increment", "store_increment"] ∧
      res.DuplicateFields ≠ ["parent_increment"] ∧
      (∀ items, bulkRead ctx (collapsedSelector record) = Except.ok items →
        (res.IsDuplicate = true ↔
          ∃ kv ∈ ctx.world, matchesSelector (collapsedSelector record) kv.2 = true))) ∧
    (∀ v, matchesSelector (collapsedSelector record) v = true ↔
      ∃ flds, v = JVal.obj flds ∧ getField flds "docType" = some (JVal.str "proofRecord") ∧
        ∀ f ∈ ["store_increment", "press_increment", "parent_increment"], ∀ val,
          getField record f = some val → val ≠ JVal.null → getField flds f = some val) := by
  have hcol := eligible_selector_eq record
  obtain ⟨rest, hhead⟩ := eligibleGroups_head record
  refine ⟨hcol, ?_, ?_⟩
  · obtain ⟨res, ctx', hc, _, hnone, hhit, _⟩ := checkForDuplicates_spec ctx record
    have hfirst : groupSelector record
        (if hasValue record "store_increment" then
          ["store_increment", "press_increment", "parent_increment"]
        else ["press_increment", "parent_increment"]) = collapsedSelector record :=
      hcol _ (by rw [hhead]; exact List.mem_cons_self _ _)
    have key : (res.IsDuplicate = true ↔ queryAnswer ctx (collapsedSelector record) ≠ []) ∧
        (res.IsDuplicate = true →
          res.DuplicateFields =
            (if hasValue record "store_increment" then
              ["store_increment", "press_increment", "parent_increment"]
            else ["press_increment", "parent_increment"]) ∧
          res.ExistingRecords = queryAnswer ctx (collapsedSelector record)) ∧
        res.DuplicateFields ≠ ["parent_increment", "store_increment"] ∧
        res.DuplicateFields ≠ ["parent_increment"] := by
      by_cases hq : queryAnswer ctx (collapsedSelector record) = []
      · obtain ⟨hr, _⟩ := hnone (fun g hg => by rw [hcol g hg]; exact hq)
        subst hr
        simp [hq]
      · obtain ⟨hr, _⟩ := hhit [] _ rest hhead (fun x hx => absurd hx (List.not_mem_nil x))
          (by rw [hfirst]; exact hq)
        rw [hfirst] at hr
        subst hr
        refine ⟨by simp [hq], fun _ => ⟨rfl, rfl⟩, ?_, ?_⟩ <;>
          cases hasValue record "store_increment" <;> simp
    refine ⟨res, ctx', hc, key.1, key.2.1, key.2.2.1, key.2.2.2, ?_⟩
    intro items hitems
    rw [key.1, queryAnswer_of_ok ctx _ items hitems]
    unfold scan
    constructor
    · intro hne
      cases hf : ctx.world.filter (fun kv => matchesSelector (collapsedSelector record) kv.2) with
      | nil => exact absurd hf hne
      | cons kv t =>
        have hm : kv ∈ ctx.world.filter
            (fun kv => matchesSelector (collapsedSelector record) kv.2) := by
          rw [hf]; exact List.mem_cons_self _ _
        exact ⟨kv, (List.mem_filter.1 hm).1, (List.mem_filter.1 hm).2⟩
    · rintro ⟨kv, hkv, hm⟩ hnil
      have hmem : kv ∈ ctx.world.filter
          (fun kv => matchesSelector (collapsedSelector record) kv.2) :=
        List.mem_filter.2 ⟨hkv, hm⟩
      rw [hnil] at hmem
      exact absurd hmem (List.not_mem_nil kv)
  · intro v
    rw [← (groupSelector_collapses record).1]
    exact matches_groupSelector "proofRecord" record
      ["store_increment", "press_increment", "parent_increment"] (by decide) v


/-! ### Cleanup and the order of the emitted weights -/

theorem contributionsTo_filter (kf vf : String) (k : ℚ) (p : String → Bool)
    (items : List (String × JVal)) :
    contributionsTo kf vf k (items.filter (fun kv => p kv.1)) =
      (contributionsTo kf vf k items).filter (fun c => p c.1) := by
  unfold contributionsTo
  induction items with
  | nil => rfl
  | cons it t ih =>
    rw [List.filter_cons]
    cases hp : p it.1 with
    | false =>
      simp only [Bool.false_eq_true, if_false, List.filterMap_cons]
      rw [ih]
      cases hn : numericPair kf vf it.2 with
      | none => rfl
      | some pr =>
        obtain ⟨inc, v⟩ := pr
        by_cases hk : inc = k
        · simp only [hk, if_true, List.filter_cons, hp, Bool.false_eq_true, if_false]
        · simp only [hk, if_false]
    | true =>
      simp only [if_true, List.filterMap_cons]
      rw [ih]
      cases hn : numericPair kf vf it.2 with
      | none => rfl
      | some pr =>
        obtain ⟨inc, v⟩ := pr
        by_cases hk : inc = k
        · simp only [hk, if_true, List.filter_cons, hp]
        · simp only [hk, if_false]

theorem scan_filter (world : List (String × JVal)) (sel : Selector)
    (p : String × JVal → Bool) :
    scan (world.filter p) sel = (scan world sel).filter p := by
  unfold scan
  rw [List.filter_filter, List.filter_filter]
  apply List.filter_congr
  intro x _
  exact Bool.and_comm _ _

theorem bulkRead_after_filter (ctx ctx2 : Stub) (sel : Selector) (a : List (String × JVal))
    (p : String × JVal → Bool)
    (h : bulkRead ctx sel = Except.ok a)
    (hq : ctx2.queryFault = ctx.queryFault)
    (hw : ctx2.world = ctx.world.filter p) :
    bulkRead ctx2 sel = Except.ok (scan ctx2.world sel) := by
  rw [bulkRead_eq] at h ⊢
  rw [hq]
  cases hf : ctx.queryFault sel with
  | none => rfl
  | onOpen err => rw [hf] at h; simp at h
  | onNext n err =>
    rw [hf] at h
    simp only at h ⊢
    by_cases hn : n < (scan ctx.world sel).length
    · rw [if_pos hn] at h; simp at h
    · have hle : (scan ctx2.world sel).length ≤ (scan ctx.world sel).length := by
        rw [hw, scan_filter]
        exact List.length_filter_le _ _
      rw [if_neg (by omega)]

theorem filterMap_eq_nil_of_forall {α β : Type} (f : α → Option β) (l : List α)
    (h : ∀ x ∈ l, f x = none) : l.filterMap f = [] := by
  induction l with
  | nil => rfl
  | cons a t ih =>
    rw [List.filterMap_cons, h a (List.mem_cons_self _ _)]
    exact ih (fun x hx => h x (List.mem_cons_of_mem _ hx))

theorem Reconcile_converges (field : String) (arch : Arch) (rt rt2 : Runtime) (ctx : Stub)
    (dv : String)
    (proofRecords tickets : List (String × JVal))
    (hp : bulkRead ctx proofSelector = Except.ok proofRecords)
    (ht : bulkRead ctx ticketSelector = Except.ok tickets)
    (hkeys : (ctx.world.map Prod.fst).Nodup)
    (hdel : ∀ kv ∈ ctx.world, ctx.delFault kv.1 = none) :
    ∃ (out1 out2 : Reply × Stub) (g g2 : Groups),
      Reconcile field arch rt ctx "true" = some out1 ∧
      IsBucketMap field ctx.world g ∧
      Reconcile field arch rt2 out1.2 dv = some out2 ∧
      IsBucketMap field out1.2.world g2 ∧
      out2.1 = Reply.document
        { Success := true, Results := [], DeletedRecords := [], Message := "" } ∧
      out2.2.world = out1.2.world ∧
      out2.2.calls = out1.2.calls ++
        [StubCall.GetQueryResult proofSelector, StubCall.GetQueryResult ticketSelector] ∧
      (∀ e ∈ g, Violating e.2 →
        g2.find e.1 = some { ChainedWeightSum := F64.finite 0, ReceivedWeightMax := e.2.ReceivedWeightMax,
                             TicketCount := e.2.TicketCount, RecordIDs := [] }) ∧
      (∀ k, (∀ d, g.find k = some d → ¬ Violating d) → g2.find k = g.find k) := by
  obtain ⟨g, hg, hrec⟩ := Reconcile_results field arch rt ctx "true" proofRecords tickets hp ht
  simp only [decide_True, if_true] at hrec
  have hmemK : ∀ key, key ∈ keysToDelete (rt.mapRange g) ↔
      ∃ e ∈ g, Violating e.2 ∧ key ∈ e.2.RecordIDs := by
    intro key
    rw [mem_keysToDelete]
    constructor
    · rintro ⟨e, he, h⟩; exact ⟨e, (rt.mapRange_perm g).mem_iff.1 he, h⟩
    · rintro ⟨e, he, h⟩; exact ⟨e, (rt.mapRange_perm g).mem_iff.2 he, h⟩
  have hinj : ∀ x ∈ ctx.world, ∀ y ∈ ctx.world, x.1 = y.1 → x = y :=
    List.inj_on_of_nodup_map hkeys
  have hsub : ∀ sel, ∀ x ∈ scan ctx.world sel, x ∈ ctx.world ∧ matchesSelector sel x.2 = true := by
    intro sel x hx
    unfold scan at hx
    exact List.mem_filter.1 hx
  have hw1 : (applyDeletes
      { ctx with calls := ctx.calls ++
          [StubCall.GetQueryResult proofSelector, StubCall.GetQueryResult ticketSelector] }
      (keysToDelete (rt.mapRange g))).world =
      ctx.world.filter (fun kv => decide (kv.1 ∉ keysToDelete (rt.mapRange g))) := by
    simp only [applyDeletes]
    apply List.filter_congr
    intro kv hkv
    by_cases h1 : kv.1 ∈ keysToDelete (rt.mapRange g) <;> simp [h1, hdel kv hkv]
  have hq1 : (applyDeletes
      { ctx with calls := ctx.calls ++
          [StubCall.GetQueryResult proofSelector, StubCall.GetQueryResult ticketSelector] }
      (keysToDelete (rt.mapRange g))).queryFault = ctx.queryFault := rfl
  generalize applyDeletes
      { ctx with calls := ctx.calls ++
          [StubCall.GetQueryResult proofSelector, StubCall.GetQueryResult ticketSelector] }
      (keysToDelete (rt.mapRange g)) = ctx1 at hrec hw1 hq1
  have hp1 := bulkRead_after_filter ctx ctx1 proofSelector proofRecords _ hp hq1 hw1
  have ht1 := bulkRead_after_filter ctx ctx1 ticketSelector tickets _ ht hq1 hw1
  obtain ⟨g2, hg2, hrec2⟩ := Reconcile_results field arch rt2 ctx1 dv _ _ hp1 ht1
  have hP : ∀ k, contributionsTo field "chained_weight" k
      (scan ctx1.world proofSelector) =
      (contributionsTo field "chained_weight" k (scan ctx.world proofSelector)).filter
        (fun c => decide (c.1 ∉ keysToDelete (rt.mapRange g))) := by
    intro k
    rw [hw1, scan_filter]
    exact contributionsTo_filter field "chained_weight" k
      (fun key => decide (key ∉ keysToDelete (rt.mapRange g))) _
  have hT : ∀ k, contributionsTo "incrementId" "receivedWeight" k
      (scan ctx1.world ticketSelector) =
      contributionsTo "incrementId" "receivedWeight" k (scan ctx.world ticketSelector) := by
    intro k
    rw [hw1, scan_filter]
    congr 1
    rw [List.filter_eq_self]
    intro kv hkv
    simp only [decide_eq_true_eq]
    intro hdelk
    obtain ⟨e, he, _, hkey⟩ := (hmemK kv.1).1 hdelk
    obtain ⟨item, hitem, hik, _⟩ :=
      (recordIDs_of_bucket field ctx.world g hg e he kv.1).1 hkey
    have heq : item = kv := hinj item (hsub _ item hitem).1 kv (hsub _ kv hkv).1 hik
    subst heq
    exact selectors_disjoint item.2 (hsub _ item hitem).2 (hsub _ item hkv).2
  have caseA : ∀ e ∈ g, Violating e.2 →
      g2.find e.1 = some { ChainedWeightSum := F64.finite 0, ReceivedWeightMax := e.2.ReceivedWeightMax,
                           TicketCount := e.2.TicketCount, RecordIDs := [] } := by
    intro e he hv
    have hfind : g.find e.1 = some e.2 := (Groups.mem_iff_find g hg.1 e.1 e.2).1 he
    rw [hg.2 e.1] at hfind
    rw [hg2.2 e.1, hP, hT]
    have hnil : (contributionsTo field "chained_weight" e.1
        (scan ctx.world proofSelector)).filter
        (fun c => decide (c.1 ∉ keysToDelete (rt.mapRange g))) = [] := by
      rw [List.filter_eq_nil_iff]
      intro c hc
      simp only [decide_eq_true_eq, not_not]
      refine (hmemK c.1).2 ⟨e, he, hv, ?_⟩
      obtain ⟨item, hitem, hik, hnum⟩ :=
        (mem_contributionsTo field "chained_weight" e.1 _ c.1 c.2).1 hc
      exact (recordIDs_of_bucket field ctx.world g hg e he c.1).2 ⟨item, hitem, hik, c.2, hnum⟩
    rw [hnil]
    unfold bucketOf at hfind ⊢
    by_cases hemp : contributionsTo field "chained_weight" e.1 (scan ctx.world proofSelector) = [] ∧
        contributionsTo "incrementId" "receivedWeight" e.1 (scan ctx.world ticketSelector) = []
    · rw [if_pos hemp] at hfind
      exact absurd hfind (by simp)
    · rw [if_neg hemp] at hfind
      simp only [Option.some.injEq] at hfind
      have hcount : 0 < e.2.TicketCount := hv.2.1
      rw [← hfind] at hcount ⊢
      simp only at hcount
      have hne : contributionsTo "incrementId" "receivedWeight" e.1
          (scan ctx.world ticketSelector) ≠ [] := by
        intro h0
        rw [h0] at hcount
        simp at hcount
      simp [hne]
      rfl
  have caseB : ∀ k, (∀ d, g.find k = some d → ¬ Violating d) → g2.find k = g.find k := by
    intro k hnot
    rw [hg2.2 k, hg.2 k, hP, hT]
    congr 1
    rw [List.filter_eq_self]
    intro c hc
    simp only [decide_eq_true_eq]
    intro hdelk
    obtain ⟨e, he, hv, hkey⟩ := (hmemK c.1).1 hdelk
    obtain ⟨item', hitem', hik', w', hw'⟩ :=
      (recordIDs_of_bucket field ctx.world g hg e he c.1).1 hkey
    obtain ⟨item, hitem, hik, hnum⟩ :=
      (mem_contributionsTo field "chained_weight" k _ c.1 c.2).1 hc
    have heq : item = item' :=
      hinj item (hsub _ item hitem).1 item' (hsub _ item' hitem').1 (by rw [hik, hik'])
    subst heq
    rw [hnum] at hw'
    simp only [Option.some.injEq, Prod.mk.injEq] at hw'
    have hfind : g.find e.1 = some e.2 := (Groups.mem_iff_find g hg.1 e.1 e.2).1 he
    rw [← hw'.1] at hfind
    exact hnot e.2 hfind hv
  have hclean : ∀ e ∈ g2, ¬ Violating e.2 := by
    intro e he hv
    have hfind2 : g2.find e.1 = some e.2 := (Groups.mem_iff_find g2 hg2.1 e.1 e.2).1 he
    by_cases hex : ∃ d, g.find e.1 = some d ∧ Violating d
    · obtain ⟨d, hd, hvd⟩ := hex
      have hmem : (e.1, d) ∈ g := (Groups.mem_iff_find g hg.1 e.1 d).2 hd
      have h2 := caseA (e.1, d) hmem hvd
      simp only at h2
      rw [hfind2] at h2
      simp only [Option.some.injEq] at h2
      have hpos : F64.lt (F64.finite 0) e.2.ChainedWeightSum := hv.1
      rw [h2] at hpos
      exact absurd hpos (lt_irrefl (0 : ℚ))
    · have h2 := caseB e.1 (fun d hd hvd => hex ⟨d, hd, hvd⟩)
      rw [hfind2] at h2
      exact hex ⟨e.2, h2.symm, hv⟩
  have hres : (rt2.mapRange g2).filterMap (violationOf arch) = [] :=
    filterMap_eq_nil_of_forall _ _ (fun e he =>
      (violationOf_eq_none_iff arch e).2 (hclean e ((rt2.mapRange_perm g2).mem_iff.1 he)))
  have hkeys2 : keysToDelete (rt2.mapRange g2) = [] := by
    rw [List.eq_nil_iff_forall_not_mem]
    intro key hkey
    obtain ⟨e, he, hv, _⟩ := (mem_keysToDelete _ key).1 hkey
    exact hclean e ((rt2.mapRange_perm g2).mem_iff.1 he) hv
  have hsort : rt2.sortSlice lessByIncrementID [] = [] :=
    List.Perm.eq_nil (rt2.sortSlice_perm _ [])
  rw [hres, hkeys2, hsort, applyDeletes_nil] at hrec2
  refine ⟨_, _, g, g2, hrec, hg, hrec2, hg2, ?_, ?_, ?_, caseA, caseB⟩
  · cases hdv : decide (dv = "true") <;> simp [marshalResponse]
  · simp
  · cases hdv : decide (dv = "true") <;> simp

/-- C19: cleanup converges in one pass.  On a world state with distinct keys
whose two bulk reads succeed and where no delete fails, after
`CompareWeightsByPressIncrement("true")` a following
`CompareWeightsByPressIncrement` (with any `deleteViolations`) on the resulting
ledger returns the success document with an empty violation list and no deleted
key, and issues only its two queries; every formerly violating bucket is left
with chained weight sum 0 and no record (its tickets unchanged), and every
other bucket is unchanged.  The same holds for
`CompareWeightsByStoreIncrement`. -/
theorem C19_cleanup_converges (arch : Arch) (rt rt2 : Runtime) (ctx : Stub) (dv : String)
    (proofRecords tickets : List (String × JVal))
    (hp : bulkRead ctx proofSelector = Except.ok proofRecords)
    (ht : bulkRead ctx ticketSelector = Except.ok tickets)
    (hkeys : (ctx.world.map Prod.fst).Nodup)
    (hdel : ∀ kv ∈ ctx.world, ctx.delFault kv.1 = none) :
    (∃ (out1 out2 : Reply × Stub) (g g2 : Groups),
      CompareWeightsByPressIncrement arch rt ctx "true" = some out1 ∧
      IsBucketMap "press_increment" ctx.world g ∧
      CompareWeightsByPressIncrement arch rt2 out1.2 dv = some out2 ∧
      IsBucketMap "press_increment" out1.2.world g2 ∧
      out2.1 = Reply.document
        { Success := true, Results := [], DeletedRecords := [], Message := "" } ∧
      out2.2.world = out1.2.world ∧
      out2.2.calls = out1.2.calls ++
        [StubCall.GetQueryResult proofSelector, StubCall.GetQueryResult ticketSelector] ∧
      (∀ e ∈ g, Violating e.2 →
        g2.find e.1 = some { ChainedWeightSum := F64.finite 0,
                             ReceivedWeightMax := e.2.ReceivedWeightMax,
                             TicketCount := e.2.TicketCount, RecordIDs := [] }) ∧
      (∀ k, (∀ d, g.find k = some d → ¬ Violating d) → g2.find k = g.find k)) ∧
    (∃ (out1 out2 : Reply × Stub) (g g2 : Groups),
      CompareWeightsByStoreIncrement arch rt ctx "true" = some out1 ∧
      IsBucketMap "store_increment" ctx.world g ∧
      CompareWeightsByStoreIncrement arch rt2 out1.2 dv = some out2 ∧
      IsBucketMap "store_increment" out1.2.world g2 ∧
      out2.1 = Reply.document
        { Success := true, Results := [], DeletedRecords := [], Message := "" } ∧
      out2.2.world = out1.2.world ∧
      out2.2.calls = out1.2.calls ++
        [StubCall.GetQueryResult proofSelector, StubCall.GetQueryResult ticketSelector] ∧
      (∀ e ∈ g, Violating e.2 →
        g2.find e.1 = some { ChainedWeightSum := F64.finite 0,
                             ReceivedWeightMax := e.2.ReceivedWeightMax,
                             TicketCount := e.2.TicketCount, RecordIDs := [] }) ∧
      (∀ k, (∀ d, g.find k = some d → ¬ Violating d) → g2.find k = g.find k)) := by
  rw [CompareWeightsByPressIncrement_eq, CompareWeightsByStoreIncrement_eq]
  exact ⟨Reconcile_converges _ arch rt rt2 ctx dv proofRecords tickets hp ht hkeys hdel,
    Reconcile_converges _ arch rt rt2 ctx dv proofRecords tickets hp ht hkeys hdel⟩

/-- Witness of C19: in the scenario of the specification the first call deletes
the keys of A and B, and the second call reports nothing and deletes nothing;
the same on the world state whose first call returns the empty string. -/
theorem C19_cleanup_converges_witness :
    (∃ (out1 out2 : Reply × Stub),
      CompareWeightsByPressIncrement Arch.amd64 Runtime.inOrder (Stub.healthy sampleWorld)
        "true" = some out1 ∧
      CompareWeightsByPressIncrement Arch.amd64 Runtime.inOrder out1.2 "true" = some out2 ∧
      out2.1 = Reply.document
        { Success := true, Results := [], DeletedRecords := [], Message := "" }) ∧
    (CompareWeightsByPressIncrement Arch.amd64 Runtime.inOrder (Stub.healthy sampleWorld)
        "true").bind
        (fun out1 => (CompareWeightsByPressIncrement Arch.amd64 Runtime.inOrder out1.2
          "true").map (fun out2 => (out1.1, out2.1, out2.2.world))) =
      some (Reply.document
              { Success := true, Results := [⟨5, F64.finite 18, F64.finite 15⟩],
                DeletedRecords := ["PROOF_A", "PROOF_B"], Message := "" },
            Reply.document
              { Success := true, Results := [], DeletedRecords := [], Message := "" },
            [("TICKET_T1", ticketRecord "T1" 5 15)]) ∧
    (CompareWeightsByPressIncrement Arch.amd64 Runtime.inOrder (Stub.healthy overflowWorld)
        "true").bind
        (fun out1 => (CompareWeightsByPressIncrement Arch.amd64 Runtime.inOrder out1.2
          "true").map (fun out2 => (out1.1, out2.1, out2.2.world))) =
      some (Reply.emptyString,
            Reply.document
              { Success := true, Results := [], DeletedRecords := [], Message := "" },
            [("TICKET_T1", ticketRecord "T1" 5 1)]) := by
  refine ⟨?_, by decide!, by decide!⟩
  obtain ⟨⟨out1, out2, _, _, h1, _, h2, _, h3, _⟩, _⟩ :=
    C19_cleanup_converges Arch.amd64 Runtime.inOrder Runtime.inOrder
      (Stub.healthy sampleWorld) "true"
      [("PROOF_A", pressRecord 5 10), ("PROOF_B", pressRecord 5 8)]
      [("TICKET_T1", ticketRecord "T1" 5 15)] rfl rfl (by decide) (fun _ _ => rfl)
  exact ⟨out1, out2, h1, h2, h3⟩

theorem roundToCents_zero : roundToCents (F64.finite 0) = F64.finite 0 := by decide!

theorem Reconcile_entries_ordered (field : String) (arch : Arch) (rt : Runtime) (ctx : Stub)
    (dv : String) :
    ∃ out response, Reconcile field arch rt ctx dv = some out ∧
      out.1 = marshalResponse response ∧
      (∀ r ∈ response.Results,
        F64.le r.ReceivedWeight r.ChainedWeight ∧ F64.le (F64.finite 0) r.ChainedWeight) ∧
      (∀ returned, out.1 = Reply.document returned → ∀ r ∈ returned.Results,
        ∃ c w, r.ChainedWeight = F64.finite c ∧ r.ReceivedWeight = F64.finite w ∧
          w ≤ c ∧ 0 ≤ c) := by
  have key : ∃ out response, Reconcile field arch rt ctx dv = some out ∧
      out.1 = marshalResponse response ∧
      (∀ r ∈ response.Results,
        F64.le r.ReceivedWeight r.ChainedWeight ∧ F64.le (F64.finite 0) r.ChainedWeight) := by
    cases hp : bulkRead ctx proofSelector with
    | error err =>
      refine ⟨_, comparisonFailure err, by rw [Reconcile_cases, hp], rfl, ?_⟩
      intro r hr
      simp [comparisonFailure] at hr
    | ok a =>
      cases ht : bulkRead ctx ticketSelector with
      | error err =>
        have hrec : Reconcile field arch rt ctx dv =
            some (Reply.document (comparisonFailure err),
            { ctx with calls := ctx.calls ++
                [StubCall.GetQueryResult proofSelector,
                 StubCall.GetQueryResult ticketSelector] }) := by
          rw [Reconcile_cases, hp]
          simp only [ht]
        refine ⟨_, comparisonFailure err, hrec, rfl, ?_⟩
        intro r hr
        simp [comparisonFailure] at hr
      | ok b =>
        obtain ⟨g, out, response, _, hrec, hm, _, hall⟩ :=
          Reconcile_entries field arch rt ctx dv a b hp ht
        refine ⟨out, response, hrec, hm, ?_⟩
        intro r hr
        obtain ⟨e, _, m, ⟨hpos, _, hlt⟩, _, _, _, hc, hrw, _⟩ := hall r hr
        rw [hc, hrw]
        constructor
        · exact roundToCents_mono _ _ (fle_of_flt _ _ hlt)
        · have := roundToCents_mono _ _ (fle_of_flt _ _ hpos)
          rw [roundToCents_zero] at this
          exact this
  obtain ⟨out, response, hrec, hm, hall⟩ := key
  refine ⟨out, response, hrec, hm, hall, ?_⟩
  intro returned hret r hr
  rw [hm] at hret
  obtain ⟨heq, hfin⟩ := (marshalResponse_cases response).2.2.1 returned hret
  rw [heq] at hr
  have hf := hfin r hr
  obtain ⟨h1, h2⟩ := hall r hr
  unfold entryFinite at hf
  cases hc : r.ChainedWeight with
  | finite c =>
    cases hw : r.ReceivedWeight with
    | finite w =>
      rw [hc, hw] at h1
      rw [hc] at h2
      exact ⟨c, w, rfl, rfl, h1, h2⟩
    | posInf => rw [hw] at hf; simp [F64.isFinite] at hf
    | negInf => rw [hw] at hf; simp [F64.isFinite] at hf
    | nan => rw [hw] at hf; simp [F64.isFinite] at hf
  | posInf => rw [hc] at hf; simp [F64.isFinite] at hf
  | negInf => rw [hc] at hf; simp [F64.isFinite] at hf
  | nan => rw [hc] at hf; simp [F64.isFinite] at hf

/-- C20: the violation entries are classified on the unrounded weights and
reported with the rounded ones.  Each reconcile operation returns, and every
entry of the response it builds has `chainedWeight ≥ receivedWeight` and
`chainedWeight ≥ 0` on the emitted two-decimal `float64` values; in a returned
document both are finite numbers in that order.  The strict inequality of the
classification is not preserved: on a world state whose bucket 5 has sum
15.004 against maximum 15.001 the emitted entry has both weights equal to 15. -/
theorem C20_rounded_entries_weakly_ordered :
    (∀ (arch : Arch) (rt : Runtime) (ctx : Stub) (dv : String),
      ∃ out response, CompareWeightsByPressIncrement arch rt ctx dv = some out ∧
        out.1 = marshalResponse response ∧
        (∀ r ∈ response.Results,
          F64.le r.ReceivedWeight r.ChainedWeight ∧ F64.le (F64.finite 0) r.ChainedWeight) ∧
        (∀ returned, out.1 = Reply.document returned → ∀ r ∈ returned.Results,
          ∃ c w, r.ChainedWeight = F64.finite c ∧ r.ReceivedWeight = F64.finite w ∧
            w ≤ c ∧ 0 ≤ c)) ∧
    (∀ (arch : Arch) (rt : Runtime) (ctx : Stub) (dv : String),
      ∃ out response, CompareWeightsByStoreIncrement arch rt ctx dv = some out ∧
        out.1 = marshalResponse response ∧
        (∀ r ∈ response.Results,
          F64.le r.ReceivedWeight r.ChainedWeight ∧ F64.le (F64.finite 0) r.ChainedWeight) ∧
        (∀ returned, out.1 = Reply.document returned → ∀ r ∈ returned.Results,
          ∃ c w, r.ChainedWeight = F64.finite c ∧ r.ReceivedWeight = F64.finite w ∧
            w ≤ c ∧ 0 ≤ c)) ∧
    (bucketsOf "press_increment" roundingWorld =
      some [(5, { ChainedWeightSum := F64.finite (nearestDouble (15004 / 1000)),
                  ReceivedWeightMax := some (nearestDouble (15001 / 1000)),
                  TicketCount := 1, RecordIDs := ["PROOF_A"] })]) ∧
    nearestDouble (15001 / 1000) < nearestDouble (15004 / 1000) ∧
    ((CompareWeightsByPressIncrement Arch.amd64 Runtime.inOrder (Stub.healthy roundingWorld)
        "false").map (fun out => out.1) =
      some (Reply.document
        { Success := true, Results := [⟨5, F64.finite 15, F64.finite 15⟩],
          DeletedRecords := [], Message := "" })) := by
  refine ⟨?_, ?_, by decide!, by decide!, by decide!⟩
  · intro arch rt ctx dv
    rw [CompareWeightsByPressIncrement_eq]
    exact Reconcile_entries_ordered _ arch rt ctx dv
  · intro arch rt ctx dv
    rw [CompareWeightsByStoreIncrement_eq]
    exact Reconcile_entries_ordered _ arch rt ctx dv

end Environ
